import Mathlib

/-!
# Verification of RiverPhillips/go-garmin-gpx (src/gpx.go)

A shallow embedding of the repository's code. The repository consists of
the GPX 1.1 schema binding (the record types with their element/attribute
annotations) and two entry points, `ParseFile` and `Parse`, which delegate
all XML work to the host language's generic annotation-driven XML codec
(`encoding/xml`) and to the file loader (`ioutil.ReadFile`).

The record types and the two entry points are translated directly from
`src/gpx.go`.  The codec boundary and the loader are not part of the
repository's source; they are modelled here from the spec's description of
the codec boundary (sections 2, 4.1, 4.2, 6 of the spec) together with the
documented semantics of the delegated generic XML codec:

* bytes are tokenized into a tree of elements, attributes and character
  data (entities decoded); decoding stops after one complete root element,
  later bytes are never read;
* a record is populated from an element by first recording the element
  name in the `XMLName` field (when the record has one), then assigning
  annotated attributes in order, then walking the child nodes in document
  order: a child element matching a list-annotated field appends a freshly
  decoded item, a child matching a record-annotated field decodes into the
  current value of that field, a child matching a scalar field gathers the
  child's character data (trimmed for numeric types) and coerces it, and a
  child matching nothing is skipped;
* numeric coercion failure is a decode error; fields assigned before the
  error keep their values (no rollback);
* the loader resolves a name to the full byte content or fails, modelled
  as a function from names to `Option` of contents.

Machine floating point carries no arithmetic in this program (values are
only parsed and printed), so `float64`-typed fields are embedded as `ℚ`.
`int`-typed fields are embedded as `ℤ` (no arithmetic is performed on
them, so overflow cannot occur in the program).
-/

namespace GpxSpec

/-! ## Character-level helpers for the modelled codec -/

/-- Space characters recognised by the modelled codec's trimming and
attribute separation (ASCII whitespace). -/
def isSpaceChar (c : Char) : Bool :=
  c == ' ' || c == '\t' || c == '\n' || c == '\r'

/-- Characters allowed in element and attribute names. -/
def isNameChar (c : Char) : Bool :=
  c.isAlpha || c.isDigit || c == '_' || c == ':' || c == '-' || c == '.'

/-- Big-endian decimal digit list to a natural number. -/
def digitsToNat (l : List Char) : Nat :=
  l.foldl (fun a c => a * 10 + (c.toNat - 48)) 0

/-- Big-endian hexadecimal digit list to a natural number. -/
def hexDigitVal (c : Char) : Nat :=
  if c.isDigit then c.toNat - 48
  else if 'a' ≤ c && c ≤ 'f' then c.toNat - 87
  else c.toNat - 55

def isHexDigitChar (c : Char) : Bool :=
  c.isDigit || ('a' ≤ c && c ≤ 'f') || ('A' ≤ c && c ≤ 'F')

def hexDigitsToNat (l : List Char) : Nat :=
  l.foldl (fun a c => a * 16 + hexDigitVal c) 0

/-- The value of a character entity name (between the ampersand and the
semicolon): the five named entities plus decimal and hex references. -/
def entityVal (nm : List Char) : Option Char :=
  match nm with
  | '#' :: 'x' :: ds =>
      if ds ≠ [] && ds.all isHexDigitChar then some (Char.ofNat (hexDigitsToNat ds)) else none
  | '#' :: ds =>
      if ds ≠ [] && ds.all Char.isDigit then some (Char.ofNat (digitsToNat ds)) else none
  | _ =>
      if nm = "amp".toList then some '&'
      else if nm = "lt".toList then some '<'
      else if nm = "gt".toList then some '>'
      else if nm = "quot".toList then some '"'
      else if nm = "apos".toList then some '\'' else none

/-- Read one character entity after the ampersand: text up to the next
semicolon.  Fails (decode error) when unterminated or unknown. -/
def readEntity (cs : List Char) : Option (Char × List Char) :=
  match cs.span (fun c => c ≠ ';') with
  | (nm, rest) =>
    match rest with
    | ';' :: rest' => (entityVal nm).map (fun c => (c, rest'))
    | _ => none

/-! ## The XML node tree produced by the modelled tokenizer -/

/-- A well-formed XML node: an element with attributes and children in
document order, or a run of character data. -/
inductive XNode where
  | text (s : String)
  | elem (name : String) (attrs : List (String × String)) (children : List XNode)

/-- Character data until the next angle bracket (or end of input),
decoding entities.  The fuel bounds recursion; one unit per emitted
character suffices. -/
def readText : Nat → List Char → Option (String × List Char)
  | _, [] => some ("", [])
  | 0, _ :: _ => none
  | fuel + 1, c :: rest =>
      if c = '<' then some ("", c :: rest)
      else if c = '&' then
        match readEntity rest with
        | some (e, rest') =>
            match readText fuel rest' with
            | some (s, r) => some (e.toString ++ s, r)
            | none => none
        | none => none
      else
        match readText fuel rest with
        | some (s, r) => some (c.toString ++ s, r)
        | none => none

/-- An attribute value: characters until the closing quote, entities
decoded. -/
def readAttrValue : Nat → Char → List Char → Option (String × List Char)
  | _, _, [] => none
  | 0, _, _ :: _ => none
  | fuel + 1, q, c :: rest =>
      if c = q then some ("", rest)
      else if c = '&' then
        match readEntity rest with
        | some (e, rest') =>
            match readAttrValue fuel q rest' with
            | some (s, r) => some (e.toString ++ s, r)
            | none => none
        | none => none
      else
        match readAttrValue fuel q rest with
        | some (s, r) => some (c.toString ++ s, r)
        | none => none

/-- The attribute list of a start tag, ending at `>` (returns `false`) or
`/>` (returns `true`). -/
def parseAttrs : Nat → List Char → Option (List (String × String) × Bool × List Char)
  | 0, _ => none
  | fuel + 1, cs =>
      match cs.dropWhile isSpaceChar with
      | [] => none
      | c :: cs₀ =>
          if c = '>' then some ([], false, cs₀)
          else if c = '/' then
            match cs₀ with
            | [] => none
            | c₂ :: r₂ => if c₂ = '>' then some ([], true, r₂) else none
          else
            match (c :: cs₀).span isNameChar with
            | (nm, cs₁) =>
              if nm.isEmpty then none
              else
                match cs₁.dropWhile isSpaceChar with
                | [] => none
                | c₃ :: cs₂ =>
                  if c₃ = '=' then
                    match cs₂.dropWhile isSpaceChar with
                    | [] => none
                    | c₄ :: cs₃ =>
                      if c₄ = '"' then
                        match readAttrValue cs₃.length '"' cs₃ with
                        | some (v, cs₄) =>
                            match parseAttrs fuel cs₄ with
                            | some (attrs, sc, r) => some ((nm.asString, v) :: attrs, sc, r)
                            | none => none
                        | none => none
                      else if c₄ = '\'' then
                        match readAttrValue cs₃.length '\'' cs₃ with
                        | some (v, cs₄) =>
                            match parseAttrs fuel cs₄ with
                            | some (attrs, sc, r) => some ((nm.asString, v) :: attrs, sc, r)
                            | none => none
                        | none => none
                      else none
                  else none

/-- The child-sequence loop: parses text runs and child elements (via the
parameter `pe`, the element parser one fuel level down) until the input
reaches a closing tag.  Reaching end of input is a decode error
(unclosed element). -/
def childLoop (pe : List Char → Option (XNode × List Char)) :
    Nat → List XNode → List Char → Option (List XNode × List Char)
  | 0, _, _ => none
  | fuel + 1, acc, cs =>
      match cs with
      | [] => none
      | c :: cs₀ =>
          if c = '<' then
            match cs₀ with
            | [] => none
            | c₂ :: _ =>
                if c₂ = '/' then some (acc.reverse, c :: cs₀)
                else
                  match pe cs₀ with
                  | some (child, cs') => childLoop pe fuel (child :: acc) cs'
                  | none => none
          else
            match readText (c :: cs₀).length (c :: cs₀) with
            | some (s, cs') => childLoop pe fuel (XNode.text s :: acc) cs'
            | none => none

/-- The end tag of an element: `</`, the element's name again, optional
space, `>`.  Anything else is a tokenizer error. -/
def parseElClose (nm : List Char) (attrs : List (String × String))
    (children : List XNode) : List Char → Option (XNode × List Char)
  | [] => none
  | c :: cs' =>
      if c = '<' then
        match cs' with
        | [] => none
        | c₂ :: cs₄ =>
            if c₂ = '/' then
              match cs₄.span isNameChar with
              | (nm₂, cs₅) =>
                match cs₅.dropWhile isSpaceChar with
                | [] => none
                | c₃ :: cs₆ =>
                    if c₃ = '>' then
                      if nm₂ = nm then some (XNode.elem nm.asString attrs children, cs₆)
                      else none
                    else none
            else none
      else none

/-- One element, starting right after its opening angle bracket: name,
attributes, then either self-closing or children followed by the matching
end tag. -/
def parseEl : Nat → List Char → Option (XNode × List Char)
  | 0, _ => none
  | fuel + 1, cs =>
      match cs.span isNameChar with
      | (nm, cs₁) =>
        if nm.isEmpty then none
        else
          match parseAttrs (cs₁.length + 1) cs₁ with
          | some (attrs, true, cs₂) => some (XNode.elem nm.asString attrs [], cs₂)
          | some (attrs, false, cs₂) =>
              match childLoop (parseEl fuel) (cs₂.length + 1) [] cs₂ with
              | some (children, cs₃) => parseElClose nm attrs children cs₃
              | none => none
          | none => none

/-- The root element of a byte buffer: leading bytes before the first
angle bracket are skipped (the codec discards tokens before the root
element), then exactly one element is read.  Whatever follows the root
element is returned unread: the codec never looks at it. -/
def parseRootNode (s : String) : Option (XNode × List Char) :=
  match (s.toList).dropWhile (fun c => c ≠ '<') with
  | [] => none
  | c :: rest => if c = '<' then parseEl (rest.length + 1) rest else none

/-! ## Scalar coercion (strconv semantics on the schema's scalar types) -/

/-- Decimal digit text (no sign) to a rational: digits with an optional
fractional part. -/
def parseRatCore (l : List Char) : Option ℚ :=
  match l.span Char.isDigit with
  | (d₁, l₂) =>
    match l₂ with
    | [] => if d₁.isEmpty then none else some (mkRat (digitsToNat d₁) 1)
    | '.' :: l₃ =>
        match l₃.span Char.isDigit with
        | (d₂, l₄) =>
          if l₄.isEmpty then
            if d₁.isEmpty && d₂.isEmpty then none
            else some (mkRat (digitsToNat (d₁ ++ d₂)) (10 ^ d₂.length))
          else none
    | _ => none

/-- Decimal text to a rational: optional sign, digits with an optional
fractional part.  Mirrors the coercion applied to `float64`-annotated
fields; anything else is a coercion failure. -/
def parseRatChars (l : List Char) : Option ℚ :=
  match l with
  | [] => none
  | c :: r =>
      if c = '-' then (parseRatCore r).map (fun q => -q)
      else if c = '+' then parseRatCore r
      else parseRatCore (c :: r)

/-- Decimal digit text (no sign) to a natural number. -/
def parseNatCore (l : List Char) : Option ℕ :=
  if l ≠ [] && l.all Char.isDigit then some (digitsToNat l) else none

/-- Decimal text to an integer: optional sign then digits only. -/
def parseIntChars (l : List Char) : Option ℤ :=
  match l with
  | [] => none
  | c :: r =>
      if c = '-' then (parseNatCore r).map (fun n => -(n : ℤ))
      else if c = '+' then (parseNatCore r).map (fun n => (n : ℤ))
      else (parseNatCore (c :: r)).map (fun n => (n : ℤ))

/-- ASCII-whitespace trim applied before numeric coercion. -/
def trimChars (l : List Char) : List Char :=
  ((l.dropWhile isSpaceChar).reverse.dropWhile isSpaceChar).reverse

def parseRatText (s : String) : Option ℚ := parseRatChars (trimChars s.toList)

def parseIntText (s : String) : Option ℤ := parseIntChars (trimChars s.toList)

/-- The character data directly inside an element: the concatenation of
its text children (child elements contribute nothing). -/
def elemText (children : List XNode) : String :=
  (children.filterMap (fun c =>
    match c with
    | XNode.text s => some s
    | XNode.elem _ _ _ => none)).foldl (· ++ ·) ""

/-! ## The schema model (translated field-for-field from src/gpx.go) -/

/-- Latitude is the latitude of the point; decimal degrees (float64). -/
abbrev Latitude := ℚ

/-- Longitude is the longitude of the point; decimal degrees (float64). -/
abbrev Longitude := ℚ

/-- Degrees is used for bearing, heading, course (float64). -/
abbrev Degrees := ℚ

/-- Fix represents type of GPS fix: a string-typed scalar. -/
abbrev Fix := String

/-- None means we didn't get a fix. -/
def None : Fix := "none"

/-- TwoDimensional fix. -/
def TwoDimensional : Fix := "2d"

/-- ThreeDimensional fix. -/
def ThreeDimensional : Fix := "3d"

/-- DGPS means a digital GPS fix. -/
def DGPS : Fix := "dgps"

/-- PPS means that a military signal was used. -/
def PPS : Fix := "pps"

/-- DGPSStation represents a differential GPS station (int). -/
abbrev DGPSStation := ℤ

/-- Link is for an external resource with additional information.
Tags: XMLName `link`; `href,attr,omitempty`; `text,omitempty`;
`type,omitempty`. -/
structure Link where
  XMLName : String
  URL : String
  Text : String
  Type' : String
  deriving DecidableEq

def Link.empty : Link := ⟨"", "", "", ""⟩

/-- Email address broken into two parts.  Tags: XMLName `email`;
`id,attr,omitempty`; `domain,attr,omitempty`. -/
structure Email where
  XMLName : String
  ID : String
  Domain : String
  deriving DecidableEq

def Email.empty : Email := ⟨"", "", ""⟩

/-- Person is a person or an organisation.  Tags: XMLName `author`;
`name,omitempty`; `email,omitempty`; `link,omitempty`. -/
structure Person where
  XMLName : String
  Name : String
  Email : Email
  Link : Link
  deriving DecidableEq

def Person.empty : Person := ⟨"", "", Email.empty, Link.empty⟩

/-- Copyright has information about holder and license.  Tags: XMLName
`copyright`; `author,attr`; `year,omitempty`; `license,omitempty`. -/
structure Copyright where
  XMLName : String
  Author : String
  Year : String
  License : String
  deriving DecidableEq

def Copyright.empty : Copyright := ⟨"", "", "", ""⟩

/-- Bounds are two latitude longitude pairs defining the extent of an
element.  Tags: XMLName `bounds`; `minlat,attr`; `maxlat,attr`;
`minlon,attr`; `maxlon,attr`. -/
structure Bounds where
  XMLName : String
  MinLat : ℚ
  MaxLat : ℚ
  MinLon : ℚ
  MaxLon : ℚ
  deriving DecidableEq

def Bounds.empty : Bounds := ⟨"", 0, 0, 0, 0⟩

/-- TrackPointExtension tracks temperature, heart rate and cadence.
Tags: XMLName `TrackPointExtension`; `atemp,omitempty`; `hr,omitempty`;
`cad,omitempty`. -/
structure TrackPointExtension where
  XMLName : String
  Temperature : ℤ
  HeartRate : ℤ
  Cadence : ℤ
  deriving DecidableEq

def TrackPointExtension.empty : TrackPointExtension := ⟨"", 0, 0, 0⟩

/-- Extension extends GPX by adding your own elements from another
schema.  Tags: XMLName `extensions`; `TrackPointExtension,omitempty`. -/
structure Extension where
  XMLName : String
  TrackPointExtensions : TrackPointExtension
  deriving DecidableEq

def Extension.empty : Extension := ⟨"", TrackPointExtension.empty⟩

/-- WayPoint is a point of interest, or named feature on a map.  Tags:
`lat,attr`; `lon,attr`; `ele,omitempty`; `time,omitempty`;
`magvar,omitempty`; `geoidheight,omitempty`; `name,omitempty`;
`cmt,omitempty`; `desc,omitempty`; `src,omitempty`; `link`;
`sym,omitempty`; `type,omitempty`; `fix,omitempty`; `sat,omitempty`;
`hdop,omitempty`; `vdop,omitempty`; `pdop,omitempty`;
`ageofgpsdata,omitempty`; `dgpsid,omitempty`; `extensions,omitempty`. -/
structure WayPoint where
  Latitude : Latitude
  Longitude : Longitude
  Elevation : ℚ
  Timestamp : String
  MagneticVariation : Degrees
  GeoIDHeight : String
  Name : String
  Comment : String
  Description : String
  Source : String
  Links : List Link
  Symbol : String
  Type' : String
  Fix : Fix
  Sat : ℤ
  HorizontalDilutionOfPrecision : ℚ
  VerticalDilutionOfPrecision : ℚ
  PositionDilutionOfPrecision : ℚ
  AgeOfGpsData : ℚ
  DifferentialGPSID : DGPSStation
  Extensions : Extension
  deriving DecidableEq

def WayPoint.empty : WayPoint :=
  ⟨0, 0, 0, "", 0, "", "", "", "", "", [], "", "", "", 0, 0, 0, 0, 0, 0, Extension.empty⟩

/-- Route is an ordered list of Waypoints leading to a destination.
Tags: XMLName `rte`; `name,omitempty`; `cmt,omitempty`; `desc,omitempty`;
`src,omitempty`; `link`; `number,omitempty`; `type,omitempty`;
`extensions,omitempty`; `rtept`. -/
structure Route where
  XMLName : String
  Name : String
  Comment : String
  Description : String
  Source : String
  Links : List Link
  Number : ℤ
  Type' : String
  Extensions : Extension
  RoutePoints : List WayPoint
  deriving DecidableEq

def Route.empty : Route := ⟨"", "", "", "", "", [], 0, "", Extension.empty, []⟩

/-- TrackSegment has a list of continuous span of TrackPoints.  Tags:
XMLName `trkseg`; `trkpt`; `extensions,omitempty`. -/
structure TrackSegment where
  XMLName : String
  TrackPoint : List WayPoint
  Extensions : Extension
  deriving DecidableEq

def TrackSegment.empty : TrackSegment := ⟨"", [], Extension.empty⟩

/-- Track represents a track - an ordered list of points describing a
path.  Tags: XMLName `trk`; `name,omitempty`; `cmt,omitempty`;
`desc,omitempty`; `src,omitempty`; `link`; `number,omitempty`;
`type,omitempty`; `extensions,omitempty`; `trkseg`. -/
structure Track where
  XMLName : String
  Name : String
  Comment : String
  Description : String
  Source : String
  Links : List Link
  Number : ℤ
  Type' : String
  Extensions : Extension
  TrackSegments : List TrackSegment
  deriving DecidableEq

def Track.empty : Track := ⟨"", "", "", "", "", [], 0, "", Extension.empty, []⟩

/-- Point with optional elevation and time.  Tags: XMLName `pt`;
`lat,attr`; `lon,attr`; `ele,omitempty`; `time,omitempty`. -/
structure Point where
  XMLName : String
  Latitude : Latitude
  Longitude : Longitude
  Elevation : ℚ
  Timestamp : String
  deriving DecidableEq

def Point.empty : Point := ⟨"", 0, 0, 0, ""⟩

/-- PointSegment is a sequence of Points.  Tags: XMLName `ptseg`;
`pt`. -/
structure PointSegment where
  XMLName : String
  Points : List Point
  deriving DecidableEq

def PointSegment.empty : PointSegment := ⟨"", []⟩

/-- Metadata has information about the GPX file.  Tags: XMLName
`metadata`; `name,omitempty`; `desc,omitempty`; `author,omitempty`;
`copyright,omitempty`; `link,omitempty`; `time,omitempty`;
`keywords,omitempty`; `bounds`; `extensions,omitempty`. -/
structure Metadata where
  XMLName : String
  Name : String
  Description : String
  Author : Person
  Copyright : Copyright
  Links : List Link
  Timestamp : String
  Keywords : String
  Bounds : Bounds
  Extensions : Extension
  deriving DecidableEq

def Metadata.empty : Metadata :=
  ⟨"", "", "", Person.empty, Copyright.empty, [], "", "", Bounds.empty, Extension.empty⟩

/-- GPX is the root element.  Tags: XMLName `gpx`; `version,attr`;
`creator,attr`; `metadata,omitempty`; `wpt,omitempty`; `rte,omitempty`;
`trk`. -/
structure GPX where
  XMLName : String
  Version : String
  Creator : String
  Metadata : Metadata
  Waypoints : List WayPoint
  Routes : List Route
  Tracks : Track
  deriving DecidableEq

def GPX.empty : GPX := ⟨"", "", "", Metadata.empty, [], [], Track.empty⟩

/-! ## Errors -/

/-- The two error kinds of the spec (section 7), with decode errors split
by origin: tokenization failure, coercion failure, or root element name
mismatch.  All non-`ioError` values are decode errors. -/
inductive GpxError where
  | ioError
  | synError
  | valError
  | rootError
  deriving DecidableEq

/-! ## Binders: populating each record from an element

Each binder mirrors the generic codec's walk for the record's annotation
table: `XMLName`, then attributes in order, then children in document
order.  On error the record keeps everything assigned so far (the codec
does not roll back). -/

/-- Fold a step over a list, stopping at (and returning) the first
error while keeping the state reached so far. -/
def bindFold {σ α : Type} (step : σ → α → σ × Option GpxError) :
    σ → List α → σ × Option GpxError
  | s, [] => (s, none)
  | s, a :: rest =>
      match step s a with
      | (s', none) => bindFold step s' rest
      | (s', some e) => (s', some e)

def Link.stepAttr (l : Link) (a : String × String) : Link × Option GpxError :=
  if a.1 = "href" then ({ l with URL := a.2 }, none) else (l, none)

def Link.stepChild (l : Link) (c : XNode) : Link × Option GpxError :=
  match c with
  | XNode.text _ => (l, none)
  | XNode.elem n _ ch =>
      if n = "text" then ({ l with Text := elemText ch }, none)
      else if n = "type" then ({ l with Type' := elemText ch }, none)
      else (l, none)

def bindLink (l : Link) (x : XNode) : Link × Option GpxError :=
  match x with
  | XNode.text _ => (l, some GpxError.synError)
  | XNode.elem n attrs children =>
      match bindFold Link.stepAttr { l with XMLName := n } attrs with
      | (l', none) => bindFold Link.stepChild l' children
      | r => r

def Email.stepAttr (e : Email) (a : String × String) : Email × Option GpxError :=
  if a.1 = "id" then ({ e with ID := a.2 }, none)
  else if a.1 = "domain" then ({ e with Domain := a.2 }, none)
  else (e, none)

def bindEmail (e : Email) (x : XNode) : Email × Option GpxError :=
  match x with
  | XNode.text _ => (e, some GpxError.synError)
  | XNode.elem n attrs _children =>
      bindFold Email.stepAttr { e with XMLName := n } attrs

def Person.stepChild (p : Person) (c : XNode) : Person × Option GpxError :=
  match c with
  | XNode.text _ => (p, none)
  | XNode.elem n _ ch =>
      if n = "name" then ({ p with Name := elemText ch }, none)
      else if n = "email" then
        match bindEmail p.Email c with
        | (e, err) => ({ p with Email := e }, err)
      else if n = "link" then
        match bindLink p.Link c with
        | (l, err) => ({ p with Link := l }, err)
      else (p, none)

def bindPerson (p : Person) (x : XNode) : Person × Option GpxError :=
  match x with
  | XNode.text _ => (p, some GpxError.synError)
  | XNode.elem n _attrs children =>
      bindFold Person.stepChild { p with XMLName := n } children

def Copyright.stepAttr (c : Copyright) (a : String × String) : Copyright × Option GpxError :=
  if a.1 = "author" then ({ c with Author := a.2 }, none) else (c, none)

def Copyright.stepChild (cp : Copyright) (c : XNode) : Copyright × Option GpxError :=
  match c with
  | XNode.text _ => (cp, none)
  | XNode.elem n _ ch =>
      if n = "year" then ({ cp with Year := elemText ch }, none)
      else if n = "license" then ({ cp with License := elemText ch }, none)
      else (cp, none)

def bindCopyright (cp : Copyright) (x : XNode) : Copyright × Option GpxError :=
  match x with
  | XNode.text _ => (cp, some GpxError.synError)
  | XNode.elem n attrs children =>
      match bindFold Copyright.stepAttr { cp with XMLName := n } attrs with
      | (cp', none) => bindFold Copyright.stepChild cp' children
      | r => r

def Bounds.stepAttr (b : Bounds) (a : String × String) : Bounds × Option GpxError :=
  if a.1 = "minlat" then
    match parseRatText a.2 with
    | some v => ({ b with MinLat := v }, none)
    | none => (b, some GpxError.valError)
  else if a.1 = "maxlat" then
    match parseRatText a.2 with
    | some v => ({ b with MaxLat := v }, none)
    | none => (b, some GpxError.valError)
  else if a.1 = "minlon" then
    match parseRatText a.2 with
    | some v => ({ b with MinLon := v }, none)
    | none => (b, some GpxError.valError)
  else if a.1 = "maxlon" then
    match parseRatText a.2 with
    | some v => ({ b with MaxLon := v }, none)
    | none => (b, some GpxError.valError)
  else (b, none)

def bindBounds (b : Bounds) (x : XNode) : Bounds × Option GpxError :=
  match x with
  | XNode.text _ => (b, some GpxError.synError)
  | XNode.elem n attrs _children =>
      bindFold Bounds.stepAttr { b with XMLName := n } attrs

def TrackPointExtension.stepChild (t : TrackPointExtension) (c : XNode) :
    TrackPointExtension × Option GpxError :=
  match c with
  | XNode.text _ => (t, none)
  | XNode.elem n _ ch =>
      if n = "atemp" then
        match parseIntText (elemText ch) with
        | some v => ({ t with Temperature := v }, none)
        | none => (t, some GpxError.valError)
      else if n = "hr" then
        match parseIntText (elemText ch) with
        | some v => ({ t with HeartRate := v }, none)
        | none => (t, some GpxError.valError)
      else if n = "cad" then
        match parseIntText (elemText ch) with
        | some v => ({ t with Cadence := v }, none)
        | none => (t, some GpxError.valError)
      else (t, none)

def bindTrackPointExtension (t : TrackPointExtension) (x : XNode) :
    TrackPointExtension × Option GpxError :=
  match x with
  | XNode.text _ => (t, some GpxError.synError)
  | XNode.elem n _attrs children =>
      bindFold TrackPointExtension.stepChild { t with XMLName := n } children

def Extension.stepChild (e : Extension) (c : XNode) : Extension × Option GpxError :=
  match c with
  | XNode.text _ => (e, none)
  | XNode.elem n _ _ =>
      if n = "TrackPointExtension" then
        match bindTrackPointExtension e.TrackPointExtensions c with
        | (t, err) => ({ e with TrackPointExtensions := t }, err)
      else (e, none)

def bindExtension (e : Extension) (x : XNode) : Extension × Option GpxError :=
  match x with
  | XNode.text _ => (e, some GpxError.synError)
  | XNode.elem n _attrs children =>
      bindFold Extension.stepChild { e with XMLName := n } children

def WayPoint.stepAttr (w : WayPoint) (a : String × String) : WayPoint × Option GpxError :=
  if a.1 = "lat" then
    match parseRatText a.2 with
    | some v => ({ w with Latitude := v }, none)
    | none => (w, some GpxError.valError)
  else if a.1 = "lon" then
    match parseRatText a.2 with
    | some v => ({ w with Longitude := v }, none)
    | none => (w, some GpxError.valError)
  else (w, none)

/-- The element-annotated fields of WayPoint, as the codec's field
table: each child element name is first resolved against this table. -/
inductive WPField where
  | ele | time | magvar | geoidheight | name | cmt | desc | src | link
  | sym | typ | fix | sat | hdop | vdop | pdop | ageofgpsdata | dgpsid
  | extensions
  deriving DecidableEq

/-- Field-table lookup for WayPoint child elements. -/
def WayPoint.fieldOf (n : String) : Option WPField :=
  if n = "ele" then some WPField.ele
  else if n = "time" then some WPField.time
  else if n = "magvar" then some WPField.magvar
  else if n = "geoidheight" then some WPField.geoidheight
  else if n = "name" then some WPField.name
  else if n = "cmt" then some WPField.cmt
  else if n = "desc" then some WPField.desc
  else if n = "src" then some WPField.src
  else if n = "link" then some WPField.link
  else if n = "sym" then some WPField.sym
  else if n = "type" then some WPField.typ
  else if n = "fix" then some WPField.fix
  else if n = "sat" then some WPField.sat
  else if n = "hdop" then some WPField.hdop
  else if n = "vdop" then some WPField.vdop
  else if n = "pdop" then some WPField.pdop
  else if n = "ageofgpsdata" then some WPField.ageofgpsdata
  else if n = "dgpsid" then some WPField.dgpsid
  else if n = "extensions" then some WPField.extensions
  else none

/-- Apply one matched child element to a WayPoint: `c` is the child
node, `ch` its children (for scalar character data). -/
def WayPoint.applyChild (w : WayPoint) (f : WPField) (c : XNode) (ch : List XNode) :
    WayPoint × Option GpxError :=
  match f with
  | WPField.ele =>
      match parseRatText (elemText ch) with
      | some v => ({ w with Elevation := v }, none)
      | none => (w, some GpxError.valError)
  | WPField.time => ({ w with Timestamp := elemText ch }, none)
  | WPField.magvar =>
      match parseRatText (elemText ch) with
      | some v => ({ w with MagneticVariation := v }, none)
      | none => (w, some GpxError.valError)
  | WPField.geoidheight => ({ w with GeoIDHeight := elemText ch }, none)
  | WPField.name => ({ w with Name := elemText ch }, none)
  | WPField.cmt => ({ w with Comment := elemText ch }, none)
  | WPField.desc => ({ w with Description := elemText ch }, none)
  | WPField.src => ({ w with Source := elemText ch }, none)
  | WPField.link =>
      match bindLink Link.empty c with
      | (l, err) => ({ w with Links := w.Links ++ [l] }, err)
  | WPField.sym => ({ w with Symbol := elemText ch }, none)
  | WPField.typ => ({ w with Type' := elemText ch }, none)
  | WPField.fix => ({ w with Fix := elemText ch }, none)
  | WPField.sat =>
      match parseIntText (elemText ch) with
      | some v => ({ w with Sat := v }, none)
      | none => (w, some GpxError.valError)
  | WPField.hdop =>
      match parseRatText (elemText ch) with
      | some v => ({ w with HorizontalDilutionOfPrecision := v }, none)
      | none => (w, some GpxError.valError)
  | WPField.vdop =>
      match parseRatText (elemText ch) with
      | some v => ({ w with VerticalDilutionOfPrecision := v }, none)
      | none => (w, some GpxError.valError)
  | WPField.pdop =>
      match parseRatText (elemText ch) with
      | some v => ({ w with PositionDilutionOfPrecision := v }, none)
      | none => (w, some GpxError.valError)
  | WPField.ageofgpsdata =>
      match parseRatText (elemText ch) with
      | some v => ({ w with AgeOfGpsData := v }, none)
      | none => (w, some GpxError.valError)
  | WPField.dgpsid =>
      match parseIntText (elemText ch) with
      | some v => ({ w with DifferentialGPSID := v }, none)
      | none => (w, some GpxError.valError)
  | WPField.extensions =>
      match bindExtension w.Extensions c with
      | (e, err) => ({ w with Extensions := e }, err)

def WayPoint.stepChild (w : WayPoint) (c : XNode) : WayPoint × Option GpxError :=
  match c with
  | XNode.text _ => (w, none)
  | XNode.elem n _ ch =>
      match WayPoint.fieldOf n with
      | some f => WayPoint.applyChild w f c ch
      | none => (w, none)

def bindWayPoint (w : WayPoint) (x : XNode) : WayPoint × Option GpxError :=
  match x with
  | XNode.text _ => (w, some GpxError.synError)
  | XNode.elem _n attrs children =>
      match bindFold WayPoint.stepAttr w attrs with
      | (w', none) => bindFold WayPoint.stepChild w' children
      | r => r

/-- The element-annotated fields of Route. -/
inductive RteField where
  | name | cmt | desc | src | link | number | typ | extensions | rtept
  deriving DecidableEq

/-- Field-table lookup for Route child elements. -/
def Route.fieldOf (n : String) : Option RteField :=
  if n = "name" then some RteField.name
  else if n = "cmt" then some RteField.cmt
  else if n = "desc" then some RteField.desc
  else if n = "src" then some RteField.src
  else if n = "link" then some RteField.link
  else if n = "number" then some RteField.number
  else if n = "type" then some RteField.typ
  else if n = "extensions" then some RteField.extensions
  else if n = "rtept" then some RteField.rtept
  else none

/-- Apply one matched child element to a Route. -/
def Route.applyChild (r : Route) (f : RteField) (c : XNode) (ch : List XNode) :
    Route × Option GpxError :=
  match f with
  | RteField.name => ({ r with Name := elemText ch }, none)
  | RteField.cmt => ({ r with Comment := elemText ch }, none)
  | RteField.desc => ({ r with Description := elemText ch }, none)
  | RteField.src => ({ r with Source := elemText ch }, none)
  | RteField.link =>
      match bindLink Link.empty c with
      | (l, err) => ({ r with Links := r.Links ++ [l] }, err)
  | RteField.number =>
      match parseIntText (elemText ch) with
      | some v => ({ r with Number := v }, none)
      | none => (r, some GpxError.valError)
  | RteField.typ => ({ r with Type' := elemText ch }, none)
  | RteField.extensions =>
      match bindExtension r.Extensions c with
      | (e, err) => ({ r with Extensions := e }, err)
  | RteField.rtept =>
      match bindWayPoint WayPoint.empty c with
      | (w, err) => ({ r with RoutePoints := r.RoutePoints ++ [w] }, err)

def Route.stepChild (r : Route) (c : XNode) : Route × Option GpxError :=
  match c with
  | XNode.text _ => (r, none)
  | XNode.elem n _ ch =>
      match Route.fieldOf n with
      | some f => Route.applyChild r f c ch
      | none => (r, none)

def bindRoute (r : Route) (x : XNode) : Route × Option GpxError :=
  match x with
  | XNode.text _ => (r, some GpxError.synError)
  | XNode.elem n _attrs children =>
      bindFold Route.stepChild { r with XMLName := n } children

def TrackSegment.stepChild (t : TrackSegment) (c : XNode) : TrackSegment × Option GpxError :=
  match c with
  | XNode.text _ => (t, none)
  | XNode.elem n _ _ =>
      if n = "trkpt" then
        match bindWayPoint WayPoint.empty c with
        | (w, err) => ({ t with TrackPoint := t.TrackPoint ++ [w] }, err)
      else if n = "extensions" then
        match bindExtension t.Extensions c with
        | (e, err) => ({ t with Extensions := e }, err)
      else (t, none)

def bindTrackSegment (t : TrackSegment) (x : XNode) : TrackSegment × Option GpxError :=
  match x with
  | XNode.text _ => (t, some GpxError.synError)
  | XNode.elem n _attrs children =>
      bindFold TrackSegment.stepChild { t with XMLName := n } children

/-- The element-annotated fields of Track. -/
inductive TrkField where
  | name | cmt | desc | src | link | number | typ | extensions | trkseg
  deriving DecidableEq

/-- Field-table lookup for Track child elements. -/
def Track.fieldOf (n : String) : Option TrkField :=
  if n = "name" then some TrkField.name
  else if n = "cmt" then some TrkField.cmt
  else if n = "desc" then some TrkField.desc
  else if n = "src" then some TrkField.src
  else if n = "link" then some TrkField.link
  else if n = "number" then some TrkField.number
  else if n = "type" then some TrkField.typ
  else if n = "extensions" then some TrkField.extensions
  else if n = "trkseg" then some TrkField.trkseg
  else none

/-- Apply one matched child element to a Track. -/
def Track.applyChild (t : Track) (f : TrkField) (c : XNode) (ch : List XNode) :
    Track × Option GpxError :=
  match f with
  | TrkField.name => ({ t with Name := elemText ch }, none)
  | TrkField.cmt => ({ t with Comment := elemText ch }, none)
  | TrkField.desc => ({ t with Description := elemText ch }, none)
  | TrkField.src => ({ t with Source := elemText ch }, none)
  | TrkField.link =>
      match bindLink Link.empty c with
      | (l, err) => ({ t with Links := t.Links ++ [l] }, err)
  | TrkField.number =>
      match parseIntText (elemText ch) with
      | some v => ({ t with Number := v }, none)
      | none => (t, some GpxError.valError)
  | TrkField.typ => ({ t with Type' := elemText ch }, none)
  | TrkField.extensions =>
      match bindExtension t.Extensions c with
      | (e, err) => ({ t with Extensions := e }, err)
  | TrkField.trkseg =>
      match bindTrackSegment TrackSegment.empty c with
      | (s, err) => ({ t with TrackSegments := t.TrackSegments ++ [s] }, err)

def Track.stepChild (t : Track) (c : XNode) : Track × Option GpxError :=
  match c with
  | XNode.text _ => (t, none)
  | XNode.elem n _ ch =>
      match Track.fieldOf n with
      | some f => Track.applyChild t f c ch
      | none => (t, none)

def bindTrack (t : Track) (x : XNode) : Track × Option GpxError :=
  match x with
  | XNode.text _ => (t, some GpxError.synError)
  | XNode.elem n _attrs children =>
      bindFold Track.stepChild { t with XMLName := n } children

/-- The element-annotated fields of Metadata. -/
inductive MdField where
  | name | desc | author | copyright | link | time | keywords | bounds | extensions
  deriving DecidableEq

/-- Field-table lookup for Metadata child elements. -/
def Metadata.fieldOf (n : String) : Option MdField :=
  if n = "name" then some MdField.name
  else if n = "desc" then some MdField.desc
  else if n = "author" then some MdField.author
  else if n = "copyright" then some MdField.copyright
  else if n = "link" then some MdField.link
  else if n = "time" then some MdField.time
  else if n = "keywords" then some MdField.keywords
  else if n = "bounds" then some MdField.bounds
  else if n = "extensions" then some MdField.extensions
  else none

/-- Apply one matched child element to a Metadata. -/
def Metadata.applyChild (m : Metadata) (f : MdField) (c : XNode) (ch : List XNode) :
    Metadata × Option GpxError :=
  match f with
  | MdField.name => ({ m with Name := elemText ch }, none)
  | MdField.desc => ({ m with Description := elemText ch }, none)
  | MdField.author =>
      match bindPerson m.Author c with
      | (p, err) => ({ m with Author := p }, err)
  | MdField.copyright =>
      match bindCopyright m.Copyright c with
      | (cp, err) => ({ m with Copyright := cp }, err)
  | MdField.link =>
      match bindLink Link.empty c with
      | (l, err) => ({ m with Links := m.Links ++ [l] }, err)
  | MdField.time => ({ m with Timestamp := elemText ch }, none)
  | MdField.keywords => ({ m with Keywords := elemText ch }, none)
  | MdField.bounds =>
      match bindBounds m.Bounds c with
      | (b, err) => ({ m with Bounds := b }, err)
  | MdField.extensions =>
      match bindExtension m.Extensions c with
      | (e, err) => ({ m with Extensions := e }, err)

def Metadata.stepChild (m : Metadata) (c : XNode) : Metadata × Option GpxError :=
  match c with
  | XNode.text _ => (m, none)
  | XNode.elem n _ ch =>
      match Metadata.fieldOf n with
      | some f => Metadata.applyChild m f c ch
      | none => (m, none)

def bindMetadata (m : Metadata) (x : XNode) : Metadata × Option GpxError :=
  match x with
  | XNode.text _ => (m, some GpxError.synError)
  | XNode.elem n _attrs children =>
      bindFold Metadata.stepChild { m with XMLName := n } children

def GPX.stepAttr (g : GPX) (a : String × String) : GPX × Option GpxError :=
  if a.1 = "version" then ({ g with Version := a.2 }, none)
  else if a.1 = "creator" then ({ g with Creator := a.2 }, none)
  else (g, none)

def GPX.stepChild (g : GPX) (c : XNode) : GPX × Option GpxError :=
  match c with
  | XNode.text _ => (g, none)
  | XNode.elem n _ _ =>
      if n = "metadata" then
        match bindMetadata g.Metadata c with
        | (m, err) => ({ g with Metadata := m }, err)
      else if n = "wpt" then
        match bindWayPoint WayPoint.empty c with
        | (w, err) => ({ g with Waypoints := g.Waypoints ++ [w] }, err)
      else if n = "rte" then
        match bindRoute Route.empty c with
        | (r, err) => ({ g with Routes := g.Routes ++ [r] }, err)
      else if n = "trk" then
        match bindTrack g.Tracks c with
        | (t, err) => ({ g with Tracks := t }, err)
      else (g, none)

/-- Populate a `GPX` receiver from the root element.  The receiver's
`XMLName` annotation requires the root element to be named `gpx`;
otherwise the receiver is untouched and a decode error is returned. -/
def bindGPX (g : GPX) (x : XNode) : GPX × Option GpxError :=
  match x with
  | XNode.text _ => (g, some GpxError.synError)
  | XNode.elem n attrs children =>
      if n = "gpx" then
        match bindFold GPX.stepAttr { g with XMLName := n } attrs with
        | (g', none) => bindFold GPX.stepChild g' children
        | r => r
      else (g, some GpxError.rootError)

/-! ## The two entry points of src/gpx.go -/

/-- `Parse` bytes of xml (src/gpx.go lines 25-31): delegates to the
codec, decoding into the caller-supplied receiver; returns the receiver's
final state together with the error, if any. -/
def Parse (bytes : String) (g : GPX) : GPX × Option GpxError :=
  match parseRootNode bytes with
  | none => (g, some GpxError.synError)
  | some (t, _rest) => bindGPX g t

/-- Modelled from the spec: the document loader (section 4.1,
`ioutil.ReadFile` in the source, not part of src/) resolves a file name
to its full byte content or fails with an I/O error.  A file system is a
function from names to optional contents. -/
abbrev FileSystem := String → Option String

/-- `ParseFile` takes a file and parses it (src/gpx.go lines 9-22): a
fresh zero receiver, the file is loaded (I/O error returned with the
zero receiver), then decoded with `Parse`. -/
def ParseFile (fs : FileSystem) (fileName : String) : GPX × Option GpxError :=
  let g := GPX.empty
  match fs fileName with
  | none => (g, some GpxError.ioError)
  | some bytes => Parse bytes g

/-! ## Concrete documents named by the claims -/

/-- The exact byte string of the spec's concrete decode scenario. -/
def c3input : String :=
  "<gpx version=\"1.1\" creator=\"test\"><trk><trkseg><trkpt lat=\"1.0\" lon=\"2.0\"><ele>100</ele></trkpt></trkseg></trk></gpx>"

/-- A minimal valid GPX document: only the root element with its two
mandatory attributes. -/
def c7input : String := "<gpx version=\"1.1\" creator=\"test\"></gpx>"

/-- The concrete scenario with an unclosed tag: the spec's scenario
truncated before the closing tags. -/
def c5unclosed : String :=
  "<gpx version=\"1.1\" creator=\"test\"><trk><trkseg><trkpt lat=\"1.0\" lon=\"2.0\"><ele>100</ele>"

/-- A buffer whose root element is complete and well-formed but which is
followed by an unclosed tag, so the buffer as a whole is not well-formed
XML. -/
def c5junk : String := "<gpx version=\"1.1\" creator=\"test\"></gpx><oops>"

/-- A well-formed document whose waypoint elevation text cannot be
coerced to a number: decoding fails after the root attributes (and the
waypoint coordinates) have already been assigned. -/
def c1bad : String :=
  "<gpx version=\"1.1\" creator=\"test\"><wpt lat=\"1.0\" lon=\"2.0\"><ele>abc</ele></wpt></gpx>"

/-- A document whose waypoint fix value is outside the five named
variants. -/
def c8input : String :=
  "<gpx version=\"1.1\" creator=\"test\"><wpt lat=\"1.0\" lon=\"2.0\"><fix>bogus</fix></wpt></gpx>"

/-- A document with a waypoint written with an element-form `lat` child
and no `lat` attribute. -/
def c4input : String :=
  "<gpx version=\"1.1\" creator=\"test\"><wpt><lat>1.0</lat></wpt></gpx>"

/-- A document with two `trk` elements, each with a name and one track
segment. -/
def c10input : String :=
  "<gpx version=\"1.1\" creator=\"test\"><trk><name>A</name><trkseg></trkseg></trk><trk><name>B</name><trkseg></trkseg></trk></gpx>"

/-- Well-formedness of a whole buffer in the sense of the spec's
malformed-input property: the buffer consists of one complete root
element (after any leading character data) followed only by trailing
whitespace. -/
def XmlWellFormed (s : String) : Bool :=
  match parseRootNode s with
  | some (_, rest) => rest.all isSpaceChar
  | none => false

/-- Whether a node is a `wpt` child element. -/
def isWptElem (c : XNode) : Bool :=
  match c with
  | XNode.elem n _ _ => n = "wpt"
  | XNode.text _ => false

/-- Whether a node is a `trk` child element. -/
def isTrkElem (c : XNode) : Bool :=
  match c with
  | XNode.elem n _ _ => n = "trk"
  | XNode.text _ => false

/-- Whether a node is a `trkseg` child element. -/
def isTrksegElem (c : XNode) : Bool :=
  match c with
  | XNode.elem n _ _ => n = "trkseg"
  | XNode.text _ => false

/-- The `wpt` child elements of a children list, in document order. -/
def wptElems (children : List XNode) : List XNode := children.filter isWptElem

/-- The `trk` child elements of a children list, in document order. -/
def trkElems (children : List XNode) : List XNode := children.filter isTrkElem

/-- The `trkseg` child elements of a children list, in document order. -/
def trksegElems (children : List XNode) : List XNode := children.filter isTrksegElem

/-- The waypoint decoded from one `wpt`-like element (the codec decodes
every repeated element into a fresh zero item before appending it). -/
def decodedWayPoint (c : XNode) : WayPoint := (bindWayPoint WayPoint.empty c).1

/-- The track segment decoded from one `trkseg` element. -/
def decodedTrackSegment (c : XNode) : TrackSegment := (bindTrackSegment TrackSegment.empty c).1

/-- The track segments contributed by one `trk` element: its `trkseg`
children, each decoded from a fresh zero segment, in document order. -/
def segsOfTrkElem (c : XNode) : List TrackSegment :=
  match c with
  | XNode.elem _ _ ch => (trksegElems ch).map decodedTrackSegment
  | XNode.text _ => []

/-! ## The symmetric encoder (spec section 4.3)

Modelled from the spec: the encoder is the mirror direction of the same
annotated schema model, not exercised by the two entry points but
required by the spec's round-trip property.  It follows the annotation
semantics of the delegated generic codec: elements and attributes are
written in field order under the fixed annotation names, fields marked
`omitempty` are omitted when they hold the type's zero value (record
fields are never considered empty and are always written), strings are
entity-escaped, and numbers are written in decimal. -/

/-- The character of one decimal digit. -/
def digitChar (d : Nat) : Char := Char.ofNat (48 + d)

/-- Little-endian decimal digits of a number, with explicit fuel (the
number itself suffices). -/
def natDigitsRev : Nat → Nat → List Nat
  | _, 0 => []
  | 0, _ + 1 => []
  | f + 1, n + 1 => (n + 1) % 10 :: natDigitsRev f ((n + 1) / 10)

/-- Decimal digit characters of a natural number. -/
def natToChars (n : Nat) : List Char :=
  if n = 0 then ['0'] else ((natDigitsRev n n).reverse).map digitChar

/-- Left-pad with zero digits to width `k`. -/
def padZeros (k : Nat) (l : List Char) : List Char :=
  List.replicate (k - l.length) '0' ++ l

/-- Decimal characters of an integer. -/
def intToChars (i : ℤ) : List Char :=
  if i < 0 then '-' :: natToChars i.natAbs else natToChars i.natAbs

/-- Decimal characters of a rational whose denominator divides a power
of ten, printed with exactly `q.den` fractional digits. -/
def ratToChars (q : ℚ) : List Char :=
  let k := q.den
  let m := q.num.natAbs * (10 ^ k / q.den)
  (if q.num < 0 then ['-'] else [])
    ++ natToChars (m / 10 ^ k) ++ '.' :: padZeros k (natToChars (m % 10 ^ k))

def ratToText (q : ℚ) : String := (ratToChars q).asString

def intToText (i : ℤ) : String := (intToChars i).asString

/-- XML escaping of one character, as the codec's text writer performs
it (named entities for the three structural characters, character
references for quotes and whitespace controls). -/
def escapeChar (c : Char) : List Char :=
  if c = '&' then "&amp;".toList
  else if c = '<' then "&lt;".toList
  else if c = '>' then "&gt;".toList
  else if c = '"' then "&#34;".toList
  else if c = '\'' then "&#39;".toList
  else if c = '\t' then "&#x9;".toList
  else if c = '\n' then "&#xA;".toList
  else if c = '\r' then "&#xD;".toList
  else [c]

def escapeChars (l : List Char) : List Char :=
  l.foldr (fun c acc => escapeChar c ++ acc) []

/-- One printed attribute: space, name, equals, double-quoted escaped
value. -/
def printAttr (a : String × String) : List Char :=
  ' ' :: (a.1.toList ++ '=' :: '"' :: (escapeChars a.2.toList ++ ['"']))

def printAttrList (attrs : List (String × String)) : List Char :=
  (attrs.map printAttr).flatten

mutual

/-- Serialize a node: escaped character data, or start tag, children,
end tag (the codec always writes an explicit end tag). -/
def printNode : XNode → List Char
  | XNode.text s => escapeChars s.toList
  | XNode.elem n attrs children =>
      '<' :: (n.toList ++ printAttrList attrs
        ++ '>' :: (printChildren children ++ '<' :: '/' :: (n.toList ++ ['>'])))

def printChildren : List XNode → List Char
  | [] => []
  | c :: cs => printNode c ++ printChildren cs

end

/-- The part of a printed element after its opening angle bracket. -/
def printElTail (n : String) (attrs : List (String × String)) (children : List XNode) :
    List Char :=
  n.toList ++ printAttrList attrs
    ++ '>' :: (printChildren children ++ '<' :: '/' :: (n.toList ++ ['>']))

/-- Attribute written only when non-empty (`attr,omitempty`). -/
def optAttr (name v : String) : List (String × String) :=
  if v = "" then [] else [(name, v)]

/-- Element child for a string field with `omitempty`. -/
def strChild (tag v : String) : List XNode :=
  if v = "" then [] else [XNode.elem tag [] [XNode.text v]]

/-- Element child for a float64 field with `omitempty`. -/
def ratChild (tag : String) (v : ℚ) : List XNode :=
  if v = 0 then [] else [XNode.elem tag [] [XNode.text (ratToText v)]]

/-- Element child for an int field with `omitempty`. -/
def intChild (tag : String) (v : ℤ) : List XNode :=
  if v = 0 then [] else [XNode.elem tag [] [XNode.text (intToText v)]]

def marshalLink (l : Link) : XNode :=
  XNode.elem "link" (optAttr "href" l.URL)
    (strChild "text" l.Text ++ strChild "type" l.Type')

def marshalEmail (e : Email) : XNode :=
  XNode.elem "email" (optAttr "id" e.ID ++ optAttr "domain" e.Domain) []

def marshalPerson (p : Person) : XNode :=
  XNode.elem "author" []
    (strChild "name" p.Name ++ [marshalEmail p.Email, marshalLink p.Link])

def marshalCopyright (c : Copyright) : XNode :=
  XNode.elem "copyright" [("author", c.Author)]
    (strChild "year" c.Year ++ strChild "license" c.License)

def marshalBounds (b : Bounds) : XNode :=
  XNode.elem "bounds"
    [("minlat", ratToText b.MinLat), ("maxlat", ratToText b.MaxLat),
     ("minlon", ratToText b.MinLon), ("maxlon", ratToText b.MaxLon)] []

def marshalTrackPointExtension (t : TrackPointExtension) : XNode :=
  XNode.elem "TrackPointExtension" []
    (intChild "atemp" t.Temperature ++ intChild "hr" t.HeartRate
      ++ intChild "cad" t.Cadence)

def marshalExtension (e : Extension) : XNode :=
  XNode.elem "extensions" [] [marshalTrackPointExtension e.TrackPointExtensions]

def marshalWayPoint (tag : String) (w : WayPoint) : XNode :=
  XNode.elem tag [("lat", ratToText w.Latitude), ("lon", ratToText w.Longitude)]
    (ratChild "ele" w.Elevation ++ strChild "time" w.Timestamp
      ++ ratChild "magvar" w.MagneticVariation ++ strChild "geoidheight" w.GeoIDHeight
      ++ strChild "name" w.Name ++ strChild "cmt" w.Comment
      ++ strChild "desc" w.Description ++ strChild "src" w.Source
      ++ w.Links.map marshalLink ++ strChild "sym" w.Symbol
      ++ strChild "type" w.Type' ++ strChild "fix" w.Fix
      ++ intChild "sat" w.Sat ++ ratChild "hdop" w.HorizontalDilutionOfPrecision
      ++ ratChild "vdop" w.VerticalDilutionOfPrecision
      ++ ratChild "pdop" w.PositionDilutionOfPrecision
      ++ ratChild "ageofgpsdata" w.AgeOfGpsData ++ intChild "dgpsid" w.DifferentialGPSID
      ++ [marshalExtension w.Extensions])

def marshalTrackSegment (t : TrackSegment) : XNode :=
  XNode.elem "trkseg" []
    (t.TrackPoint.map (marshalWayPoint "trkpt") ++ [marshalExtension t.Extensions])

def marshalRoute (r : Route) : XNode :=
  XNode.elem "rte" []
    (strChild "name" r.Name ++ strChild "cmt" r.Comment
      ++ strChild "desc" r.Description ++ strChild "src" r.Source
      ++ r.Links.map marshalLink ++ intChild "number" r.Number
      ++ strChild "type" r.Type' ++ [marshalExtension r.Extensions]
      ++ r.RoutePoints.map (marshalWayPoint "rtept"))

def marshalTrack (t : Track) : XNode :=
  XNode.elem "trk" []
    (strChild "name" t.Name ++ strChild "cmt" t.Comment
      ++ strChild "desc" t.Description ++ strChild "src" t.Source
      ++ t.Links.map marshalLink ++ intChild "number" t.Number
      ++ strChild "type" t.Type' ++ [marshalExtension t.Extensions]
      ++ t.TrackSegments.map marshalTrackSegment)

def marshalMetadata (m : Metadata) : XNode :=
  XNode.elem "metadata" []
    (strChild "name" m.Name ++ strChild "desc" m.Description
      ++ [marshalPerson m.Author, marshalCopyright m.Copyright]
      ++ m.Links.map marshalLink ++ strChild "time" m.Timestamp
      ++ strChild "keywords" m.Keywords
      ++ [marshalBounds m.Bounds, marshalExtension m.Extensions])

def marshalGPX (g : GPX) : XNode :=
  XNode.elem "gpx" [("version", g.Version), ("creator", g.Creator)]
    ([marshalMetadata g.Metadata] ++ g.Waypoints.map (marshalWayPoint "wpt")
      ++ g.Routes.map marshalRoute ++ [marshalTrack g.Tracks])

/-- Serialize a Document per the annotated schema model. -/
def Marshal (g : GPX) : String := (printNode (marshalGPX g)).asString

/-! ## Schema-legal values (the domain of the round-trip property) -/

/-- A rational representable as a machine decimal: its denominator
divides a power of ten (every float64 value is of this form). -/
abbrev IsDec (q : ℚ) : Prop := 10 ^ q.den % q.den = 0

/-- A character representable in an XML document. -/
abbrev validXmlChar (c : Char) : Prop :=
  c = '\t' ∨ c = '\n' ∨ c = '\r'
    ∨ (32 ≤ c.toNat ∧ c.toNat ≤ 55295)
    ∨ (57344 ≤ c.toNat ∧ c.toNat ≤ 65533)
    ∨ (65536 ≤ c.toNat ∧ c.toNat ≤ 1114111)

/-- A string representable in an XML document. -/
abbrev ValidStr (s : String) : Prop := ∀ c ∈ s.toList, validXmlChar c

abbrev LegalLink (l : Link) : Prop :=
  l.XMLName = "link" ∧ ValidStr l.URL ∧ ValidStr l.Text ∧ ValidStr l.Type'

abbrev LegalEmail (e : Email) : Prop :=
  e.XMLName = "email" ∧ ValidStr e.ID ∧ ValidStr e.Domain

abbrev LegalPerson (p : Person) : Prop :=
  p.XMLName = "author" ∧ ValidStr p.Name ∧ LegalEmail p.Email ∧ LegalLink p.Link

abbrev LegalCopyright (c : Copyright) : Prop :=
  c.XMLName = "copyright" ∧ ValidStr c.Author ∧ ValidStr c.Year ∧ ValidStr c.License

abbrev LegalBounds (b : Bounds) : Prop :=
  b.XMLName = "bounds" ∧ IsDec b.MinLat ∧ IsDec b.MaxLat ∧ IsDec b.MinLon ∧ IsDec b.MaxLon

abbrev LegalTrackPointExtension (t : TrackPointExtension) : Prop :=
  t.XMLName = "TrackPointExtension"

abbrev LegalExtension (e : Extension) : Prop :=
  e.XMLName = "extensions" ∧ LegalTrackPointExtension e.TrackPointExtensions

abbrev LegalWayPoint (w : WayPoint) : Prop :=
  IsDec w.Latitude ∧ IsDec w.Longitude ∧ IsDec w.Elevation ∧ ValidStr w.Timestamp
    ∧ IsDec w.MagneticVariation ∧ ValidStr w.GeoIDHeight ∧ ValidStr w.Name
    ∧ ValidStr w.Comment ∧ ValidStr w.Description ∧ ValidStr w.Source
    ∧ (∀ l ∈ w.Links, LegalLink l) ∧ ValidStr w.Symbol ∧ ValidStr w.Type'
    ∧ w.Fix ∈ ["", None, TwoDimensional, ThreeDimensional, DGPS, PPS]
    ∧ IsDec w.HorizontalDilutionOfPrecision ∧ IsDec w.VerticalDilutionOfPrecision
    ∧ IsDec w.PositionDilutionOfPrecision ∧ IsDec w.AgeOfGpsData
    ∧ LegalExtension w.Extensions

abbrev LegalTrackSegment (t : TrackSegment) : Prop :=
  t.XMLName = "trkseg" ∧ (∀ w ∈ t.TrackPoint, LegalWayPoint w)
    ∧ LegalExtension t.Extensions

abbrev LegalRoute (r : Route) : Prop :=
  r.XMLName = "rte" ∧ ValidStr r.Name ∧ ValidStr r.Comment ∧ ValidStr r.Description
    ∧ ValidStr r.Source ∧ (∀ l ∈ r.Links, LegalLink l) ∧ ValidStr r.Type'
    ∧ LegalExtension r.Extensions ∧ (∀ w ∈ r.RoutePoints, LegalWayPoint w)

abbrev LegalTrack (t : Track) : Prop :=
  t.XMLName = "trk" ∧ ValidStr t.Name ∧ ValidStr t.Comment ∧ ValidStr t.Description
    ∧ ValidStr t.Source ∧ (∀ l ∈ t.Links, LegalLink l) ∧ ValidStr t.Type'
    ∧ LegalExtension t.Extensions ∧ (∀ s ∈ t.TrackSegments, LegalTrackSegment s)

abbrev LegalMetadata (m : Metadata) : Prop :=
  m.XMLName = "metadata" ∧ ValidStr m.Name ∧ ValidStr m.Description
    ∧ LegalPerson m.Author ∧ LegalCopyright m.Copyright
    ∧ (∀ l ∈ m.Links, LegalLink l) ∧ ValidStr m.Timestamp ∧ ValidStr m.Keywords
    ∧ LegalBounds m.Bounds ∧ LegalExtension m.Extensions

/-- A Document constructed purely from schema-legal field values: record
names hold their annotation names, numbers are machine decimals, strings
are XML-representable, the fix is one of the named variants or absent. -/
abbrev SchemaLegal (g : GPX) : Prop :=
  g.XMLName = "gpx" ∧ ValidStr g.Version ∧ ValidStr g.Creator
    ∧ LegalMetadata g.Metadata ∧ (∀ w ∈ g.Waypoints, LegalWayPoint w)
    ∧ (∀ r ∈ g.Routes, LegalRoute r) ∧ LegalTrack g.Tracks

/-! ## Well-behaved trees (what the encoder emits) -/

/-- No two adjacent character-data children (the tokenizer merges
adjacent runs, so only such trees round-trip verbatim). -/
def noAdjacentTexts : List XNode → Prop
  | XNode.text _ :: XNode.text _ :: _ => False
  | _ :: rest => noAdjacentTexts rest
  | [] => True

/-- A valid XML name: nonempty, all name characters. -/
abbrev GoodName (n : String) : Prop :=
  n ≠ "" ∧ ∀ c ∈ n.toList, isNameChar c = true

/-- Trees the encoder emits: element and attribute names are valid,
character data is nonempty, and no two text children are adjacent. -/
inductive GoodTree : XNode → Prop where
  | text (s : String) (h : s ≠ "") : GoodTree (XNode.text s)
  | elem (n : String) (attrs : List (String × String)) (children : List XNode)
      (hn : GoodName n)
      (ha : ∀ a ∈ attrs, GoodName a.1)
      (hc : ∀ c ∈ children, GoodTree c)
      (hs : noAdjacentTexts children) :
      GoodTree (XNode.elem n attrs children)

mutual

/-- Nesting depth of a node (fuel bound for the element parser). -/
def nodeDepth : XNode → Nat
  | XNode.text _ => 1
  | XNode.elem _ _ children => 1 + childrenDepth children

def childrenDepth : List XNode → Nat
  | [] => 0
  | c :: cs => max (nodeDepth c) (childrenDepth cs)

end

/-- The concrete legal document of the round-trip witness. -/
def c2doc : GPX :=
  { GPX.empty with
      XMLName := "gpx"
      Version := "1.1"
      Creator := "test"
      Metadata := { Metadata.empty with
        XMLName := "metadata"
        Author := { Person.empty with
          XMLName := "author"
          Email := { Email.empty with XMLName := "email" }
          Link := { Link.empty with XMLName := "link" } }
        Copyright := { Copyright.empty with XMLName := "copyright" }
        Bounds := { Bounds.empty with XMLName := "bounds" }
        Extensions := { Extension.empty with
          XMLName := "extensions"
          TrackPointExtensions :=
            { TrackPointExtension.empty with XMLName := "TrackPointExtension" } } }
      Waypoints := [{ WayPoint.empty with
        Latitude := mkRat 1 2
        Longitude := -3
        Name := "hello"
        Fix := "2d"
        Extensions := { Extension.empty with
          XMLName := "extensions"
          TrackPointExtensions :=
            { TrackPointExtension.empty with XMLName := "TrackPointExtension" } } }]
      Tracks := { Track.empty with
        XMLName := "trk"
        Extensions := { Extension.empty with
          XMLName := "extensions"
          TrackPointExtensions :=
            { TrackPointExtension.empty with XMLName := "TrackPointExtension" } } } }

/-! # Theorems -/

/-- Stopping fold: the state after folding is reachable by folding the
successful prefix; an invariant preserved by every step holds of the
final state whether or not an error stopped the fold. -/
theorem bindFold_inv {σ α : Type} (P : σ → Prop) (step : σ → α → σ × Option GpxError)
    (l : List α) (s : σ) (hstep : ∀ t a, a ∈ l → P t → P (step t a).1) (hs : P s) :
    P (bindFold step s l).1 := by
  induction l generalizing s with
  | nil => exact hs
  | cons a rest ih =>
      have hPa : P (step s a).1 := hstep s a (List.mem_cons_self a rest) hs
      simp only [bindFold]
      rcases hsa : step s a with ⟨s', e⟩
      rw [hsa] at hPa
      cases e with
      | none => exact ih s' (fun t b hb => hstep t b (List.mem_cons_of_mem a hb)) hPa
      | some e => exact hPa

/-- Splitting a stopping fold at an error-free prefix. -/
theorem bindFold_append {σ α : Type} (step : σ → α → σ × Option GpxError)
    (xs ys : List α) (s : σ) (h : (bindFold step s xs).2 = none) :
    bindFold step s (xs ++ ys) = bindFold step (bindFold step s xs).1 ys := by
  induction xs generalizing s with
  | nil => simp [bindFold]
  | cons a rest ih =>
      simp only [bindFold, List.cons_append] at *
      rcases hsa : step s a with ⟨s', e⟩
      rw [hsa] at h
      cases e with
      | none => exact ih s' h
      | some e => simp at h

/-- C1 (counterexample): the claim "ParseFile returns a zero-value
Document alongside the error whenever it fails, in both failure cases"
is false in the decode-error case: for a file whose content is
well-formed XML with a non-numeric elevation, ParseFile fails with a
decode error yet the returned Document already carries the decoded
version attribute (and waypoint), so it is not the zero value. -/
theorem c1_counterexample :
    (ParseFile (fun _ => some c1bad) "file.gpx").2 = some GpxError.valError ∧
    (ParseFile (fun _ => some c1bad) "file.gpx").1.Version = "1.1" ∧
    (ParseFile (fun _ => some c1bad) "file.gpx").1 ≠ GPX.empty := by
  refine ⟨by decide, by decide, by decide⟩

/-- C1 (amended): when reading the file fails, ParseFile returns the
zero-value Document alongside the I/O error; when reading succeeds,
ParseFile returns exactly the receiver state and error produced by
decoding the bytes into a fresh zero Document, so on a decode error the
returned Document is the partially populated receiver (not necessarily
the zero value). -/
theorem c1_amended_parsefile_error_states (fs : FileSystem) (path : String) :
    (fs path = none → ParseFile fs path = (GPX.empty, some GpxError.ioError)) ∧
    (∀ b, fs path = some b → ParseFile fs path = Parse b GPX.empty) := by
  constructor
  · intro h
    simp [ParseFile, h]
  · intro b h
    simp [ParseFile, h]

/-- C1 witness: a missing file yields the zero Document and the I/O
error. -/
theorem c1_witness :
    ParseFile (fun _ => none) "missing.gpx" = (GPX.empty, some GpxError.ioError) :=
  (c1_amended_parsefile_error_states (fun _ => none) "missing.gpx").1 rfl

/-- C3: the spec's exact concrete byte string decodes without error to a
Document whose Track holds exactly one TrackSegment holding exactly one
TrackPoint with Latitude 1, Longitude 2 and Elevation 100, and whose
Waypoints and Routes sequences are empty. -/
theorem c3_concrete_scenario :
    (Parse c3input GPX.empty).2 = none ∧
    (Parse c3input GPX.empty).1.Tracks.TrackSegments.map
        (fun s => s.TrackPoint.map (fun w => (w.Latitude, w.Longitude, w.Elevation)))
      = [[(1, 2, 100)]] ∧
    (Parse c3input GPX.empty).1.Waypoints = [] ∧
    (Parse c3input GPX.empty).1.Routes = [] := by
  refine ⟨by decide, by decide, by decide, by decide⟩

/-- C5 (counterexample): the claim "every byte buffer that is not
well-formed XML yields a decode error" is false: a buffer consisting of
a complete root element followed by an unclosed tag is not well-formed
XML, yet Parse succeeds, because the codec stops reading at the end of
the root element. -/
theorem c5_counterexample :
    XmlWellFormed c5junk = false ∧ (Parse c5junk GPX.empty).2 = none := by
  refine ⟨by decide, by decide⟩

/-- C5 (amended): a buffer that cannot be tokenized into a complete root
element (for example one with an unclosed tag before the root element
ends, such as the truncated concrete scenario) yields a decode error;
but bytes after the complete root element are never read, so
malformation there does not make Parse fail. -/
theorem c5_amended_malformed_rejection :
    (∀ s g, parseRootNode s = none → (Parse s g).2 = some GpxError.synError) ∧
    XmlWellFormed c5unclosed = false ∧
    (Parse c5unclosed GPX.empty).2 = some GpxError.synError := by
  refine ⟨?_, by decide, by decide⟩
  intro s g h
  simp [Parse, h]

/-- C5 witness: a bare unclosed opening tag is a decode error. -/
theorem c5_witness : (Parse "<gpx" GPX.empty).2 = some GpxError.synError :=
  c5_amended_malformed_rejection.1 "<gpx" GPX.empty rfl

/-- C7: the minimal valid document (root element with its mandatory
attributes only) decodes without error, and every omitted optional field
of the result equals its type's zero value: the result is exactly the
zero Document except for the two attributes and the recorded root
element name. -/
theorem c7_minimal_document :
    Parse c7input GPX.empty
      = ({ GPX.empty with XMLName := "gpx", Version := "1.1", Creator := "test" }, none) := by
  decide

/-- C8: a `fix` child element assigns its literal character data to the
string-typed Fix field, whatever that text is, with no error and no
coercion; in particular the concrete document with `<fix>bogus</fix>`
parses successfully with Fix equal to `"bogus"`, which is none of the
five named variants. -/
theorem c8_fix_free_text :
    (∀ s : String,
        bindWayPoint WayPoint.empty
            (XNode.elem "wpt" [] [XNode.elem "fix" [] [XNode.text s]])
          = ({ WayPoint.empty with Fix := s }, none)) ∧
    "bogus" ∉ [None, TwoDimensional, ThreeDimensional, DGPS, PPS] ∧
    (Parse c8input GPX.empty).2 = none ∧
    (Parse c8input GPX.empty).1.Waypoints.map (fun w => w.Fix) = ["bogus"] := by
  refine ⟨fun s => rfl, by decide, by decide, by decide⟩

/-- C9: whenever the file read succeeds with bytes `b`, ParseFile
returns exactly what decoding `b` into a fresh zero Document produces:
no extra transformation or wrapping. -/
theorem c9_parsefile_composition (fs : FileSystem) (path b : String)
    (h : fs path = some b) :
    ParseFile fs path = Parse b GPX.empty := by
  simp [ParseFile, h]

/-- C9 witness at a concrete file system and path. -/
theorem c9_witness :
    ParseFile (fun _ => some c3input) "track.gpx" = Parse c3input GPX.empty :=
  c9_parsefile_composition (fun _ => some c3input) "track.gpx" c3input rfl

/-- No attribute other than `lat` assigns the Latitude field. -/
theorem wayPoint_stepAttr_preserves_lat (w : WayPoint) (a : String × String)
    (h : a.1 ≠ "lat") : ((WayPoint.stepAttr w a).1).Latitude = w.Latitude := by
  unfold WayPoint.stepAttr
  rw [if_neg h]
  split
  · split <;> rfl
  · rfl

/-- No child element assigns the Latitude field: the binding decodes it
only from the `lat` attribute. -/
theorem wayPoint_stepChild_preserves_lat (w : WayPoint) (c : XNode) :
    ((WayPoint.stepChild w c).1).Latitude = w.Latitude := by
  cases c with
  | text s => rfl
  | elem n attrs ch =>
      simp only [WayPoint.stepChild]
      rcases hf : WayPoint.fieldOf n with _ | f
      · rfl
      · cases f <;>
          simp only [WayPoint.applyChild] <;>
          first
            | rfl
            | (split <;> rfl)

/-- C4: latitude is decoded only from the `lat` attribute of the
containing element, never from child elements: for every waypoint
element without a `lat` attribute (whatever its children, including a
`<lat>` child element), the decoded Latitude is the zero value; in
particular the concrete element-form document decodes its waypoint as
the zero WayPoint. -/
theorem c4_lat_attribute_only :
    (∀ (attrs : List (String × String)) (children : List XNode),
        (∀ a ∈ attrs, a.1 ≠ "lat") →
        ((bindWayPoint WayPoint.empty (XNode.elem "wpt" attrs children)).1).Latitude = 0) ∧
    Parse c4input GPX.empty
      = ({ GPX.empty with
            XMLName := "gpx"
            Version := "1.1"
            Creator := "test"
            Waypoints := [WayPoint.empty] }, none) := by
  refine ⟨?_, by decide⟩
  intro attrs children h
  have hred : bindWayPoint WayPoint.empty (XNode.elem "wpt" attrs children)
      = (match bindFold WayPoint.stepAttr WayPoint.empty attrs with
         | (w', none) => bindFold WayPoint.stepChild w' children
         | r => r) := rfl
  rcases hA : bindFold WayPoint.stepAttr WayPoint.empty attrs with ⟨w', e⟩
  have hw' : w'.Latitude = 0 := by
    have hinv := bindFold_inv (fun w => w.Latitude = 0) WayPoint.stepAttr attrs WayPoint.empty
      (fun t a ha ht => by
        show ((WayPoint.stepAttr t a).1).Latitude = 0
        rw [wayPoint_stepAttr_preserves_lat t a (h a ha)]
        exact ht) rfl
    rw [hA] at hinv
    exact hinv
  rw [hred, hA]
  cases e with
  | none =>
      exact bindFold_inv (fun w => w.Latitude = 0) WayPoint.stepChild children w'
        (fun t a _ ht => by
          show ((WayPoint.stepChild t a).1).Latitude = 0
          rw [wayPoint_stepChild_preserves_lat t a]
          exact ht) hw'
  | some e => exact hw'

/-- C4 witness: a waypoint with only a `lon` attribute and an
element-form `lat` child decodes with zero Latitude. -/
theorem c4_witness :
    ((bindWayPoint WayPoint.empty (XNode.elem "wpt" [("lon", "2.0")]
        [XNode.elem "lat" [] [XNode.text "1.0"]])).1).Latitude = 0 :=
  c4_lat_attribute_only.1 [("lon", "2.0")] [XNode.elem "lat" [] [XNode.text "1.0"]]
    (by decide)

/-- A fold whose steps never error does not error. -/
theorem bindFold_noerr {σ α : Type} (step : σ → α → σ × Option GpxError)
    (l : List α) (s : σ) (h : ∀ t a, a ∈ l → (step t a).2 = none) :
    (bindFold step s l).2 = none := by
  induction l generalizing s with
  | nil => rfl
  | cons a rest ih =>
      simp only [bindFold]
      rcases hsa : step s a with ⟨s', e⟩
      have he := h s a (List.mem_cons_self a rest)
      rw [hsa] at he
      cases e with
      | none => exact ih s' (fun t b hb => h t b (List.mem_cons_of_mem a hb))
      | some e2 => simp at he

/-- GPX attributes never produce a decode error. -/
theorem gpx_stepAttr_noerr (g : GPX) (a : String × String) : (GPX.stepAttr g a).2 = none := by
  unfold GPX.stepAttr
  split_ifs <;> rfl

/-- GPX attribute assignment touches neither the waypoint list nor the
track. -/
theorem gpx_stepAttr_collections (g : GPX) (a : String × String) :
    ((GPX.stepAttr g a).1).Waypoints = g.Waypoints ∧
    ((GPX.stepAttr g a).1).Tracks = g.Tracks := by
  unfold GPX.stepAttr
  split_ifs <;> exact ⟨rfl, rfl⟩

/-- One GPX child step: exactly the `wpt` elements extend the waypoint
list, by one freshly decoded waypoint at the end. -/
theorem gpx_stepChild_waypoints (g : GPX) (c : XNode) :
    ((GPX.stepChild g c).1).Waypoints
      = if isWptElem c then g.Waypoints ++ [decodedWayPoint c] else g.Waypoints := by
  cases c with
  | text s => rfl
  | elem n attrs ch =>
      by_cases hw : n = "wpt"
      · subst hw
        have hstep : GPX.stepChild g (XNode.elem "wpt" attrs ch)
            = (match bindWayPoint WayPoint.empty (XNode.elem "wpt" attrs ch) with
               | (w, err) => ({ g with Waypoints := g.Waypoints ++ [w] }, err)) := rfl
        rw [hstep]
        rcases hbw : bindWayPoint WayPoint.empty (XNode.elem "wpt" attrs ch) with ⟨w, err⟩
        simp [isWptElem, decodedWayPoint, hbw]
      · simp only [GPX.stepChild, isWptElem, hw]
        simp only [decide_False, Bool.false_eq_true, if_false]
        split_ifs <;> rfl

/-- One GPX child step: exactly the `trk` elements change the track, by
decoding into its current value. -/
theorem gpx_stepChild_tracks (g : GPX) (c : XNode) :
    ((GPX.stepChild g c).1).Tracks
      = if isTrkElem c then (bindTrack g.Tracks c).1 else g.Tracks := by
  cases c with
  | text s => rfl
  | elem n attrs ch =>
      by_cases ht : n = "trk"
      · subst ht
        have hstep : GPX.stepChild g (XNode.elem "trk" attrs ch)
            = (match bindTrack g.Tracks (XNode.elem "trk" attrs ch) with
               | (t, err) => ({ g with Tracks := t }, err)) := rfl
        rw [hstep]
        rcases hbt : bindTrack g.Tracks (XNode.elem "trk" attrs ch) with ⟨t, err⟩
        simp [isTrkElem, hbt]
      · simp only [GPX.stepChild, isTrkElem, ht]
        simp only [decide_False, Bool.false_eq_true, if_false]
        split_ifs <;> rfl

/-- Folding the GPX children appends the decoded `wpt` elements, in
document order, to the waypoint list. -/
theorem gpx_fold_waypoints (l : List XNode) (g : GPX)
    (h : (bindFold GPX.stepChild g l).2 = none) :
    ((bindFold GPX.stepChild g l).1).Waypoints
      = g.Waypoints ++ (wptElems l).map decodedWayPoint := by
  induction l generalizing g with
  | nil => simp [bindFold, wptElems]
  | cons c rest ih =>
      simp only [bindFold] at h ⊢
      rcases hs : GPX.stepChild g c with ⟨g', e⟩
      rw [hs] at h
      cases e with
      | some e2 => simp at h
      | none =>
          have hfold : (bindFold GPX.stepChild g' rest).2 = none := h
          have hg' : g'.Waypoints
              = if isWptElem c then g.Waypoints ++ [decodedWayPoint c] else g.Waypoints := by
            have hstep := gpx_stepChild_waypoints g c
            rw [hs] at hstep
            exact hstep
          show ((bindFold GPX.stepChild g' rest).1).Waypoints = _
          rw [ih g' hfold, hg']
          cases hw : isWptElem c with
          | true => simp [wptElems, List.filter_cons, hw]
          | false => simp [wptElems, List.filter_cons, hw]

/-- Folding the GPX children merges the decoded `trk` elements, in
document order, into the single track value. -/
theorem gpx_fold_tracks (l : List XNode) (g : GPX)
    (h : (bindFold GPX.stepChild g l).2 = none) :
    ((bindFold GPX.stepChild g l).1).Tracks
      = (trkElems l).foldl (fun t c => (bindTrack t c).1) g.Tracks := by
  induction l generalizing g with
  | nil => simp [bindFold, trkElems]
  | cons c rest ih =>
      simp only [bindFold] at h ⊢
      rcases hs : GPX.stepChild g c with ⟨g', e⟩
      rw [hs] at h
      cases e with
      | some e2 => simp at h
      | none =>
          have hfold : (bindFold GPX.stepChild g' rest).2 = none := h
          have hg' : g'.Tracks
              = if isTrkElem c then (bindTrack g.Tracks c).1 else g.Tracks := by
            have hstep := gpx_stepChild_tracks g c
            rw [hs] at hstep
            exact hstep
          show ((bindFold GPX.stepChild g' rest).1).Tracks = _
          rw [ih g' hfold, hg']
          cases ht : isTrkElem c with
          | true => simp [trkElems, List.filter_cons, ht]
          | false => simp [trkElems, List.filter_cons, ht]

/-- Success of the attribute pass and the shape of a successful root
bind: decoding the root `gpx` element is the attribute fold followed by
the child fold. -/
theorem bindGPX_elim (attrs : List (String × String)) (children : List XNode) (g : GPX)
    (h : bindGPX GPX.empty (XNode.elem "gpx" attrs children) = (g, none)) :
    ∃ gA, bindFold GPX.stepAttr { GPX.empty with XMLName := "gpx" } attrs = (gA, none) ∧
      bindFold GPX.stepChild gA children = (g, none) ∧
      gA.Waypoints = [] ∧ gA.Tracks = Track.empty := by
  have hred : bindGPX GPX.empty (XNode.elem "gpx" attrs children)
      = (match bindFold GPX.stepAttr { GPX.empty with XMLName := "gpx" } attrs with
         | (g', none) => bindFold GPX.stepChild g' children
         | r => r) := rfl
  rw [hred] at h
  rcases hA : bindFold GPX.stepAttr { GPX.empty with XMLName := "gpx" } attrs with ⟨gA, eA⟩
  have heA : eA = none := by
    have := bindFold_noerr GPX.stepAttr attrs { GPX.empty with XMLName := "gpx" }
      (fun t a _ => gpx_stepAttr_noerr t a)
    rw [hA] at this
    exact this
  subst heA
  rw [hA] at h
  refine ⟨gA, rfl, h, ?_, ?_⟩
  · have hinv := bindFold_inv (fun g => g.Waypoints = []) GPX.stepAttr attrs
      { GPX.empty with XMLName := "gpx" }
      (fun t a _ ht => by
        show ((GPX.stepAttr t a).1).Waypoints = []
        rw [(gpx_stepAttr_collections t a).1]
        exact ht) rfl
    rw [hA] at hinv
    exact hinv
  · have hinv := bindFold_inv (fun g => g.Tracks = Track.empty) GPX.stepAttr attrs
      { GPX.empty with XMLName := "gpx" }
      (fun t a _ ht => by
        show ((GPX.stepAttr t a).1).Tracks = Track.empty
        rw [(gpx_stepAttr_collections t a).2]
        exact ht) rfl
    rw [hA] at hinv
    exact hinv

/-- C6: a successful decode of a root element yields exactly the `wpt`
child elements, decoded in document order, as the Waypoints sequence
(hence N source elements yield N records in identical order); and any
reindexing of the source `wpt` elements reindexes the decoded sequence
identically. -/
theorem c6_order_preservation :
    (∀ (attrs : List (String × String)) (children : List XNode) (g : GPX),
        bindGPX GPX.empty (XNode.elem "gpx" attrs children) = (g, none) →
        g.Waypoints = (wptElems children).map decodedWayPoint ∧
        g.Waypoints.length = (wptElems children).length) ∧
    (∀ (a₁ a₂ : List (String × String)) (c₁ c₂ : List XNode) (g₁ g₂ : GPX)
        (π : List ℕ),
        bindGPX GPX.empty (XNode.elem "gpx" a₁ c₁) = (g₁, none) →
        bindGPX GPX.empty (XNode.elem "gpx" a₂ c₂) = (g₂, none) →
        wptElems c₂ = π.filterMap (fun i => (wptElems c₁)[i]?) →
        g₂.Waypoints = π.filterMap (fun i => (g₁.Waypoints)[i]?)) := by
  have main : ∀ (attrs : List (String × String)) (children : List XNode) (g : GPX),
      bindGPX GPX.empty (XNode.elem "gpx" attrs children) = (g, none) →
      g.Waypoints = (wptElems children).map decodedWayPoint := by
    intro attrs children g h
    rcases bindGPX_elim attrs children g h with ⟨gA, _, hC, hW, _⟩
    have := gpx_fold_waypoints children gA (by rw [hC])
    rw [hC] at this
    rw [this, hW]
    simp
  refine ⟨fun attrs children g h => ⟨main attrs children g h, ?_⟩, ?_⟩
  · rw [main attrs children g h]
    simp
  · intro a₁ a₂ c₁ c₂ g₁ g₂ π h₁ h₂ hπ
    rw [main a₂ c₂ g₂ h₂, hπ, main a₁ c₁ g₁ h₁]
    rw [List.map_filterMap]
    refine congrArg (List.filterMap · π) ?_
    funext i
    rw [List.getElem?_map]

/-- C6 witness: a two-waypoint document, decoded, lists its two `wpt`
elements in order. -/
theorem c6_witness :
    ((bindGPX GPX.empty (XNode.elem "gpx" [("version", "1.1"), ("creator", "t")]
        [XNode.elem "wpt" [("lat", "1.0"), ("lon", "2.0")] [],
         XNode.elem "wpt" [("lat", "3.0"), ("lon", "4.0")] []])).1).Waypoints
      = (wptElems [XNode.elem "wpt" [("lat", "1.0"), ("lon", "2.0")] [],
          XNode.elem "wpt" [("lat", "3.0"), ("lon", "4.0")] []]).map decodedWayPoint :=
  (c6_order_preservation.1 [("version", "1.1"), ("creator", "t")]
    [XNode.elem "wpt" [("lat", "1.0"), ("lon", "2.0")] [],
     XNode.elem "wpt" [("lat", "3.0"), ("lon", "4.0")] []] _ (by decide)).1

/-- Field-table inversion: only the name `trkseg` resolves to the
trkseg field. -/
theorem track_fieldOf_trkseg_iff (n : String) (f : TrkField)
    (h : Track.fieldOf n = some f) : f = TrkField.trkseg ↔ n = "trkseg" := by
  constructor
  · intro hf
    subst hf
    unfold Track.fieldOf at h
    split_ifs at h <;> simp_all
  · intro hn
    subst hn
    rw [show Track.fieldOf "trkseg" = some TrkField.trkseg from rfl] at h
    exact (Option.some.inj h).symm

/-- One Track child step: exactly the `trkseg` elements extend the
segment list, by one freshly decoded segment at the end. -/
theorem track_stepChild_segments (t : Track) (c : XNode) :
    ((Track.stepChild t c).1).TrackSegments
      = if isTrksegElem c then t.TrackSegments ++ [decodedTrackSegment c]
        else t.TrackSegments := by
  cases c with
  | text s => rfl
  | elem n attrs ch =>
      by_cases hn : n = "trkseg"
      · subst hn
        have hstep : Track.stepChild t (XNode.elem "trkseg" attrs ch)
            = (match bindTrackSegment TrackSegment.empty (XNode.elem "trkseg" attrs ch) with
               | (sg, err) => ({ t with TrackSegments := t.TrackSegments ++ [sg] }, err)) := rfl
        rw [hstep]
        rcases hbs : bindTrackSegment TrackSegment.empty (XNode.elem "trkseg" attrs ch)
          with ⟨sg, err⟩
        simp [isTrksegElem, decodedTrackSegment, hbs]
      · simp only [Track.stepChild, isTrksegElem, hn]
        simp only [decide_False, Bool.false_eq_true, if_false]
        rcases hf : Track.fieldOf n with _ | f
        · rfl
        · have hft : f ≠ TrkField.trkseg :=
            fun he => hn ((track_fieldOf_trkseg_iff n f hf).1 he)
          cases f <;> simp only [Track.applyChild] <;> first
            | rfl
            | (split <;> rfl)
            | simp_all

/-- Folding Track children appends the decoded `trkseg` elements, in
document order, to the segment list. -/
theorem track_fold_segments (l : List XNode) (t : Track)
    (h : (bindFold Track.stepChild t l).2 = none) :
    ((bindFold Track.stepChild t l).1).TrackSegments
      = t.TrackSegments ++ (trksegElems l).map decodedTrackSegment := by
  induction l generalizing t with
  | nil => simp [bindFold, trksegElems]
  | cons c rest ih =>
      simp only [bindFold] at h ⊢
      rcases hs : Track.stepChild t c with ⟨t', e⟩
      rw [hs] at h
      cases e with
      | some e2 => simp at h
      | none =>
          have hfold : (bindFold Track.stepChild t' rest).2 = none := h
          have ht' : t'.TrackSegments
              = if isTrksegElem c then t.TrackSegments ++ [decodedTrackSegment c]
                else t.TrackSegments := by
            have hstep := track_stepChild_segments t c
            rw [hs] at hstep
            exact hstep
          show ((bindFold Track.stepChild t' rest).1).TrackSegments = _
          rw [ih t' hfold, ht']
          cases hw : isTrksegElem c with
          | true => simp [trksegElems, List.filter_cons, hw]
          | false => simp [trksegElems, List.filter_cons, hw]

/-- A successful decode of a `trk`-like element into a track appends the
decoded segments of its `trkseg` children to the track's existing
segment list (the track value is merged into, not replaced). -/
theorem bindTrack_segments (t : Track) (c : XNode) (h : (bindTrack t c).2 = none) :
    ((bindTrack t c).1).TrackSegments = t.TrackSegments ++ segsOfTrkElem c := by
  cases c with
  | text s => simp [bindTrack] at h
  | elem n attrs ch =>
      have hred : bindTrack t (XNode.elem n attrs ch)
          = bindFold Track.stepChild { t with XMLName := n } ch := rfl
      rw [hred] at h ⊢
      rw [track_fold_segments ch _ h]
      rfl

/-- A `trk` child's step error is the track bind's error. -/
theorem gpx_stepChild_trk_err (g : GPX) (c : XNode) (h : isTrkElem c = true) :
    (GPX.stepChild g c).2 = (bindTrack g.Tracks c).2 := by
  cases c with
  | text s => simp [isTrkElem] at h
  | elem n attrs ch =>
      have hn : n = "trk" := by simpa [isTrkElem] using h
      subst hn
      have hstep : GPX.stepChild g (XNode.elem "trk" attrs ch)
          = (match bindTrack g.Tracks (XNode.elem "trk" attrs ch) with
             | (t, err) => ({ g with Tracks := t }, err)) := rfl
      rw [hstep]

/-- Folding the GPX children accumulates, in document order, the
segments of every `trk` element into the single track's segment list. -/
theorem gpx_fold_track_segments (l : List XNode) (g : GPX)
    (h : (bindFold GPX.stepChild g l).2 = none) :
    ((bindFold GPX.stepChild g l).1).Tracks.TrackSegments
      = g.Tracks.TrackSegments ++ ((trkElems l).map segsOfTrkElem).flatten := by
  induction l generalizing g with
  | nil => simp [bindFold, trkElems]
  | cons c rest ih =>
      simp only [bindFold] at h ⊢
      rcases hs : GPX.stepChild g c with ⟨g', e⟩
      rw [hs] at h
      cases e with
      | some e2 => simp at h
      | none =>
          have hfold : (bindFold GPX.stepChild g' rest).2 = none := h
          cases ht : isTrkElem c with
          | false =>
              have hg' : g'.Tracks = g.Tracks := by
                have hstep := gpx_stepChild_tracks g c
                rw [hs, ht] at hstep
                simpa using hstep
              show ((bindFold GPX.stepChild g' rest).1).Tracks.TrackSegments = _
              rw [ih g' hfold, hg']
              simp [trkElems, List.filter_cons, ht]
          | true =>
              have hg' : g'.Tracks = (bindTrack g.Tracks c).1 := by
                have hstep := gpx_stepChild_tracks g c
                rw [hs, ht] at hstep
                simpa using hstep
              have hsucc : (bindTrack g.Tracks c).2 = none := by
                have h2 := gpx_stepChild_trk_err g c ht
                rw [hs] at h2
                exact h2.symm
              show ((bindFold GPX.stepChild g' rest).1).Tracks.TrackSegments = _
              rw [ih g' hfold, hg', bindTrack_segments _ _ hsucc]
              simp [trkElems, List.filter_cons, ht, List.append_assoc]

set_option maxRecDepth 8000 in
/-- C10: a successful decode of a root element with any number of `trk`
children (two or more included) merges them all, in document order, into
the single Tracks field: the final value is the left fold of track
decoding over the `trk` elements starting from the zero track, the
TrackSegments list is the concatenation of every `trk` element's decoded
segments in document order, and a scalar subfield supplied by the last
`trk` element (its name) holds the last element's value; the concrete
two-track document parses without error accordingly. -/
theorem c10_multiple_tracks :
    (∀ (attrs : List (String × String)) (children : List XNode) (g : GPX),
        bindGPX GPX.empty (XNode.elem "gpx" attrs children) = (g, none) →
        g.Tracks = (trkElems children).foldl (fun t c => (bindTrack t c).1) Track.empty ∧
        g.Tracks.TrackSegments = ((trkElems children).map segsOfTrkElem).flatten) ∧
    (∀ (s₁ s₂ : String),
        bindGPX GPX.empty (XNode.elem "gpx" []
            [XNode.elem "trk" [] [XNode.elem "name" [] [XNode.text s₁]],
             XNode.elem "trk" [] [XNode.elem "name" [] [XNode.text s₂]]])
          = ({ GPX.empty with
                XMLName := "gpx"
                Tracks := { Track.empty with XMLName := "trk", Name := s₂ } }, none)) ∧
    (Parse c10input GPX.empty).2 = none ∧
    (Parse c10input GPX.empty).1.Tracks.Name = "B" ∧
    (Parse c10input GPX.empty).1.Tracks.TrackSegments.length = 2 := by
  refine ⟨?_, ?_, by decide, by decide, by decide⟩
  · intro attrs children g h
    rcases bindGPX_elim attrs children g h with ⟨gA, _, hC, _, hT⟩
    constructor
    · have hf := gpx_fold_tracks children gA (by rw [hC])
      rw [hC] at hf
      rw [hf, hT]
    · have hf := gpx_fold_track_segments children gA (by rw [hC])
      rw [hC] at hf
      rw [hf, hT]
      rfl
  · intro s₁ s₂
    rfl

/-- C10 witness: the general characterization applied to a concrete
two-track tree. -/
theorem c10_witness :
    ((bindGPX GPX.empty (XNode.elem "gpx" []
        [XNode.elem "trk" [] [XNode.elem "trkseg" [] []],
         XNode.elem "trk" [] [XNode.elem "trkseg" [] []]])).1).Tracks
      = (trkElems [XNode.elem "trk" [] [XNode.elem "trkseg" [] []],
          XNode.elem "trk" [] [XNode.elem "trkseg" [] []]]).foldl
          (fun t c => (bindTrack t c).1) Track.empty :=
  (c10_multiple_tracks.1 []
    [XNode.elem "trk" [] [XNode.elem "trkseg" [] []],
     XNode.elem "trk" [] [XNode.elem "trkseg" [] []]] _ (by decide)).1

/-! ### Decimal printing and parsing invert each other -/

theorem digitChar_toNat (d : Nat) (h : d < 10) : (digitChar d).toNat = 48 + d := by
  interval_cases d <;> rfl

theorem digitChar_isDigit (d : Nat) (h : d < 10) : (digitChar d).isDigit = true := by
  interval_cases d <;> rfl

theorem digitsToNat_shift (l : List Char) (a : Nat) :
    l.foldl (fun a c => a * 10 + (c.toNat - 48)) a = a * 10 ^ l.length + digitsToNat l := by
  induction l generalizing a with
  | nil => simp [digitsToNat]
  | cons c l ih =>
      show List.foldl _ (a * 10 + (c.toNat - 48)) l = _
      rw [ih]
      have h2 : digitsToNat (c :: l) = (c.toNat - 48) * 10 ^ l.length + digitsToNat l := by
        show List.foldl _ (0 * 10 + (c.toNat - 48)) l = _
        rw [ih]
        norm_num
      rw [h2, List.length_cons, pow_succ]
      ring

theorem digitsToNat_append (l₁ l₂ : List Char) :
    digitsToNat (l₁ ++ l₂) = digitsToNat l₁ * 10 ^ l₂.length + digitsToNat l₂ := by
  show List.foldl _ 0 (l₁ ++ l₂) = _
  rw [List.foldl_append]
  exact digitsToNat_shift l₂ (digitsToNat l₁)

theorem digitsToNat_replicate_zero (j : Nat) : digitsToNat (List.replicate j '0') = 0 := by
  induction j with
  | zero => rfl
  | succ j ih =>
      show digitsToNat ('0' :: List.replicate j '0') = 0
      have := digitsToNat_shift (List.replicate j '0') ('0'.toNat - 48)
      show List.foldl _ (0 * 10 + ('0'.toNat - 48)) (List.replicate j '0') = 0
      simpa [digitsToNat] using ih

theorem digitsToNat_padZeros (k : Nat) (l : List Char) :
    digitsToNat (padZeros k l) = digitsToNat l := by
  rw [padZeros, digitsToNat_append, digitsToNat_replicate_zero]
  simp

theorem padZeros_len (k : Nat) (l : List Char) (h : l.length ≤ k) :
    (padZeros k l).length = k := by
  simp [padZeros]
  omega

theorem padZeros_all_digits (k : Nat) (l : List Char)
    (h : ∀ c ∈ l, c.isDigit = true) : ∀ c ∈ padZeros k l, c.isDigit = true := by
  intro c hc
  rw [padZeros, List.mem_append] at hc
  rcases hc with hc | hc
  · rw [List.eq_of_mem_replicate hc]
    rfl
  · exact h c hc

theorem natDigitsRev_digits_lt (f : Nat) : ∀ (n : Nat), ∀ d ∈ natDigitsRev f n, d < 10 := by
  induction f with
  | zero =>
      intro n d hd
      cases n <;> simp [natDigitsRev] at hd
  | succ f ih =>
      intro n d hd
      cases n with
      | zero => simp [natDigitsRev] at hd
      | succ n =>
          rw [natDigitsRev, List.mem_cons] at hd
          rcases hd with hd | hd
          · omega
          · exact ih _ d hd

theorem natDigitsRev_val (f : Nat) : ∀ (n : Nat), n ≤ f →
    digitsToNat (((natDigitsRev f n).reverse).map digitChar) = n := by
  induction f with
  | zero =>
      intro n hn
      interval_cases n
      rfl
  | succ f ih =>
      intro n hn
      cases n with
      | zero => rfl
      | succ n =>
          rw [natDigitsRev, List.reverse_cons, List.map_append, List.map_cons,
            List.map_nil, digitsToNat_append]
          rw [ih ((n + 1) / 10) (by omega)]
          have hd : digitsToNat [digitChar ((n + 1) % 10)] = (n + 1) % 10 := by
            show 0 * 10 + ((digitChar ((n + 1) % 10)).toNat - 48) = (n + 1) % 10
            rw [digitChar_toNat _ (by omega)]
            omega
          rw [hd]
          simp
          omega

theorem natDigitsRev_len (f : Nat) : ∀ (n k : Nat), n ≤ f → n < 10 ^ k →
    (natDigitsRev f n).length ≤ k := by
  induction f with
  | zero =>
      intro n k hn _
      interval_cases n
      simp [natDigitsRev]
  | succ f ih =>
      intro n k hn hk
      cases n with
      | zero => simp [natDigitsRev]
      | succ n =>
          cases k with
          | zero => simp at hk
          | succ k =>
              rw [natDigitsRev]
              have h1 : (n + 1) / 10 < 10 ^ k := by
                rw [Nat.div_lt_iff_lt_mul (by omega)]
                calc n + 1 < 10 ^ (k + 1) := hk
                _ = 10 ^ k * 10 := by rw [pow_succ]
              have := ih ((n + 1) / 10) k (by omega) h1
              simp
              omega

theorem digitsToNat_natToChars (n : Nat) : digitsToNat (natToChars n) = n := by
  unfold natToChars
  by_cases h : n = 0
  · subst h
    rfl
  · rw [if_neg h]
    exact natDigitsRev_val n n le_rfl

theorem natToChars_all_digits (n : Nat) : ∀ c ∈ natToChars n, c.isDigit = true := by
  unfold natToChars
  split
  · intro c hc
    simp at hc
    subst hc
    rfl
  · intro c hc
    rw [List.mem_map] at hc
    rcases hc with ⟨d, hd, rfl⟩
    rw [List.mem_reverse] at hd
    exact digitChar_isDigit d (natDigitsRev_digits_lt n n d hd)

theorem natToChars_ne_nil (n : Nat) : natToChars n ≠ [] := by
  unfold natToChars
  split
  · simp
  · simp only [ne_eq, List.map_eq_nil_iff, List.reverse_eq_nil_iff]
    match h : n with
    | 0 => simp_all
    | m + 1 => simp [natDigitsRev]

theorem natToChars_len_le (n k : Nat) (hk : 1 ≤ k) (h : n < 10 ^ k) :
    (natToChars n).length ≤ k := by
  unfold natToChars
  split
  · simpa using hk
  · simpa using natDigitsRev_len n n k le_rfl h

/-! ### span, takeWhile and trim helpers -/

theorem takeWhile_all {p : Char → Bool} : ∀ (l : List Char), (∀ c ∈ l, p c = true) →
    l.takeWhile p = l := by
  intro l h
  induction l with
  | nil => rfl
  | cons c l ih =>
      rw [List.takeWhile_cons, h c (List.mem_cons_self c l)]
      simp [ih (fun x hx => h x (List.mem_cons_of_mem c hx))]

theorem dropWhile_all {p : Char → Bool} : ∀ (l : List Char), (∀ c ∈ l, p c = true) →
    l.dropWhile p = [] := by
  intro l h
  induction l with
  | nil => rfl
  | cons c l ih =>
      rw [List.dropWhile_cons, h c (List.mem_cons_self c l)]
      simp [ih (fun x hx => h x (List.mem_cons_of_mem c hx))]

theorem span_all {p : Char → Bool} (l : List Char) (h : ∀ c ∈ l, p c = true) :
    l.span p = (l, []) := by
  rw [List.span_eq_take_drop, takeWhile_all l h, dropWhile_all l h]

theorem takeWhile_append_cons {p : Char → Bool} (l₁ : List Char) (c₀ : Char)
    (l₂ : List Char) (h₁ : ∀ c ∈ l₁, p c = true) (h₀ : p c₀ = false) :
    (l₁ ++ c₀ :: l₂).takeWhile p = l₁ := by
  induction l₁ with
  | nil => simp [List.takeWhile_cons, h₀]
  | cons c l ih =>
      rw [List.cons_append, List.takeWhile_cons, h₁ c (List.mem_cons_self c l)]
      simp [ih (fun x hx => h₁ x (List.mem_cons_of_mem c hx))]

theorem dropWhile_append_cons {p : Char → Bool} (l₁ : List Char) (c₀ : Char)
    (l₂ : List Char) (h₁ : ∀ c ∈ l₁, p c = true) (h₀ : p c₀ = false) :
    (l₁ ++ c₀ :: l₂).dropWhile p = c₀ :: l₂ := by
  induction l₁ with
  | nil => simp [List.dropWhile_cons, h₀]
  | cons c l ih =>
      rw [List.cons_append, List.dropWhile_cons, h₁ c (List.mem_cons_self c l)]
      simp [ih (fun x hx => h₁ x (List.mem_cons_of_mem c hx))]

theorem span_append_cons {p : Char → Bool} (l₁ : List Char) (c₀ : Char) (l₂ : List Char)
    (h₁ : ∀ c ∈ l₁, p c = true) (h₀ : p c₀ = false) :
    (l₁ ++ c₀ :: l₂).span p = (l₁, c₀ :: l₂) := by
  rw [List.span_eq_take_drop, takeWhile_append_cons l₁ c₀ l₂ h₁ h₀,
    dropWhile_append_cons l₁ c₀ l₂ h₁ h₀]

theorem dropWhile_of_all_neg {p : Char → Bool} : ∀ (l : List Char),
    (∀ c ∈ l, p c = false) → l.dropWhile p = l := by
  intro l h
  cases l with
  | nil => rfl
  | cons c l => rw [List.dropWhile_cons, h c (List.mem_cons_self c l)]; simp

theorem trimChars_eq_self (l : List Char) (h : ∀ c ∈ l, isSpaceChar c = false) :
    trimChars l = l := by
  unfold trimChars
  rw [dropWhile_of_all_neg l h, dropWhile_of_all_neg l.reverse
    (fun c hc => h c (List.mem_reverse.1 hc))]
  simp

theorem isDigit_not_space (c : Char) (h : c.isDigit = true) : isSpaceChar c = false := by
  by_contra hs
  rw [Bool.not_eq_false] at hs
  simp only [isSpaceChar, Bool.or_eq_true, beq_iff_eq] at hs
  rcases hs with ((rfl | rfl) | rfl) | rfl <;> exact absurd h (by decide)

theorem parseRatCore_print (m k : Nat) (hk : 1 ≤ k) :
    parseRatCore (natToChars (m / 10 ^ k) ++ '.' :: padZeros k (natToChars (m % 10 ^ k)))
      = some (mkRat m (10 ^ k)) := by
  have hlen : (natToChars (m % 10 ^ k)).length ≤ k :=
    natToChars_len_le _ k hk (Nat.mod_lt _ (by positivity))
  have hpad : ∀ c ∈ padZeros k (natToChars (m % 10 ^ k)), c.isDigit = true :=
    padZeros_all_digits _ _ (natToChars_all_digits _)
  have h1 : (natToChars (m / 10 ^ k) ++ '.' :: padZeros k (natToChars (m % 10 ^ k))).span
      Char.isDigit = (natToChars (m / 10 ^ k), '.' :: padZeros k (natToChars (m % 10 ^ k))) :=
    span_append_cons _ _ _ (natToChars_all_digits _) (by decide)
  have h2 : (padZeros k (natToChars (m % 10 ^ k))).span Char.isDigit
      = (padZeros k (natToChars (m % 10 ^ k)), []) := span_all _ hpad
  have hne : (natToChars (m / 10 ^ k)).isEmpty = false := by
    simpa [List.isEmpty_iff] using natToChars_ne_nil (m / 10 ^ k)
  simp only [parseRatCore, h1, h2, List.isEmpty_nil, hne, Bool.false_and, if_true,
    if_false, Bool.false_eq_true]
  rw [digitsToNat_append, digitsToNat_padZeros, digitsToNat_natToChars,
    digitsToNat_natToChars, padZeros_len _ _ hlen]
  have hm : m / 10 ^ k * 10 ^ k + m % 10 ^ k = m := by
    rw [mul_comm]
    exact Nat.div_add_mod m (10 ^ k)
  rw [hm]

theorem mkRat_mul_cancel (a b d : ℕ) (hb : 0 < b) :
    mkRat (a * b : ℕ) (d * b) = mkRat (a : ℤ) d := by
  rw [Rat.mkRat_eq_div, Rat.mkRat_eq_div]
  push_cast
  rw [mul_div_mul_right]
  exact_mod_cast hb.ne'

theorem mkRat_scale (q : ℚ) (h : IsDec q) :
    mkRat (q.num.natAbs * (10 ^ q.den / q.den) : ℕ) (10 ^ q.den)
      = mkRat (q.num.natAbs : ℤ) q.den := by
  have hdvd : q.den ∣ 10 ^ q.den := Nat.dvd_of_mod_eq_zero h
  have hbpos : 0 < 10 ^ q.den / q.den :=
    Nat.div_pos (Nat.le_of_dvd (by positivity) hdvd) q.pos
  have h10 : (10 : ℕ) ^ q.den = q.den * (10 ^ q.den / q.den) := by
    rw [mul_comm]
    exact (Nat.div_mul_cancel hdvd).symm
  calc mkRat (q.num.natAbs * (10 ^ q.den / q.den) : ℕ) (10 ^ q.den)
      = mkRat (q.num.natAbs * (10 ^ q.den / q.den) : ℕ) (q.den * (10 ^ q.den / q.den)) := by
        rw [← h10]
    _ = mkRat (q.num.natAbs : ℤ) q.den := mkRat_mul_cancel _ _ _ hbpos
theorem digit_ne_minus (c : Char) (h : c.isDigit = true) : c ≠ '-' := by
  intro he
  subst he
  exact absurd h (by decide)

theorem digit_ne_plus (c : Char) (h : c.isDigit = true) : c ≠ '+' := by
  intro he
  subst he
  exact absurd h (by decide)

/-- Printing a machine decimal and coercing it back returns the same
rational. -/
theorem parseRatChars_print (q : ℚ) (h : IsDec q) :
    parseRatChars (ratToChars q) = some q := by
  have hcore : parseRatCore (natToChars (q.num.natAbs * (10 ^ q.den / q.den) / 10 ^ q.den)
      ++ '.' :: padZeros q.den
        (natToChars (q.num.natAbs * (10 ^ q.den / q.den) % 10 ^ q.den)))
      = some (mkRat (q.num.natAbs * (10 ^ q.den / q.den) : ℕ) (10 ^ q.den)) :=
    parseRatCore_print _ q.den q.pos
  rw [mkRat_scale q h] at hcore
  by_cases hneg : q.num < 0
  · have hchars : ratToChars q
        = '-' :: (natToChars (q.num.natAbs * (10 ^ q.den / q.den) / 10 ^ q.den)
          ++ '.' :: padZeros q.den
            (natToChars (q.num.natAbs * (10 ^ q.den / q.den) % 10 ^ q.den))) := by
      rw [ratToChars]
      simp [hneg]
    rw [hchars]
    simp only [parseRatChars, if_pos rfl, hcore, Option.map_some']
    show some (-(mkRat (q.num.natAbs : ℤ) q.den)) = some q
    have hnum : ((q.num.natAbs : ℤ)) = -q.num := by omega
    rw [hnum]
    congr 1
    rw [Rat.neg_mkRat, neg_neg, Rat.mkRat_self]
  · have hchars : ratToChars q
        = natToChars (q.num.natAbs * (10 ^ q.den / q.den) / 10 ^ q.den)
          ++ '.' :: padZeros q.den
            (natToChars (q.num.natAbs * (10 ^ q.den / q.den) % 10 ^ q.den)) := by
      rw [ratToChars]
      simp [hneg]
    rcases hnc : natToChars (q.num.natAbs * (10 ^ q.den / q.den) / 10 ^ q.den)
      with _ | ⟨c, cs⟩
    · exact absurd hnc (natToChars_ne_nil _)
    · have hcd : c.isDigit = true :=
        natToChars_all_digits _ c (by rw [hnc]; exact List.mem_cons_self c cs)
      rw [hchars, hnc]
      simp only [parseRatChars, List.cons_append, if_neg (digit_ne_minus c hcd),
        if_neg (digit_ne_plus c hcd)]
      have : (c :: (cs ++ '.' :: padZeros q.den
          (natToChars (q.num.natAbs * (10 ^ q.den / q.den) % 10 ^ q.den))))
          = (c :: cs) ++ '.' :: padZeros q.den
            (natToChars (q.num.natAbs * (10 ^ q.den / q.den) % 10 ^ q.den)) := rfl
      rw [this, ← hnc, hcore]
      have hnum : ((q.num.natAbs : ℤ)) = q.num := by omega
      rw [hnum, Rat.mkRat_self]

theorem parseNatCore_natToChars (n : Nat) : parseNatCore (natToChars n) = some n := by
  unfold parseNatCore
  rw [if_pos]
  · rw [digitsToNat_natToChars]
  · rw [Bool.and_eq_true]
    constructor
    · simpa using natToChars_ne_nil n
    · rw [List.all_eq_true]
      exact natToChars_all_digits n

/-- Printing an integer and coercing it back returns the same
integer. -/
theorem parseIntChars_print (i : ℤ) : parseIntChars (intToChars i) = some i := by
  unfold intToChars
  by_cases hi : i < 0
  · rw [if_pos hi]
    simp only [parseIntChars, if_pos rfl, parseNatCore_natToChars, Option.map_some']
    show some (-(i.natAbs : ℤ)) = some i
    congr 1
    omega
  · rw [if_neg hi]
    rcases hnc : natToChars i.natAbs with _ | ⟨c, cs⟩
    · exact absurd hnc (natToChars_ne_nil _)
    · have hcd : c.isDigit = true :=
        natToChars_all_digits _ c (by rw [hnc]; exact List.mem_cons_self c cs)
      simp only [parseIntChars, if_neg (digit_ne_minus c hcd),
        if_neg (digit_ne_plus c hcd)]
      rw [← hnc, parseNatCore_natToChars]
      show some ((i.natAbs : ℤ)) = some i
      congr 1
      omega

theorem ratToChars_no_space (q : ℚ) : ∀ c ∈ ratToChars q, isSpaceChar c = false := by
  intro c hc
  rw [ratToChars] at hc
  simp only [List.mem_append, List.mem_cons] at hc
  rcases hc with (hc | hc) | hc | hc
  · split at hc <;> simp at hc
    subst hc
    rfl
  · exact isDigit_not_space c (natToChars_all_digits _ c hc)
  · subst hc
    rfl
  · exact isDigit_not_space c (padZeros_all_digits _ _ (natToChars_all_digits _) c hc)

theorem intToChars_no_space (i : ℤ) : ∀ c ∈ intToChars i, isSpaceChar c = false := by
  intro c hc
  rw [intToChars] at hc
  split at hc
  · rw [List.mem_cons] at hc
    rcases hc with hc | hc
    · subst hc
      rfl
    · exact isDigit_not_space c (natToChars_all_digits _ c hc)
  · exact isDigit_not_space c (natToChars_all_digits _ c hc)

/-- The text-level float64 coercion inverts the encoder's printing. -/
theorem parseRatText_print (q : ℚ) (h : IsDec q) : parseRatText (ratToText q) = some q := by
  rw [parseRatText, ratToText, List.toList_asString,
    trimChars_eq_self _ (ratToChars_no_space q)]
  exact parseRatChars_print q h

/-- The text-level int coercion inverts the encoder's printing. -/
theorem parseIntText_print (i : ℤ) : parseIntText (intToText i) = some i := by
  rw [parseIntText, intToText, List.toList_asString,
    trimChars_eq_self _ (intToChars_no_space i)]
  exact parseIntChars_print i

/-! ### The tokenizer's text readers invert escaping -/

theorem escapeChars_cons (c : Char) (l : List Char) :
    escapeChars (c :: l) = escapeChar c ++ escapeChars l := rfl

theorem toString_append_asString (c : Char) (l : List Char) :
    c.toString ++ l.asString = (c :: l).asString := rfl

theorem readEntity_concrete (nm : List Char) (c : Char) (R : List Char)
    (hnm : ∀ x ∈ nm, (decide (x ≠ ';')) = true) (hval : entityVal nm = some c) :
    readEntity (nm ++ ';' :: R) = some (c, R) := by
  unfold readEntity
  rw [span_append_cons nm ';' R hnm (by decide)]
  show (entityVal nm).map (fun c => (c, R)) = some (c, R)
  rw [hval]
  rfl

/-- Reading character data over an escaped string, up to an angle
bracket (or the end of input), returns the original string. -/
theorem readText_escape (l : List Char) : ∀ (fuel : Nat) (r : List Char),
    (escapeChars l).length < fuel →
    (r = [] ∨ ∃ r', r = '<' :: r') →
    readText fuel (escapeChars l ++ r) = some (l.asString, r) := by
  induction l with
  | nil =>
      intro fuel r hfuel hr
      rcases hr with rfl | ⟨r', rfl⟩
      · cases fuel <;> rfl
      · cases fuel with
        | zero => omega
        | succ f =>
            show readText (f + 1) ('<' :: r') = _
            rw [readText]
            rw [if_pos rfl]
            rfl
  | cons c l ih =>
      intro fuel r hfuel hr
      rw [escapeChars_cons] at hfuel ⊢
      by_cases h1 : c = '&'
      · subst h1
        rw [show escapeChar '&' = ['&', 'a', 'm', 'p', ';'] from rfl] at hfuel ⊢
        cases fuel with
        | zero => simp at hfuel
        | succ f =>
            show readText (f + 1) ('&' :: (['a', 'm', 'p'] ++ ';' :: (escapeChars l ++ r))) = _
            rw [readText, if_neg (by decide), if_pos rfl,
              readEntity_concrete ['a', 'm', 'p'] '&' _ (by decide) rfl]
            dsimp only
            rw [ih f r (by simp at hfuel ⊢; omega) hr]
            dsimp only
            rw [toString_append_asString]
      · by_cases h2 : c = '<'
        · subst h2
          rw [show escapeChar '<' = ['&', 'l', 't', ';'] from rfl] at hfuel ⊢
          cases fuel with
          | zero => simp at hfuel
          | succ f =>
              show readText (f + 1) ('&' :: (['l', 't'] ++ ';' :: (escapeChars l ++ r))) = _
              rw [readText, if_neg (by decide), if_pos rfl,
                readEntity_concrete ['l', 't'] '<' _ (by decide) rfl]
              dsimp only
              rw [ih f r (by simp at hfuel ⊢; omega) hr]
              dsimp only
              rw [toString_append_asString]
        · by_cases h3 : c = '>'
          · subst h3
            rw [show escapeChar '>' = ['&', 'g', 't', ';'] from rfl] at hfuel ⊢
            cases fuel with
            | zero => simp at hfuel
            | succ f =>
                show readText (f + 1) ('&' :: (['g', 't'] ++ ';' :: (escapeChars l ++ r))) = _
                rw [readText, if_neg (by decide), if_pos rfl,
                  readEntity_concrete ['g', 't'] '>' _ (by decide) rfl]
                dsimp only
                rw [ih f r (by simp at hfuel ⊢; omega) hr]
                dsimp only
                rw [toString_append_asString]
          · by_cases h4 : c = '"'
            · subst h4
              rw [show escapeChar '"' = ['&', '#', '3', '4', ';'] from rfl] at hfuel ⊢
              cases fuel with
              | zero => simp at hfuel
              | succ f =>
                  show readText (f + 1)
                    ('&' :: (['#', '3', '4'] ++ ';' :: (escapeChars l ++ r))) = _
                  rw [readText, if_neg (by decide), if_pos rfl,
                    readEntity_concrete ['#', '3', '4'] '"' _ (by decide) rfl]
                  dsimp only
                  rw [ih f r (by simp at hfuel ⊢; omega) hr]
                  dsimp only
                  rw [toString_append_asString]
            · by_cases h5 : c = '\''
              · subst h5
                rw [show escapeChar '\'' = ['&', '#', '3', '9', ';'] from rfl] at hfuel ⊢
                cases fuel with
                | zero => simp at hfuel
                | succ f =>
                    show readText (f + 1)
                      ('&' :: (['#', '3', '9'] ++ ';' :: (escapeChars l ++ r))) = _
                    rw [readText, if_neg (by decide), if_pos rfl,
                      readEntity_concrete ['#', '3', '9'] '\'' _ (by decide) rfl]
                    dsimp only
                    rw [ih f r (by simp at hfuel ⊢; omega) hr]
                    dsimp only
                    rw [toString_append_asString]
              · by_cases h6 : c = '\t'
                · subst h6
                  rw [show escapeChar '\t' = ['&', '#', 'x', '9', ';'] from rfl] at hfuel ⊢
                  cases fuel with
                  | zero => simp at hfuel
                  | succ f =>
                      show readText (f + 1)
                        ('&' :: (['#', 'x', '9'] ++ ';' :: (escapeChars l ++ r))) = _
                      rw [readText, if_neg (by decide), if_pos rfl,
                        readEntity_concrete ['#', 'x', '9'] '\t' _ (by decide) rfl]
                      dsimp only
                      rw [ih f r (by simp at hfuel ⊢; omega) hr]
                      dsimp only
                      rw [toString_append_asString]
                · by_cases h7 : c = '\n'
                  · subst h7
                    rw [show escapeChar '\n' = ['&', '#', 'x', 'A', ';'] from rfl] at hfuel ⊢
                    cases fuel with
                    | zero => simp at hfuel
                    | succ f =>
                        show readText (f + 1)
                          ('&' :: (['#', 'x', 'A'] ++ ';' :: (escapeChars l ++ r))) = _
                        rw [readText, if_neg (by decide), if_pos rfl,
                          readEntity_concrete ['#', 'x', 'A'] '\n' _ (by decide) rfl]
                        dsimp only
                        rw [ih f r (by simp at hfuel ⊢; omega) hr]
                        dsimp only
                        rw [toString_append_asString]
                  · by_cases h8 : c = '\r'
                    · subst h8
                      rw [show escapeChar '\r' = ['&', '#', 'x', 'D', ';'] from rfl]
                        at hfuel ⊢
                      cases fuel with
                      | zero => simp at hfuel
                      | succ f =>
                          show readText (f + 1)
                            ('&' :: (['#', 'x', 'D'] ++ ';' :: (escapeChars l ++ r))) = _
                          rw [readText, if_neg (by decide), if_pos rfl,
                            readEntity_concrete ['#', 'x', 'D'] '\r' _ (by decide) rfl]
                          dsimp only
                          rw [ih f r (by simp at hfuel ⊢; omega) hr]
                          dsimp only
                          rw [toString_append_asString]
                    · have hesc : escapeChar c = [c] := by
                        unfold escapeChar
                        rw [if_neg h1, if_neg h2, if_neg h3, if_neg h4, if_neg h5,
                          if_neg h6, if_neg h7, if_neg h8]
                      rw [hesc] at hfuel ⊢
                      cases fuel with
                      | zero => simp at hfuel
                      | succ f =>
                          show readText (f + 1) (c :: (escapeChars l ++ r)) = _
                          rw [readText, if_neg h2, if_neg h1]
                          rw [ih f r (by simp at hfuel ⊢; omega) hr]
                          dsimp only
                          rw [toString_append_asString]

/-- Reading an attribute value over an escaped string, up to the closing
double quote, returns the original string. -/
theorem readAttrValue_escape (l : List Char) : ∀ (fuel : Nat) (r : List Char),
    (escapeChars l).length < fuel →
    readAttrValue fuel '"' (escapeChars l ++ '"' :: r) = some (l.asString, r) := by
  induction l with
  | nil =>
      intro fuel r hfuel
      cases fuel with
      | zero => omega
      | succ f =>
          show readAttrValue (f + 1) '"' ('"' :: r) = _
          rw [readAttrValue, if_pos rfl]
          rfl
  | cons c l ih =>
      intro fuel r hfuel
      rw [escapeChars_cons] at hfuel ⊢
      by_cases h1 : c = '&'
      · subst h1
        rw [show escapeChar '&' = ['&', 'a', 'm', 'p', ';'] from rfl] at hfuel ⊢
        cases fuel with
        | zero => simp at hfuel
        | succ f =>
            show readAttrValue (f + 1) '"'
              ('&' :: (['a', 'm', 'p'] ++ ';' :: (escapeChars l ++ '"' :: r))) = _
            rw [readAttrValue, if_neg (by decide), if_pos rfl,
              readEntity_concrete ['a', 'm', 'p'] '&' _ (by decide) rfl]
            dsimp only
            rw [ih f r (by simp at hfuel ⊢; omega)]
            dsimp only
            rw [toString_append_asString]
      · by_cases h2 : c = '<'
        · subst h2
          rw [show escapeChar '<' = ['&', 'l', 't', ';'] from rfl] at hfuel ⊢
          cases fuel with
          | zero => simp at hfuel
          | succ f =>
              show readAttrValue (f + 1) '"'
                ('&' :: (['l', 't'] ++ ';' :: (escapeChars l ++ '"' :: r))) = _
              rw [readAttrValue, if_neg (by decide), if_pos rfl,
                readEntity_concrete ['l', 't'] '<' _ (by decide) rfl]
              dsimp only
              rw [ih f r (by simp at hfuel ⊢; omega)]
              dsimp only
              rw [toString_append_asString]
        · by_cases h3 : c = '>'
          · subst h3
            rw [show escapeChar '>' = ['&', 'g', 't', ';'] from rfl] at hfuel ⊢
            cases fuel with
            | zero => simp at hfuel
            | succ f =>
                show readAttrValue (f + 1) '"'
                  ('&' :: (['g', 't'] ++ ';' :: (escapeChars l ++ '"' :: r))) = _
                rw [readAttrValue, if_neg (by decide), if_pos rfl,
                  readEntity_concrete ['g', 't'] '>' _ (by decide) rfl]
                dsimp only
                rw [ih f r (by simp at hfuel ⊢; omega)]
                dsimp only
                rw [toString_append_asString]
          · by_cases h4 : c = '"'
            · subst h4
              rw [show escapeChar '"' = ['&', '#', '3', '4', ';'] from rfl] at hfuel ⊢
              cases fuel with
              | zero => simp at hfuel
              | succ f =>
                  show readAttrValue (f + 1) '"'
                    ('&' :: (['#', '3', '4'] ++ ';' :: (escapeChars l ++ '"' :: r))) = _
                  rw [readAttrValue, if_neg (by decide), if_pos rfl,
                    readEntity_concrete ['#', '3', '4'] '"' _ (by decide) rfl]
                  dsimp only
                  rw [ih f r (by simp at hfuel ⊢; omega)]
                  dsimp only
                  rw [toString_append_asString]
            · by_cases h5 : c = '\''
              · subst h5
                rw [show escapeChar '\'' = ['&', '#', '3', '9', ';'] from rfl] at hfuel ⊢
                cases fuel with
                | zero => simp at hfuel
                | succ f =>
                    show readAttrValue (f + 1) '"'
                      ('&' :: (['#', '3', '9'] ++ ';' :: (escapeChars l ++ '"' :: r))) = _
                    rw [readAttrValue, if_neg (by decide), if_pos rfl,
                      readEntity_concrete ['#', '3', '9'] '\'' _ (by decide) rfl]
                    dsimp only
                    rw [ih f r (by simp at hfuel ⊢; omega)]
                    dsimp only
                    rw [toString_append_asString]
              · by_cases h6 : c = '\t'
                · subst h6
                  rw [show escapeChar '\t' = ['&', '#', 'x', '9', ';'] from rfl] at hfuel ⊢
                  cases fuel with
                  | zero => simp at hfuel
                  | succ f =>
                      show readAttrValue (f + 1) '"'
                        ('&' :: (['#', 'x', '9'] ++ ';' :: (escapeChars l ++ '"' :: r))) = _
                      rw [readAttrValue, if_neg (by decide), if_pos rfl,
                        readEntity_concrete ['#', 'x', '9'] '\t' _ (by decide) rfl]
                      dsimp only
                      rw [ih f r (by simp at hfuel ⊢; omega)]
                      dsimp only
                      rw [toString_append_asString]
                · by_cases h7 : c = '\n'
                  · subst h7
                    rw [show escapeChar '\n' = ['&', '#', 'x', 'A', ';'] from rfl]
                      at hfuel ⊢
                    cases fuel with
                    | zero => simp at hfuel
                    | succ f =>
                        show readAttrValue (f + 1) '"'
                          ('&' :: (['#', 'x', 'A'] ++ ';' :: (escapeChars l ++ '"' :: r)))
                          = _
                        rw [readAttrValue, if_neg (by decide), if_pos rfl,
                          readEntity_concrete ['#', 'x', 'A'] '\n' _ (by decide) rfl]
                        dsimp only
                        rw [ih f r (by simp at hfuel ⊢; omega)]
                        dsimp only
                        rw [toString_append_asString]
                  · by_cases h8 : c = '\r'
                    · subst h8
                      rw [show escapeChar '\r' = ['&', '#', 'x', 'D', ';'] from rfl]
                        at hfuel ⊢
                      cases fuel with
                      | zero => simp at hfuel
                      | succ f =>
                          show readAttrValue (f + 1) '"'
                            ('&' :: (['#', 'x', 'D'] ++ ';' :: (escapeChars l ++ '"' :: r)))
                            = _
                          rw [readAttrValue, if_neg (by decide), if_pos rfl,
                            readEntity_concrete ['#', 'x', 'D'] '\r' _ (by decide) rfl]
                          dsimp only
                          rw [ih f r (by simp at hfuel ⊢; omega)]
                          dsimp only
                          rw [toString_append_asString]
                    · have hesc : escapeChar c = [c] := by
                        unfold escapeChar
                        rw [if_neg h1, if_neg h2, if_neg h3, if_neg h4, if_neg h5,
                          if_neg h6, if_neg h7, if_neg h8]
                      rw [hesc] at hfuel ⊢
                      cases fuel with
                      | zero => simp at hfuel
                      | succ f =>
                          show readAttrValue (f + 1) '"' (c :: (escapeChars l ++ '"' :: r))
                            = _
                          rw [readAttrValue, if_neg h4, if_neg h1]
                          rw [ih f r (by simp at hfuel ⊢; omega)]
                          dsimp only
                          rw [toString_append_asString]

/-! ### The tokenizer inverts the printer -/

theorem toList_ne_nil (s : String) (h : s ≠ "") : s.toList ≠ [] := by
  intro he
  apply h
  cases s with
  | mk data =>
      exact congrArg String.mk he

theorem nameChar_not_space (c : Char) (h : isNameChar c = true) : isSpaceChar c = false := by
  by_contra hs
  rw [Bool.not_eq_false] at hs
  simp only [isSpaceChar, Bool.or_eq_true, beq_iff_eq] at hs
  rcases hs with ((rfl | rfl) | rfl) | rfl <;> exact absurd h (by decide)

theorem nameChar_ne (c : Char) (h : isNameChar c = true) :
    c ≠ '>' ∧ c ≠ '/' ∧ c ≠ '<' ∧ c ≠ '=' ∧ c ≠ '"' ∧ c ≠ ' ' := by
  refine ⟨?_, ?_, ?_, ?_, ?_, ?_⟩ <;> intro he <;> subst he <;> exact absurd h (by decide)

theorem printAttrList_cons (a : String × String) (rest : List (String × String)) :
    printAttrList (a :: rest) = printAttr a ++ printAttrList rest := by
  simp [printAttrList]

theorem printAttrList_length_ge (attrs : List (String × String)) :
    attrs.length ≤ (printAttrList attrs).length := by
  induction attrs with
  | nil => simp [printAttrList]
  | cons a rest ih =>
      rw [printAttrList_cons]
      simp only [List.length_append, List.length_cons, printAttr]
      simp
      omega

theorem parseAttrs_print (attrs : List (String × String))
    (ha : ∀ a ∈ attrs, GoodName a.1) :
    ∀ (fuel : Nat) (r : List Char), attrs.length < fuel →
      parseAttrs fuel (printAttrList attrs ++ '>' :: r) = some (attrs, false, r) := by
  induction attrs with
  | nil =>
      intro fuel r hf
      cases fuel with
      | zero => omega
      | succ f =>
          show parseAttrs (f + 1) ('>' :: r) = _
          rw [parseAttrs]
          rw [show ('>' :: r).dropWhile isSpaceChar = '>' :: r from by
            rw [List.dropWhile_cons]
            rw [show isSpaceChar '>' = false from rfl]
            simp]
          dsimp only
          rw [if_pos rfl]
  | cons a rest ih =>
      intro fuel r hf
      cases fuel with
      | zero => omega
      | succ f =>
          obtain ⟨hne, hchars⟩ := ha a (List.mem_cons_self a rest)
          rcases hnc : a.1.toList with _ | ⟨c, cs⟩
          · exact absurd hnc (toList_ne_nil _ hne)
          have hcname : isNameChar c = true :=
            hchars c (by rw [hnc]; exact List.mem_cons_self c cs)
          have hcn := nameChar_ne c hcname
          rw [printAttrList_cons, printAttr, hnc]
          rw [parseAttrs]
          have hshape : ((' ' :: (c :: cs ++ '=' :: '"' :: (escapeChars a.2.toList ++ ['"'])))
                ++ printAttrList rest ++ '>' :: r)
              = ' ' :: (c :: ((cs ++ '=' :: '"' :: (escapeChars a.2.toList ++ ['"']))
                ++ printAttrList rest ++ '>' :: r)) := by
            simp
          rw [hshape]
          rw [show (' ' :: (c :: ((cs ++ '=' :: '"' :: (escapeChars a.2.toList ++ ['"']))
                ++ printAttrList rest ++ '>' :: r))).dropWhile isSpaceChar
              = c :: ((cs ++ '=' :: '"' :: (escapeChars a.2.toList ++ ['"']))
                ++ printAttrList rest ++ '>' :: r) from by
            rw [List.dropWhile_cons]
            rw [show isSpaceChar ' ' = true from rfl]
            rw [if_pos rfl, List.dropWhile_cons, nameChar_not_space c hcname]
            simp]
          dsimp only
          rw [if_neg hcn.1, if_neg hcn.2.1]
          have hspan : (c :: ((cs ++ '=' :: '"' :: (escapeChars a.2.toList ++ ['"']))
                ++ printAttrList rest ++ '>' :: r)).span isNameChar
              = (c :: cs, '=' :: ('"' :: (escapeChars a.2.toList ++ ['"'])
                ++ printAttrList rest ++ '>' :: r)) := by
            have hmem : ∀ x ∈ c :: cs, isNameChar x = true := by
              intro x hx
              exact hchars x (by rw [hnc]; exact hx)
            have := span_append_cons (c :: cs) '='
              (('"' :: (escapeChars a.2.toList ++ ['"'])) ++ printAttrList rest ++ '>' :: r)
              hmem (by decide)
            simpa using this
          rw [hspan]
          dsimp only
          rw [if_neg (by simp)]
          rw [show ('=' :: ('"' :: (escapeChars a.2.toList ++ ['"'])
                ++ printAttrList rest ++ '>' :: r)).dropWhile isSpaceChar
              = '=' :: ('"' :: (escapeChars a.2.toList ++ ['"'])
                ++ printAttrList rest ++ '>' :: r) from by
            rw [List.dropWhile_cons]
            rw [show isSpaceChar '=' = false from rfl]
            simp]
          dsimp only
          rw [if_pos rfl]
          rw [show ('"' :: (escapeChars a.2.toList ++ ['"']) ++ printAttrList rest
                ++ '>' :: r)
              = '"' :: (escapeChars a.2.toList ++ '"' :: (printAttrList rest ++ '>' :: r))
              from by simp]
          rw [show ('"' :: (escapeChars a.2.toList ++ '"'
                :: (printAttrList rest ++ '>' :: r))).dropWhile isSpaceChar
              = '"' :: (escapeChars a.2.toList ++ '"' :: (printAttrList rest ++ '>' :: r))
              from by
            rw [List.dropWhile_cons]
            rw [show isSpaceChar '"' = false from rfl]
            simp]
          dsimp only
          rw [if_pos rfl]
          rw [readAttrValue_escape a.2.toList _ _ (by simp)]
          dsimp only
          rw [ih (fun x hx => ha x (List.mem_cons_of_mem a hx)) f r (by simp at hf; omega)]
          dsimp only
          rw [← hnc, String.asString_toList, String.asString_toList]

theorem printNode_elem (n : String) (attrs : List (String × String))
    (children : List XNode) :
    printNode (XNode.elem n attrs children) = '<' :: printElTail n attrs children := rfl

theorem printChildren_cons (c : XNode) (cs : List XNode) :
    printChildren (c :: cs) = printNode c ++ printChildren cs := rfl

theorem escapeChar_length_ge (c : Char) : 1 ≤ (escapeChar c).length := by
  unfold escapeChar
  split_ifs <;> simp

theorem escapeChars_length_ge (l : List Char) : l.length ≤ (escapeChars l).length := by
  induction l with
  | nil => simp [escapeChars]
  | cons c l ih =>
      rw [escapeChars_cons]
      simp only [List.length_append, List.length_cons]
      have := escapeChar_length_ge c
      omega

theorem escapeChar_mem_ne_lt (c x : Char) (hx : x ∈ escapeChar c) : x ≠ '<' := by
  unfold escapeChar at hx
  split_ifs at hx with h1 h2 h3 h4 h5 h6 h7 h8
  · intro he; subst he; revert hx; decide
  · intro he; subst he; revert hx; decide
  · intro he; subst he; revert hx; decide
  · intro he; subst he; revert hx; decide
  · intro he; subst he; revert hx; decide
  · intro he; subst he; revert hx; decide
  · intro he; subst he; revert hx; decide
  · intro he; subst he; revert hx; decide
  · simp at hx
    subst hx
    exact h2

theorem noAdjacentTexts_tail (c : XNode) (rest : List XNode)
    (h : noAdjacentTexts (c :: rest)) : noAdjacentTexts rest := by
  cases c with
  | elem n a ch =>
      exact h
  | text s =>
      cases rest with
      | nil => trivial
      | cons c' rest' =>
          cases c' with
          | text s' => exact absurd h (by simp [noAdjacentTexts])
          | elem n a ch => exact h

theorem nodeDepth_mem (c : XNode) (children : List XNode) (h : c ∈ children) :
    nodeDepth c ≤ childrenDepth children := by
  induction children with
  | nil => simp at h
  | cons x rest ih =>
      rw [List.mem_cons] at h
      rw [childrenDepth]
      rcases h with rfl | h
      · exact le_max_left _ _
      · exact le_trans (ih h) (le_max_right _ _)

theorem printNode_length_ge_one (c : XNode) (hg : GoodTree c) :
    1 ≤ (printNode c).length := by
  cases hg with
  | text s hs =>
      show 1 ≤ (escapeChars s.toList).length
      have h1 := escapeChars_length_ge s.toList
      have h2 : s.toList ≠ [] := toList_ne_nil s hs
      have h3 : 1 ≤ s.toList.length := by
        cases hl : s.toList with
        | nil => exact absurd hl h2
        | cons a l => simp
      omega
  | elem n attrs children hn ha hc hsep =>
      rw [printNode_elem]
      simp

theorem printChildren_length_ge (children : List XNode)
    (hg : ∀ c ∈ children, GoodTree c) :
    children.length ≤ (printChildren children).length := by
  induction children with
  | nil => simp [printChildren]
  | cons c rest ih =>
      rw [printChildren_cons]
      simp only [List.length_append, List.length_cons]
      have h1 := printNode_length_ge_one c (hg c (List.mem_cons_self c rest))
      have h2 := ih (fun x hx => hg x (List.mem_cons_of_mem c hx))
      omega

theorem escapeChars_mem_ne_lt (l : List Char) (x : Char) (hx : x ∈ escapeChars l) :
    x ≠ '<' := by
  induction l with
  | nil => simp [escapeChars] at hx
  | cons c l ih =>
      rw [escapeChars_cons, List.mem_append] at hx
      rcases hx with hx | hx
      · exact escapeChar_mem_ne_lt c x hx
      · exact ih hx

/-- The child loop re-reads a printed child sequence verbatim, stopping
at the closing tag. -/
theorem childLoop_print (pe : List Char → Option (XNode × List Char))
    (children : List XNode)
    (hg : ∀ c ∈ children, GoodTree c)
    (hs : noAdjacentTexts children)
    (hpe : ∀ c ∈ children, ∀ n attrs cc, c = XNode.elem n attrs cc →
        ∀ r', pe (printElTail n attrs cc ++ r') = some (c, r')) :
    ∀ (fuel : Nat) (acc : List XNode) (r : List Char), children.length < fuel →
      childLoop pe fuel acc (printChildren children ++ '<' :: '/' :: r)
        = some (acc.reverse ++ children, '<' :: '/' :: r) := by
  induction children with
  | nil =>
      intro fuel acc r hf
      cases fuel with
      | zero => omega
      | succ f =>
          show childLoop pe (f + 1) acc ('<' :: '/' :: r) = _
          rw [childLoop]
          rw [if_pos rfl, if_pos rfl]
          simp
  | cons c rest ih =>
      intro fuel acc r hf
      cases fuel with
      | zero => omega
      | succ f =>
          have hgr : ∀ x ∈ rest, GoodTree x := fun x hx => hg x (List.mem_cons_of_mem c hx)
          have hsr : noAdjacentTexts rest := noAdjacentTexts_tail c rest hs
          have hper : ∀ x ∈ rest, ∀ n attrs cc, x = XNode.elem n attrs cc →
              ∀ r', pe (printElTail n attrs cc ++ r') = some (x, r') :=
            fun x hx => hpe x (List.mem_cons_of_mem c hx)
          cases c with
          | elem n attrs cc =>
              have hgc := hg _ (List.mem_cons_self _ rest)
              have hn : GoodName n := by cases hgc with | elem _ _ _ hn _ _ _ => exact hn
              rcases hnch : n.toList with _ | ⟨nc, ncs⟩
              · exact absurd hnch (toList_ne_nil n hn.1)
              have hncname : isNameChar nc = true :=
                hn.2 nc (by rw [hnch]; exact List.mem_cons_self nc ncs)
              rw [printChildren_cons, printNode_elem]
              have hshape : (('<' :: printElTail n attrs cc) ++ printChildren rest
                    ++ '<' :: '/' :: r)
                  = '<' :: nc :: (ncs ++ printAttrList attrs
                    ++ ('>' :: (printChildren cc ++ '<' :: '/' :: (n.toList ++ ['>']))
                      ++ (printChildren rest ++ '<' :: '/' :: r))) := by
                rw [printElTail, hnch]
                simp
              rw [hshape, childLoop.eq_def]
              dsimp only
              rw [if_pos rfl, if_neg (nameChar_ne nc hncname).2.1]
              have htail : nc :: (ncs ++ printAttrList attrs
                    ++ ('>' :: (printChildren cc ++ '<' :: '/' :: (n.toList ++ ['>']))
                      ++ (printChildren rest ++ '<' :: '/' :: r)))
                  = printElTail n attrs cc ++ (printChildren rest ++ '<' :: '/' :: r) := by
                rw [printElTail, hnch]
                simp
              rw [htail, hpe _ (List.mem_cons_self _ rest) n attrs cc rfl]
              dsimp only
              rw [ih hgr hsr hper f (XNode.elem n attrs cc :: acc) r (by simp at hf ⊢; omega)]
              simp
          | text s =>
              have hgc := hg _ (List.mem_cons_self _ rest)
              have hsne : s ≠ "" := by cases hgc with | text _ h => exact h
              have hlen1 : 1 ≤ (escapeChars s.toList).length := by
                have h1 := escapeChars_length_ge s.toList
                have h2 : s.toList ≠ [] := toList_ne_nil s hsne
                cases hl : s.toList with
                | nil => exact absurd hl h2
                | cons a l =>
                    rw [hl] at h1
                    simp at h1
                    omega
              rcases hsc : escapeChars s.toList with _ | ⟨e, es⟩
              · rw [hsc] at hlen1
                simp at hlen1
              have hene : e ≠ '<' := escapeChars_mem_ne_lt s.toList e
                (by rw [hsc]; exact List.mem_cons_self e es)
              rw [printChildren_cons,
                show printNode (XNode.text s) = escapeChars s.toList from rfl]
              have hshape : escapeChars s.toList ++ printChildren rest ++ '<' :: '/' :: r
                  = e :: (es ++ (printChildren rest ++ '<' :: '/' :: r)) := by
                rw [hsc]
                simp
              rw [hshape, childLoop.eq_def]
              dsimp only
              rw [if_neg hene]
              have hhead : (printChildren rest ++ '<' :: '/' :: r) = []
                  ∨ ∃ r'', printChildren rest ++ '<' :: '/' :: r = '<' :: r'' := by
                refine Or.inr ?_
                cases rest with
                | nil => exact ⟨'/' :: r, by simp [printChildren]⟩
                | cons c' rest' =>
                    cases c' with
                    | elem n2 a2 c2 =>
                        refine ⟨printElTail n2 a2 c2 ++ printChildren rest' ++ '<' :: '/' :: r, ?_⟩
                        rw [printChildren_cons, printNode_elem]
                        simp
                    | text s2 => exact absurd hs (by simp [noAdjacentTexts])
              have hread : readText
                    (e :: (es ++ (printChildren rest ++ '<' :: '/' :: r))).length
                    (e :: (es ++ (printChildren rest ++ '<' :: '/' :: r)))
                  = some (s, printChildren rest ++ '<' :: '/' :: r) := by
                have heq : e :: (es ++ (printChildren rest ++ '<' :: '/' :: r))
                    = escapeChars s.toList ++ (printChildren rest ++ '<' :: '/' :: r) := by
                  rw [hsc]
                  simp
                rw [heq]
                refine readText_escape s.toList _ _ ?_ hhead
                rw [hsc]
                simp
              rw [hread]
              dsimp only
              rw [ih hgr hsr hper f (XNode.text s :: acc) r (by simp at hf ⊢; omega)]
              simp
/-- The end-tag reader accepts exactly the printed end tag of the
element's name. -/
theorem parseElClose_print (nm : List Char) (attrs : List (String × String))
    (children : List XNode) (r : List Char)
    (hch : ∀ c ∈ nm, isNameChar c = true) :
    parseElClose nm attrs children ('<' :: '/' :: (nm ++ '>' :: r))
      = some (XNode.elem nm.asString attrs children, r) := by
  rw [parseElClose.eq_def]
  dsimp only
  rw [if_pos rfl, if_pos rfl]
  rw [span_append_cons nm '>' r hch (by rfl)]
  dsimp only
  rw [show ('>' :: r).dropWhile isSpaceChar = '>' :: r from by
    rw [List.dropWhile_cons]
    rw [show isSpaceChar '>' = false from rfl]
    simp]
  dsimp only
  rw [if_pos rfl, if_pos rfl]

/-- With enough fuel for its depth, the element parser re-reads a printed
element verbatim: the round trip at the level of the node tree. -/
theorem parseEl_print : ∀ (fuel : Nat) (n : String) (attrs : List (String × String))
    (children : List XNode), GoodTree (XNode.elem n attrs children) →
    nodeDepth (XNode.elem n attrs children) ≤ fuel →
    ∀ r, parseEl fuel (printElTail n attrs children ++ r)
      = some (XNode.elem n attrs children, r) := by
  intro fuel
  induction fuel with
  | zero =>
      intro n attrs children hg hd r
      simp only [nodeDepth] at hd
      omega
  | succ f ih =>
      intro n attrs children hg hd r
      cases hg with
      | elem _ _ _ hn ha hc hs =>
          obtain ⟨hnne, hnch⟩ := hn
          have hin : printElTail n attrs children ++ r
              = n.toList ++ (printAttrList attrs ++ '>' ::
                  (printChildren children ++ '<' :: '/' :: (n.toList ++ '>' :: r))) := by
            rw [printElTail]
            simp
          rw [hin, parseEl.eq_def]
          dsimp only
          have hspan : (n.toList ++ (printAttrList attrs ++ '>' ::
                (printChildren children ++ '<' :: '/' :: (n.toList ++ '>' :: r)))).span
                  isNameChar
              = (n.toList, printAttrList attrs ++ '>' ::
                (printChildren children ++ '<' :: '/' :: (n.toList ++ '>' :: r))) := by
            cases attrs with
            | nil => exact span_append_cons n.toList '>' _ hnch (by rfl)
            | cons a rest =>
                have hsh : printAttrList (a :: rest) ++ '>' ::
                      (printChildren children ++ '<' :: '/' :: (n.toList ++ '>' :: r))
                    = ' ' :: ((a.1.toList ++ '=' :: '"' :: (escapeChars a.2.toList ++ ['"']))
                        ++ (printAttrList rest ++ '>' ::
                          (printChildren children ++ '<' :: '/' :: (n.toList ++ '>' :: r)))) := by
                  rw [printAttrList_cons, printAttr]
                  simp
                rw [hsh]
                exact span_append_cons n.toList ' ' _ hnch (by rfl)
          rw [hspan]
          dsimp only
          have hne : ¬ (n.toList.isEmpty = true) := by
            rcases hl : n.toList with _ | ⟨c, cs⟩
            · exact absurd hl (toList_ne_nil n hnne)
            · simp
          rw [if_neg hne]
          have hlen : attrs.length < (printAttrList attrs ++ '>' ::
              (printChildren children ++ '<' :: '/' :: (n.toList ++ '>' :: r))).length + 1 := by
            have := printAttrList_length_ge attrs
            simp only [List.length_append, List.length_cons]
            omega
          rw [parseAttrs_print attrs ha _ _ hlen]
          dsimp only
          have hfc : children.length < (printChildren children
              ++ '<' :: '/' :: (n.toList ++ '>' :: r)).length + 1 := by
            have := printChildren_length_ge children hc
            simp only [List.length_append, List.length_cons]
            omega
          have hpe : ∀ c ∈ children, ∀ n₂ attrs₂ cc₂, c = XNode.elem n₂ attrs₂ cc₂ →
              ∀ r', parseEl f (printElTail n₂ attrs₂ cc₂ ++ r') = some (c, r') := by
            intro c hcm n₂ attrs₂ cc₂ hceq r'
            subst hceq
            refine ih n₂ attrs₂ cc₂ (hc _ hcm) ?_ r'
            have h1 := nodeDepth_mem _ children hcm
            simp only [nodeDepth] at hd h1 ⊢
            omega
          rw [childLoop_print (parseEl f) children hc hs hpe _ [] (n.toList ++ '>' :: r) hfc]
          dsimp only
          rw [show ([] : List XNode).reverse ++ children = children from by simp]
          rw [parseElClose_print n.toList attrs children r hnch]
          rw [String.asString_toList]

/-- The printed form of a good tree is at least as long as the tree is
deep: enough fuel for the element parser. -/
theorem nodeDepth_le_printNode (x : XNode) (hg : GoodTree x) :
    nodeDepth x ≤ (printNode x).length := by
  induction hg with
  | text s h =>
      exact printNode_length_ge_one (XNode.text s) (GoodTree.text s h)
  | elem n attrs children hn ha hc hs ih =>
      have hcd : ∀ (l : List XNode), (∀ c ∈ l, nodeDepth c ≤ (printNode c).length) →
          childrenDepth l ≤ (printChildren l).length := by
        intro l
        induction l with
        | nil =>
            intro _
            simp [childrenDepth, printChildren]
        | cons c cs ihl =>
            intro hmem
            rw [printChildren_cons]
            simp only [childrenDepth, List.length_append]
            refine max_le ?_ ?_
            · have := hmem c (List.mem_cons_self c cs)
              omega
            · have := ihl (fun x hx => hmem x (List.mem_cons_of_mem c hx))
              omega
      have h1 := hcd children ih
      rw [printNode_elem]
      simp only [nodeDepth, printElTail, List.length_cons, List.length_append]
      omega

/-- Skipping to the first angle bracket of a printed element is a no-op. -/
theorem dropWhile_lt_head (tail : List Char) :
    ('<' :: tail).dropWhile (fun c => c ≠ '<') = '<' :: tail := by
  rw [List.dropWhile_cons]
  simp

/-- The root reader re-reads a printed good element exactly, consuming
the whole buffer. -/
theorem parseRootNode_print (n : String) (attrs : List (String × String))
    (children : List XNode) (hg : GoodTree (XNode.elem n attrs children)) :
    parseRootNode (printNode (XNode.elem n attrs children)).asString
      = some (XNode.elem n attrs children, ([] : List Char)) := by
  rw [parseRootNode.eq_def, List.toList_asString, printNode_elem, dropWhile_lt_head]
  dsimp only
  rw [if_pos rfl]
  have hd := nodeDepth_le_printNode (XNode.elem n attrs children) hg
  rw [printNode_elem, List.length_cons] at hd
  rw [show printElTail n attrs children = printElTail n attrs children ++ ([] : List Char)
    from by simp]
  rw [parseEl_print ((printElTail n attrs children ++ ([] : List Char)).length + 1)
    n attrs children hg (by simp only [List.length_append, List.length_nil]; omega) []]

/-- Parsing back a marshalled document is exactly the binder applied to
the marshalled node tree. -/
theorem Parse_marshal (g : GPX) (hg : GoodTree (marshalGPX g)) :
    Parse (Marshal g) GPX.empty = bindGPX GPX.empty (marshalGPX g) := by
  have hroot : marshalGPX g = XNode.elem "gpx"
      [("version", g.Version), ("creator", g.Creator)]
      ([marshalMetadata g.Metadata] ++ g.Waypoints.map (marshalWayPoint "wpt")
        ++ g.Routes.map marshalRoute ++ [marshalTrack g.Tracks]) := rfl
  rw [hroot] at hg
  rw [Parse.eq_def, Marshal, hroot, parseRootNode_print _ _ _ hg]

/-! ### The marshalled tree is a good tree -/

theorem asString_ne_empty (l : List Char) (h : l ≠ []) : l.asString ≠ "" := by
  intro he
  apply h
  have h2 := List.toList_asString l
  rw [he] at h2
  simpa using h2.symm

theorem ratToChars_ne_nil (q : ℚ) : ratToChars q ≠ [] := by
  simp [ratToChars]

theorem intToChars_ne_nil (i : ℤ) : intToChars i ≠ [] := by
  rw [intToChars]
  split
  · simp
  · exact natToChars_ne_nil _

theorem ratToText_ne_empty (q : ℚ) : ratToText q ≠ "" :=
  asString_ne_empty _ (ratToChars_ne_nil q)

theorem intToText_ne_empty (i : ℤ) : intToText i ≠ "" :=
  asString_ne_empty _ (intToChars_ne_nil i)

theorem noAdjacentTexts_of_elems : ∀ l : List XNode,
    (∀ x ∈ l, ∀ s, x ≠ XNode.text s) → noAdjacentTexts l := by
  intro l
  induction l with
  | nil => intro _; trivial
  | cons c rest ih =>
      intro h
      cases c with
      | text s => exact absurd rfl (h _ (List.mem_cons_self _ rest) s)
      | elem n a cc =>
          have hred : noAdjacentTexts (XNode.elem n a cc :: rest) = noAdjacentTexts rest := rfl
          rw [hred]
          exact ih (fun x hx => h x (List.mem_cons_of_mem _ hx))

theorem goodTree_elem_of (n : String) (attrs : List (String × String))
    (children : List XNode) (hn : GoodName n)
    (ha : ∀ a ∈ attrs, GoodName a.1)
    (hc : ∀ c ∈ children, GoodTree c)
    (hne : ∀ c ∈ children, ∀ s, c ≠ XNode.text s) :
    GoodTree (XNode.elem n attrs children) :=
  GoodTree.elem n attrs children hn ha hc (noAdjacentTexts_of_elems children hne)

theorem optAttr_goodName (nm v : String) (h : GoodName nm) :
    ∀ a ∈ optAttr nm v, GoodName a.1 := by
  intro a ha
  rw [optAttr] at ha
  split at ha
  · simp at ha
  · simp at ha
    rw [ha]
    exact h

theorem strChild_not_text (t v : String) :
    ∀ x ∈ strChild t v, ∀ s, x ≠ XNode.text s := by
  intro x hx s
  rw [strChild] at hx
  split at hx
  · simp at hx
  · simp at hx
    subst hx
    simp

theorem ratChild_not_text (t : String) (v : ℚ) :
    ∀ x ∈ ratChild t v, ∀ s, x ≠ XNode.text s := by
  intro x hx s
  rw [ratChild] at hx
  split at hx
  · simp at hx
  · simp at hx
    subst hx
    simp

theorem intChild_not_text (t : String) (v : ℤ) :
    ∀ x ∈ intChild t v, ∀ s, x ≠ XNode.text s := by
  intro x hx s
  rw [intChild] at hx
  split at hx
  · simp at hx
  · simp at hx
    subst hx
    simp

theorem goodTree_strChild (t v : String) (hn : GoodName t) :
    ∀ x ∈ strChild t v, GoodTree x := by
  intro x hx
  rw [strChild] at hx
  split at hx
  · simp at hx
  · rename_i hv
    simp at hx
    subst hx
    refine GoodTree.elem t [] [XNode.text v] hn (by simp) ?_ ?_
    · intro c hc
      simp at hc
      subst hc
      exact GoodTree.text v hv
    · trivial

theorem goodTree_ratChild (t : String) (v : ℚ) (hn : GoodName t) :
    ∀ x ∈ ratChild t v, GoodTree x := by
  intro x hx
  rw [ratChild] at hx
  split at hx
  · simp at hx
  · simp at hx
    subst hx
    refine GoodTree.elem t [] [XNode.text (ratToText v)] hn (by simp) ?_ ?_
    · intro c hc
      simp at hc
      subst hc
      exact GoodTree.text _ (ratToText_ne_empty v)
    · trivial

theorem goodTree_intChild (t : String) (v : ℤ) (hn : GoodName t) :
    ∀ x ∈ intChild t v, GoodTree x := by
  intro x hx
  rw [intChild] at hx
  split at hx
  · simp at hx
  · simp at hx
    subst hx
    refine GoodTree.elem t [] [XNode.text (intToText v)] hn (by simp) ?_ ?_
    · intro c hc
      simp at hc
      subst hc
      exact GoodTree.text _ (intToText_ne_empty v)
    · trivial

theorem marshalLink_not_text (l : Link) : ∀ s, marshalLink l ≠ XNode.text s := by
  intro s h
  simp [marshalLink] at h

theorem marshalEmail_not_text (e : Email) : ∀ s, marshalEmail e ≠ XNode.text s := by
  intro s h
  simp [marshalEmail] at h

theorem marshalPerson_not_text (p : Person) : ∀ s, marshalPerson p ≠ XNode.text s := by
  intro s h
  simp [marshalPerson] at h

theorem marshalCopyright_not_text (c : Copyright) : ∀ s, marshalCopyright c ≠ XNode.text s := by
  intro s h
  simp [marshalCopyright] at h

theorem marshalBounds_not_text (b : Bounds) : ∀ s, marshalBounds b ≠ XNode.text s := by
  intro s h
  simp [marshalBounds] at h

theorem marshalTrackPointExtension_not_text (t : TrackPointExtension) :
    ∀ s, marshalTrackPointExtension t ≠ XNode.text s := by
  intro s h
  simp [marshalTrackPointExtension] at h

theorem marshalExtension_not_text (e : Extension) :
    ∀ s, marshalExtension e ≠ XNode.text s := by
  intro s h
  simp [marshalExtension] at h

theorem marshalWayPoint_not_text (tag : String) (w : WayPoint) :
    ∀ s, marshalWayPoint tag w ≠ XNode.text s := by
  intro s h
  simp [marshalWayPoint] at h

theorem marshalTrackSegment_not_text (t : TrackSegment) :
    ∀ s, marshalTrackSegment t ≠ XNode.text s := by
  intro s h
  simp [marshalTrackSegment] at h

theorem marshalRoute_not_text (r : Route) : ∀ s, marshalRoute r ≠ XNode.text s := by
  intro s h
  simp [marshalRoute] at h

theorem marshalTrack_not_text (t : Track) : ∀ s, marshalTrack t ≠ XNode.text s := by
  intro s h
  simp [marshalTrack] at h

theorem marshalMetadata_not_text (m : Metadata) :
    ∀ s, marshalMetadata m ≠ XNode.text s := by
  intro s h
  simp [marshalMetadata] at h

theorem goodTree_marshalLink (l : Link) : GoodTree (marshalLink l) := by
  rw [marshalLink]
  refine goodTree_elem_of _ _ _ (by decide) (optAttr_goodName _ _ (by decide)) ?_ ?_
  · intro c hc
    rw [List.mem_append] at hc
    rcases hc with hc | hc
    · exact goodTree_strChild _ _ (by decide) c hc
    · exact goodTree_strChild _ _ (by decide) c hc
  · intro c hc
    rw [List.mem_append] at hc
    rcases hc with hc | hc
    · exact strChild_not_text _ _ c hc
    · exact strChild_not_text _ _ c hc

theorem goodTree_marshalEmail (e : Email) : GoodTree (marshalEmail e) := by
  rw [marshalEmail]
  refine goodTree_elem_of _ _ _ (by decide) ?_ (by simp) (by simp)
  intro a ha
  rw [List.mem_append] at ha
  rcases ha with ha | ha
  · exact optAttr_goodName _ _ (by decide) a ha
  · exact optAttr_goodName _ _ (by decide) a ha

theorem goodTree_marshalPerson (p : Person) : GoodTree (marshalPerson p) := by
  rw [marshalPerson]
  refine goodTree_elem_of _ _ _ (by decide) (by simp) ?_ ?_
  · intro c hc
    simp only [List.mem_append, List.mem_cons, List.mem_singleton, List.not_mem_nil, or_false, or_assoc] at hc
    rcases hc with hc | hc | hc
    · exact goodTree_strChild _ _ (by decide) c hc
    · subst hc
      exact goodTree_marshalEmail _
    · subst hc
      exact goodTree_marshalLink _
  · intro c hc
    simp only [List.mem_append, List.mem_cons, List.mem_singleton, List.not_mem_nil, or_false, or_assoc] at hc
    rcases hc with hc | hc | hc
    · exact strChild_not_text _ _ c hc
    · subst hc
      exact marshalEmail_not_text _
    · subst hc
      exact marshalLink_not_text _

theorem goodTree_marshalCopyright (c : Copyright) : GoodTree (marshalCopyright c) := by
  rw [marshalCopyright]
  refine goodTree_elem_of _ _ _ (by decide) ?_ ?_ ?_
  · intro a ha
    simp at ha
    rw [ha]
    dsimp only
    decide
  · intro x hx
    rw [List.mem_append] at hx
    rcases hx with hx | hx
    · exact goodTree_strChild _ _ (by decide) x hx
    · exact goodTree_strChild _ _ (by decide) x hx
  · intro x hx
    rw [List.mem_append] at hx
    rcases hx with hx | hx
    · exact strChild_not_text _ _ x hx
    · exact strChild_not_text _ _ x hx

theorem goodTree_marshalBounds (b : Bounds) : GoodTree (marshalBounds b) := by
  rw [marshalBounds]
  refine goodTree_elem_of _ _ _ (by decide) ?_ (by simp) (by simp)
  intro a ha
  simp only [List.mem_cons, List.mem_singleton, List.not_mem_nil, or_false] at ha
  rcases ha with ha | ha | ha | ha <;> (rw [ha]; dsimp only; decide)

theorem goodTree_marshalTrackPointExtension (t : TrackPointExtension) :
    GoodTree (marshalTrackPointExtension t) := by
  rw [marshalTrackPointExtension]
  refine goodTree_elem_of _ _ _ (by decide) (by simp) ?_ ?_
  · intro c hc
    simp only [List.mem_append, or_assoc] at hc
    rcases hc with hc | hc | hc
    · exact goodTree_intChild _ _ (by decide) c hc
    · exact goodTree_intChild _ _ (by decide) c hc
    · exact goodTree_intChild _ _ (by decide) c hc
  · intro c hc
    simp only [List.mem_append, or_assoc] at hc
    rcases hc with hc | hc | hc
    · exact intChild_not_text _ _ c hc
    · exact intChild_not_text _ _ c hc
    · exact intChild_not_text _ _ c hc

theorem goodTree_marshalExtension (e : Extension) : GoodTree (marshalExtension e) := by
  rw [marshalExtension]
  refine goodTree_elem_of _ _ _ (by decide) (by simp) ?_ ?_
  · intro c hc
    simp at hc
    subst hc
    exact goodTree_marshalTrackPointExtension _
  · intro c hc
    simp at hc
    subst hc
    exact marshalTrackPointExtension_not_text _

theorem goodTree_marshalWayPoint (tag : String) (htag : GoodName tag) (w : WayPoint) :
    GoodTree (marshalWayPoint tag w) := by
  rw [marshalWayPoint]
  refine goodTree_elem_of _ _ _ htag ?_ ?_ ?_
  · intro a ha
    simp only [List.mem_cons, List.mem_singleton, List.not_mem_nil, or_false] at ha
    rcases ha with ha | ha <;> (rw [ha]; dsimp only; decide)
  · intro c hc
    simp only [List.mem_append, or_assoc] at hc
    rcases hc with hc | hc | hc | hc | hc | hc | hc | hc | hc | hc | hc | hc | hc | hc
      | hc | hc | hc | hc | hc
    case _ => exact goodTree_ratChild _ _ (by decide) c hc
    case _ => exact goodTree_strChild _ _ (by decide) c hc
    case _ => exact goodTree_ratChild _ _ (by decide) c hc
    case _ => exact goodTree_strChild _ _ (by decide) c hc
    case _ => exact goodTree_strChild _ _ (by decide) c hc
    case _ => exact goodTree_strChild _ _ (by decide) c hc
    case _ => exact goodTree_strChild _ _ (by decide) c hc
    case _ => exact goodTree_strChild _ _ (by decide) c hc
    case _ =>
      simp only [List.mem_map] at hc
      obtain ⟨y, hy, rfl⟩ := hc
      exact goodTree_marshalLink y
    case _ => exact goodTree_strChild _ _ (by decide) c hc
    case _ => exact goodTree_strChild _ _ (by decide) c hc
    case _ => exact goodTree_strChild _ _ (by decide) c hc
    case _ => exact goodTree_intChild _ _ (by decide) c hc
    case _ => exact goodTree_ratChild _ _ (by decide) c hc
    case _ => exact goodTree_ratChild _ _ (by decide) c hc
    case _ => exact goodTree_ratChild _ _ (by decide) c hc
    case _ => exact goodTree_ratChild _ _ (by decide) c hc
    case _ => exact goodTree_intChild _ _ (by decide) c hc
    case _ =>
      simp only [List.mem_singleton] at hc
      subst hc
      exact goodTree_marshalExtension _
  · intro c hc
    simp only [List.mem_append, or_assoc] at hc
    rcases hc with hc | hc | hc | hc | hc | hc | hc | hc | hc | hc | hc | hc | hc | hc
      | hc | hc | hc | hc | hc
    case _ => exact ratChild_not_text _ _ c hc
    case _ => exact strChild_not_text _ _ c hc
    case _ => exact ratChild_not_text _ _ c hc
    case _ => exact strChild_not_text _ _ c hc
    case _ => exact strChild_not_text _ _ c hc
    case _ => exact strChild_not_text _ _ c hc
    case _ => exact strChild_not_text _ _ c hc
    case _ => exact strChild_not_text _ _ c hc
    case _ =>
      simp only [List.mem_map] at hc
      obtain ⟨y, hy, rfl⟩ := hc
      exact marshalLink_not_text y
    case _ => exact strChild_not_text _ _ c hc
    case _ => exact strChild_not_text _ _ c hc
    case _ => exact strChild_not_text _ _ c hc
    case _ => exact intChild_not_text _ _ c hc
    case _ => exact ratChild_not_text _ _ c hc
    case _ => exact ratChild_not_text _ _ c hc
    case _ => exact ratChild_not_text _ _ c hc
    case _ => exact ratChild_not_text _ _ c hc
    case _ => exact intChild_not_text _ _ c hc
    case _ =>
      simp only [List.mem_singleton] at hc
      subst hc
      exact marshalExtension_not_text _

theorem goodTree_marshalTrackSegment (t : TrackSegment) :
    GoodTree (marshalTrackSegment t) := by
  rw [marshalTrackSegment]
  refine goodTree_elem_of _ _ _ (by decide) (by simp) ?_ ?_
  · intro c hc
    simp only [List.mem_append] at hc
    rcases hc with hc | hc
    · simp only [List.mem_map] at hc
      obtain ⟨y, hy, rfl⟩ := hc
      exact goodTree_marshalWayPoint "trkpt" (by decide) y
    · simp only [List.mem_singleton] at hc
      subst hc
      exact goodTree_marshalExtension _
  · intro c hc
    simp only [List.mem_append] at hc
    rcases hc with hc | hc
    · simp only [List.mem_map] at hc
      obtain ⟨y, hy, rfl⟩ := hc
      exact marshalWayPoint_not_text "trkpt" y
    · simp only [List.mem_singleton] at hc
      subst hc
      exact marshalExtension_not_text _

theorem goodTree_marshalRoute (r : Route) : GoodTree (marshalRoute r) := by
  rw [marshalRoute]
  refine goodTree_elem_of _ _ _ (by decide) (by simp) ?_ ?_
  · intro c hc
    simp only [List.mem_append, or_assoc] at hc
    rcases hc with hc | hc | hc | hc | hc | hc | hc | hc | hc
    case _ => exact goodTree_strChild _ _ (by decide) c hc
    case _ => exact goodTree_strChild _ _ (by decide) c hc
    case _ => exact goodTree_strChild _ _ (by decide) c hc
    case _ => exact goodTree_strChild _ _ (by decide) c hc
    case _ =>
      simp only [List.mem_map] at hc
      obtain ⟨y, hy, rfl⟩ := hc
      exact goodTree_marshalLink y
    case _ => exact goodTree_intChild _ _ (by decide) c hc
    case _ => exact goodTree_strChild _ _ (by decide) c hc
    case _ =>
      simp only [List.mem_singleton] at hc
      subst hc
      exact goodTree_marshalExtension _
    case _ =>
      simp only [List.mem_map] at hc
      obtain ⟨y, hy, rfl⟩ := hc
      exact goodTree_marshalWayPoint "rtept" (by decide) y
  · intro c hc
    simp only [List.mem_append, or_assoc] at hc
    rcases hc with hc | hc | hc | hc | hc | hc | hc | hc | hc
    case _ => exact strChild_not_text _ _ c hc
    case _ => exact strChild_not_text _ _ c hc
    case _ => exact strChild_not_text _ _ c hc
    case _ => exact strChild_not_text _ _ c hc
    case _ =>
      simp only [List.mem_map] at hc
      obtain ⟨y, hy, rfl⟩ := hc
      exact marshalLink_not_text y
    case _ => exact intChild_not_text _ _ c hc
    case _ => exact strChild_not_text _ _ c hc
    case _ =>
      simp only [List.mem_singleton] at hc
      subst hc
      exact marshalExtension_not_text _
    case _ =>
      simp only [List.mem_map] at hc
      obtain ⟨y, hy, rfl⟩ := hc
      exact marshalWayPoint_not_text "rtept" y

theorem goodTree_marshalTrack (t : Track) : GoodTree (marshalTrack t) := by
  rw [marshalTrack]
  refine goodTree_elem_of _ _ _ (by decide) (by simp) ?_ ?_
  · intro c hc
    simp only [List.mem_append, or_assoc] at hc
    rcases hc with hc | hc | hc | hc | hc | hc | hc | hc | hc
    case _ => exact goodTree_strChild _ _ (by decide) c hc
    case _ => exact goodTree_strChild _ _ (by decide) c hc
    case _ => exact goodTree_strChild _ _ (by decide) c hc
    case _ => exact goodTree_strChild _ _ (by decide) c hc
    case _ =>
      simp only [List.mem_map] at hc
      obtain ⟨y, hy, rfl⟩ := hc
      exact goodTree_marshalLink y
    case _ => exact goodTree_intChild _ _ (by decide) c hc
    case _ => exact goodTree_strChild _ _ (by decide) c hc
    case _ =>
      simp only [List.mem_singleton] at hc
      subst hc
      exact goodTree_marshalExtension _
    case _ =>
      simp only [List.mem_map] at hc
      obtain ⟨y, hy, rfl⟩ := hc
      exact goodTree_marshalTrackSegment y
  · intro c hc
    simp only [List.mem_append, or_assoc] at hc
    rcases hc with hc | hc | hc | hc | hc | hc | hc | hc | hc
    case _ => exact strChild_not_text _ _ c hc
    case _ => exact strChild_not_text _ _ c hc
    case _ => exact strChild_not_text _ _ c hc
    case _ => exact strChild_not_text _ _ c hc
    case _ =>
      simp only [List.mem_map] at hc
      obtain ⟨y, hy, rfl⟩ := hc
      exact marshalLink_not_text y
    case _ => exact intChild_not_text _ _ c hc
    case _ => exact strChild_not_text _ _ c hc
    case _ =>
      simp only [List.mem_singleton] at hc
      subst hc
      exact marshalExtension_not_text _
    case _ =>
      simp only [List.mem_map] at hc
      obtain ⟨y, hy, rfl⟩ := hc
      exact marshalTrackSegment_not_text y

theorem goodTree_marshalMetadata (m : Metadata) : GoodTree (marshalMetadata m) := by
  rw [marshalMetadata]
  refine goodTree_elem_of _ _ _ (by decide) (by simp) ?_ ?_
  · intro c hc
    simp only [List.mem_append, List.mem_cons, List.mem_singleton, List.not_mem_nil, or_false, or_assoc] at hc
    rcases hc with hc | hc | hc | hc | hc | hc | hc | hc | hc
    case _ => exact goodTree_strChild _ _ (by decide) c hc
    case _ => exact goodTree_strChild _ _ (by decide) c hc
    case _ =>
      subst hc
      exact goodTree_marshalPerson _
    case _ =>
      subst hc
      exact goodTree_marshalCopyright _
    case _ =>
      simp only [List.mem_map] at hc
      obtain ⟨y, hy, rfl⟩ := hc
      exact goodTree_marshalLink y
    case _ => exact goodTree_strChild _ _ (by decide) c hc
    case _ => exact goodTree_strChild _ _ (by decide) c hc
    case _ =>
      subst hc
      exact goodTree_marshalBounds _
    case _ =>
      subst hc
      exact goodTree_marshalExtension _
  · intro c hc
    simp only [List.mem_append, List.mem_cons, List.mem_singleton, List.not_mem_nil, or_false, or_assoc] at hc
    rcases hc with hc | hc | hc | hc | hc | hc | hc | hc | hc
    case _ => exact strChild_not_text _ _ c hc
    case _ => exact strChild_not_text _ _ c hc
    case _ =>
      subst hc
      exact marshalPerson_not_text _
    case _ =>
      subst hc
      exact marshalCopyright_not_text _
    case _ =>
      simp only [List.mem_map] at hc
      obtain ⟨y, hy, rfl⟩ := hc
      exact marshalLink_not_text y
    case _ => exact strChild_not_text _ _ c hc
    case _ => exact strChild_not_text _ _ c hc
    case _ =>
      subst hc
      exact marshalBounds_not_text _
    case _ =>
      subst hc
      exact marshalExtension_not_text _

/-- Every marshalled document is a good tree: names are valid, texts are
nonempty (empty optional fields are omitted), no adjacent text runs. -/
theorem goodTree_marshalGPX (g : GPX) : GoodTree (marshalGPX g) := by
  rw [marshalGPX]
  refine goodTree_elem_of _ _ _ (by decide) ?_ ?_ ?_
  · intro a ha
    simp only [List.mem_cons, List.mem_singleton, List.not_mem_nil, or_false] at ha
    rcases ha with ha | ha <;> (rw [ha]; dsimp only; decide)
  · intro c hc
    simp only [List.mem_append, List.mem_cons, List.mem_singleton, List.not_mem_nil, or_false, or_assoc] at hc
    rcases hc with hc | hc | hc | hc
    case _ =>
      subst hc
      exact goodTree_marshalMetadata _
    case _ =>
      simp only [List.mem_map] at hc
      obtain ⟨y, hy, rfl⟩ := hc
      exact goodTree_marshalWayPoint "wpt" (by decide) y
    case _ =>
      simp only [List.mem_map] at hc
      obtain ⟨y, hy, rfl⟩ := hc
      exact goodTree_marshalRoute y
    case _ =>
      subst hc
      exact goodTree_marshalTrack _
  · intro c hc
    simp only [List.mem_append, List.mem_cons, List.mem_singleton, List.not_mem_nil, or_false, or_assoc] at hc
    rcases hc with hc | hc | hc | hc
    case _ =>
      subst hc
      exact marshalMetadata_not_text _
    case _ =>
      simp only [List.mem_map] at hc
      obtain ⟨y, hy, rfl⟩ := hc
      exact marshalWayPoint_not_text "wpt" y
    case _ =>
      simp only [List.mem_map] at hc
      obtain ⟨y, hy, rfl⟩ := hc
      exact marshalRoute_not_text y
    case _ =>
      subst hc
      exact marshalTrack_not_text _

/-! ### Generic decoding lemmas for the encoder's child shapes -/

theorem bindFold_nil {σ α : Type} (step : σ → α → σ × Option GpxError) (s : σ) :
    bindFold step s ([] : List α) = (s, none) := rfl

theorem bindFold_cons_ok {σ α : Type} (step : σ → α → σ × Option GpxError)
    (x : α) (xs : List α) (s s' : σ) (h : step s x = (s', none)) :
    bindFold step s (x :: xs) = bindFold step s' xs := by
  rw [bindFold.eq_def]
  dsimp only
  rw [h]

theorem elemText_single (u : String) : elemText [XNode.text u] = u := by
  simp [elemText]

/-- Folding over an optional attribute: absent when the value is empty,
otherwise one attribute assignment. -/
theorem fold_optAttr {σ : Type} (step : σ → String × String → σ × Option GpxError)
    (nm v : String) (s s' : σ) (rest : List (String × String))
    (hstep : step s (nm, v) = (s', none))
    (hzero : v = "" → s' = s) :
    bindFold step s (optAttr nm v ++ rest) = bindFold step s' rest := by
  by_cases hv : v = ""
  · rw [optAttr, if_pos hv, hzero hv]
    simp
  · rw [optAttr, if_neg hv, List.singleton_append]
    exact bindFold_cons_ok step _ rest s s' hstep

/-- Folding over an optional string-field child. -/
theorem fold_strChild {σ : Type} (step : σ → XNode → σ × Option GpxError)
    (tag v : String) (s s' : σ) (rest : List XNode)
    (hstep : step s (XNode.elem tag [] [XNode.text v]) = (s', none))
    (hzero : v = "" → s' = s) :
    bindFold step s (strChild tag v ++ rest) = bindFold step s' rest := by
  by_cases hv : v = ""
  · rw [strChild, if_pos hv, hzero hv]
    simp
  · rw [strChild, if_neg hv, List.singleton_append]
    exact bindFold_cons_ok step _ rest s s' hstep

/-- Folding over an optional float64-field child. -/
theorem fold_ratChild {σ : Type} (step : σ → XNode → σ × Option GpxError)
    (tag : String) (v : ℚ) (s s' : σ) (rest : List XNode)
    (hstep : step s (XNode.elem tag [] [XNode.text (ratToText v)]) = (s', none))
    (hzero : v = 0 → s' = s) :
    bindFold step s (ratChild tag v ++ rest) = bindFold step s' rest := by
  by_cases hv : v = 0
  · rw [ratChild, if_pos hv, hzero hv]
    simp
  · rw [ratChild, if_neg hv, List.singleton_append]
    exact bindFold_cons_ok step _ rest s s' hstep

/-- Folding over an optional int-field child. -/
theorem fold_intChild {σ : Type} (step : σ → XNode → σ × Option GpxError)
    (tag : String) (v : ℤ) (s s' : σ) (rest : List XNode)
    (hstep : step s (XNode.elem tag [] [XNode.text (intToText v)]) = (s', none))
    (hzero : v = 0 → s' = s) :
    bindFold step s (intChild tag v ++ rest) = bindFold step s' rest := by
  by_cases hv : v = 0
  · rw [intChild, if_pos hv, hzero hv]
    simp
  · rw [intChild, if_neg hv, List.singleton_append]
    exact bindFold_cons_ok step _ rest s s' hstep

/-- Folding over a repeated-slice segment: each encoded item decodes to
an append of the decoded item. -/
theorem fold_map {σ α : Type} (step : σ → XNode → σ × Option GpxError)
    (enc : α → XNode) (upd : σ → α → σ) (items : List α) (rest : List XNode) :
    ∀ s : σ, (∀ t x, x ∈ items → step t (enc x) = (upd t x, none)) →
    bindFold step s (items.map enc ++ rest) = bindFold step (items.foldl upd s) rest := by
  induction items with
  | nil =>
      intro s _
      simp
  | cons a xs ih =>
      intro s hstep
      rw [List.map_cons, List.cons_append,
        bindFold_cons_ok step _ _ s (upd s a) (hstep s a (List.mem_cons_self a xs)),
        List.foldl_cons]
      exact ih (upd s a) (fun t x hx => hstep t x (List.mem_cons_of_mem a hx))

/-! ### Per-record decode-of-encode round trips -/

theorem bindLink_marshal (l : Link) (h : LegalLink l) :
    bindLink Link.empty (marshalLink l) = (l, none) := by
  obtain ⟨hx, -, -, -⟩ := h
  have hstepHref : ∀ (t : Link) v, Link.stepAttr t ("href", v) = ({ t with URL := v }, none) := by
    intro t v
    rw [Link.stepAttr]
    dsimp only
    rw [if_pos rfl]
  have hstepText : ∀ (t : Link) u, Link.stepChild t (XNode.elem "text" [] [XNode.text u])
      = ({ t with Text := u }, none) := by
    intro t u
    rw [Link.stepChild.eq_def]
    dsimp only
    rw [if_pos rfl, elemText_single]
  have hstepType : ∀ (t : Link) u, Link.stepChild t (XNode.elem "type" [] [XNode.text u])
      = ({ t with Type' := u }, none) := by
    intro t u
    rw [Link.stepChild.eq_def]
    dsimp only
    rw [if_neg (by decide), if_pos rfl, elemText_single]
  rw [marshalLink, bindLink.eq_def]
  dsimp only [Link.empty]
  rw [show (optAttr "href" l.URL : List (String × String)) = optAttr "href" l.URL ++ []
    from (List.append_nil _).symm]
  rw [fold_optAttr Link.stepAttr "href" l.URL ⟨"link", "", "", ""⟩ ⟨"link", l.URL, "", ""⟩
    [] (hstepHref _ _) (fun hv => by rw [hv])]
  rw [bindFold_nil]
  dsimp only
  rw [fold_strChild Link.stepChild "text" l.Text ⟨"link", l.URL, "", ""⟩
    ⟨"link", l.URL, l.Text, ""⟩ (strChild "type" l.Type') (hstepText _ _)
    (fun hv => by rw [hv])]
  rw [show (strChild "type" l.Type' : List XNode) = strChild "type" l.Type' ++ []
    from (List.append_nil _).symm]
  rw [fold_strChild Link.stepChild "type" l.Type' ⟨"link", l.URL, l.Text, ""⟩
    ⟨"link", l.URL, l.Text, l.Type'⟩ [] (hstepType _ _) (fun hv => by rw [hv])]
  rw [bindFold_nil, ← hx]

theorem bindEmail_marshal (e : Email) (h : LegalEmail e) :
    bindEmail Email.empty (marshalEmail e) = (e, none) := by
  obtain ⟨hx, -, -⟩ := h
  have hstepId : ∀ (t : Email) v, Email.stepAttr t ("id", v) = ({ t with ID := v }, none) := by
    intro t v
    rw [Email.stepAttr]
    dsimp only
    rw [if_pos rfl]
  have hstepDomain : ∀ (t : Email) v, Email.stepAttr t ("domain", v)
      = ({ t with Domain := v }, none) := by
    intro t v
    rw [Email.stepAttr]
    dsimp only
    rw [if_neg (by decide), if_pos rfl]
  rw [marshalEmail, bindEmail.eq_def]
  dsimp only [Email.empty]
  rw [fold_optAttr Email.stepAttr "id" e.ID ⟨"email", "", ""⟩ ⟨"email", e.ID, ""⟩
    (optAttr "domain" e.Domain) (hstepId _ _) (fun hv => by rw [hv])]
  rw [show (optAttr "domain" e.Domain : List (String × String)) = optAttr "domain" e.Domain ++ []
    from (List.append_nil _).symm]
  rw [fold_optAttr Email.stepAttr "domain" e.Domain ⟨"email", e.ID, ""⟩
    ⟨"email", e.ID, e.Domain⟩ [] (hstepDomain _ _) (fun hv => by rw [hv])]
  rw [bindFold_nil, ← hx]

theorem bindCopyright_marshal (c : Copyright) (h : LegalCopyright c) :
    bindCopyright Copyright.empty (marshalCopyright c) = (c, none) := by
  obtain ⟨hx, -, -, -⟩ := h
  have hstepAuthor : ∀ (t : Copyright) v, Copyright.stepAttr t ("author", v)
      = ({ t with Author := v }, none) := by
    intro t v
    rw [Copyright.stepAttr]
    dsimp only
    rw [if_pos rfl]
  have hstepYear : ∀ (t : Copyright) u, Copyright.stepChild t (XNode.elem "year" [] [XNode.text u])
      = ({ t with Year := u }, none) := by
    intro t u
    rw [Copyright.stepChild.eq_def]
    dsimp only
    rw [if_pos rfl, elemText_single]
  have hstepLicense : ∀ (t : Copyright) u,
      Copyright.stepChild t (XNode.elem "license" [] [XNode.text u])
      = ({ t with License := u }, none) := by
    intro t u
    rw [Copyright.stepChild.eq_def]
    dsimp only
    rw [if_neg (by decide), if_pos rfl, elemText_single]
  rw [marshalCopyright, bindCopyright.eq_def]
  dsimp only [Copyright.empty]
  rw [bindFold_cons_ok Copyright.stepAttr _ [] ⟨"copyright", "", "", ""⟩
    ⟨"copyright", c.Author, "", ""⟩ (hstepAuthor _ _)]
  rw [bindFold_nil]
  dsimp only
  rw [fold_strChild Copyright.stepChild "year" c.Year ⟨"copyright", c.Author, "", ""⟩
    ⟨"copyright", c.Author, c.Year, ""⟩ (strChild "license" c.License) (hstepYear _ _)
    (fun hv => by rw [hv])]
  rw [show (strChild "license" c.License : List XNode) = strChild "license" c.License ++ []
    from (List.append_nil _).symm]
  rw [fold_strChild Copyright.stepChild "license" c.License ⟨"copyright", c.Author, c.Year, ""⟩
    ⟨"copyright", c.Author, c.Year, c.License⟩ [] (hstepLicense _ _) (fun hv => by rw [hv])]
  rw [bindFold_nil, ← hx]

theorem bindBounds_marshal (b : Bounds) (h : LegalBounds b) :
    bindBounds Bounds.empty (marshalBounds b) = (b, none) := by
  obtain ⟨hx, h1, h2, h3, h4⟩ := h
  have hminlat : ∀ (t : Bounds) u q, parseRatText u = some q →
      Bounds.stepAttr t ("minlat", u) = ({ t with MinLat := q }, none) := by
    intro t u q hq
    rw [Bounds.stepAttr]
    dsimp only
    rw [if_pos rfl, hq]
  have hmaxlat : ∀ (t : Bounds) u q, parseRatText u = some q →
      Bounds.stepAttr t ("maxlat", u) = ({ t with MaxLat := q }, none) := by
    intro t u q hq
    rw [Bounds.stepAttr]
    dsimp only
    rw [if_neg (by decide), if_pos rfl, hq]
  have hminlon : ∀ (t : Bounds) u q, parseRatText u = some q →
      Bounds.stepAttr t ("minlon", u) = ({ t with MinLon := q }, none) := by
    intro t u q hq
    rw [Bounds.stepAttr]
    dsimp only
    rw [if_neg (by decide), if_neg (by decide), if_pos rfl, hq]
  have hmaxlon : ∀ (t : Bounds) u q, parseRatText u = some q →
      Bounds.stepAttr t ("maxlon", u) = ({ t with MaxLon := q }, none) := by
    intro t u q hq
    rw [Bounds.stepAttr]
    dsimp only
    rw [if_neg (by decide), if_neg (by decide), if_neg (by decide), if_pos rfl, hq]
  rw [marshalBounds, bindBounds.eq_def]
  dsimp only [Bounds.empty]
  rw [bindFold_cons_ok Bounds.stepAttr _ _ ⟨"bounds", 0, 0, 0, 0⟩
    ⟨"bounds", b.MinLat, 0, 0, 0⟩ (hminlat _ _ _ (parseRatText_print _ h1))]
  rw [bindFold_cons_ok Bounds.stepAttr _ _ ⟨"bounds", b.MinLat, 0, 0, 0⟩
    ⟨"bounds", b.MinLat, b.MaxLat, 0, 0⟩ (hmaxlat _ _ _ (parseRatText_print _ h2))]
  rw [bindFold_cons_ok Bounds.stepAttr _ _ ⟨"bounds", b.MinLat, b.MaxLat, 0, 0⟩
    ⟨"bounds", b.MinLat, b.MaxLat, b.MinLon, 0⟩ (hminlon _ _ _ (parseRatText_print _ h3))]
  rw [bindFold_cons_ok Bounds.stepAttr _ [] ⟨"bounds", b.MinLat, b.MaxLat, b.MinLon, 0⟩
    ⟨"bounds", b.MinLat, b.MaxLat, b.MinLon, b.MaxLon⟩
    (hmaxlon _ _ _ (parseRatText_print _ h4))]
  rw [bindFold_nil, ← hx]

theorem bindTrackPointExtension_marshal (t : TrackPointExtension)
    (h : LegalTrackPointExtension t) :
    bindTrackPointExtension TrackPointExtension.empty (marshalTrackPointExtension t)
      = (t, none) := by
  have hx := h
  have hatemp : ∀ (x : TrackPointExtension) u q, parseIntText u = some q →
      TrackPointExtension.stepChild x (XNode.elem "atemp" [] [XNode.text u])
      = ({ x with Temperature := q }, none) := by
    intro x u q hq
    rw [TrackPointExtension.stepChild.eq_def]
    dsimp only
    rw [if_pos rfl, elemText_single, hq]
  have hhr : ∀ (x : TrackPointExtension) u q, parseIntText u = some q →
      TrackPointExtension.stepChild x (XNode.elem "hr" [] [XNode.text u])
      = ({ x with HeartRate := q }, none) := by
    intro x u q hq
    rw [TrackPointExtension.stepChild.eq_def]
    dsimp only
    rw [if_neg (by decide), if_pos rfl, elemText_single, hq]
  have hcad : ∀ (x : TrackPointExtension) u q, parseIntText u = some q →
      TrackPointExtension.stepChild x (XNode.elem "cad" [] [XNode.text u])
      = ({ x with Cadence := q }, none) := by
    intro x u q hq
    rw [TrackPointExtension.stepChild.eq_def]
    dsimp only
    rw [if_neg (by decide), if_neg (by decide), if_pos rfl, elemText_single, hq]
  rw [marshalTrackPointExtension, bindTrackPointExtension.eq_def]
  dsimp only [TrackPointExtension.empty]
  simp only [List.append_assoc]
  rw [fold_intChild TrackPointExtension.stepChild "atemp" t.Temperature
    ⟨"TrackPointExtension", 0, 0, 0⟩ ⟨"TrackPointExtension", t.Temperature, 0, 0⟩
    (intChild "hr" t.HeartRate ++ intChild "cad" t.Cadence)
    (hatemp _ _ _ (parseIntText_print _)) (fun hv => by rw [hv])]
  rw [fold_intChild TrackPointExtension.stepChild "hr" t.HeartRate
    ⟨"TrackPointExtension", t.Temperature, 0, 0⟩
    ⟨"TrackPointExtension", t.Temperature, t.HeartRate, 0⟩
    (intChild "cad" t.Cadence) (hhr _ _ _ (parseIntText_print _)) (fun hv => by rw [hv])]
  rw [show (intChild "cad" t.Cadence : List XNode) = intChild "cad" t.Cadence ++ []
    from (List.append_nil _).symm]
  rw [fold_intChild TrackPointExtension.stepChild "cad" t.Cadence
    ⟨"TrackPointExtension", t.Temperature, t.HeartRate, 0⟩
    ⟨"TrackPointExtension", t.Temperature, t.HeartRate, t.Cadence⟩
    [] (hcad _ _ _ (parseIntText_print _)) (fun hv => by rw [hv])]
  rw [bindFold_nil, ← hx]

theorem bindExtension_marshal (e : Extension) (h : LegalExtension e) :
    bindExtension Extension.empty (marshalExtension e) = (e, none) := by
  obtain ⟨hx, hT⟩ := h
  have hstep : Extension.stepChild ⟨"extensions", TrackPointExtension.empty⟩
      (marshalTrackPointExtension e.TrackPointExtensions)
      = (⟨"extensions", e.TrackPointExtensions⟩, none) := by
    rw [marshalTrackPointExtension, Extension.stepChild.eq_def]
    dsimp only
    rw [if_pos rfl]
    rw [show (XNode.elem "TrackPointExtension" []
        (intChild "atemp" e.TrackPointExtensions.Temperature
          ++ intChild "hr" e.TrackPointExtensions.HeartRate
          ++ intChild "cad" e.TrackPointExtensions.Cadence))
        = marshalTrackPointExtension e.TrackPointExtensions from rfl]
    rw [bindTrackPointExtension_marshal e.TrackPointExtensions hT]
  rw [marshalExtension, bindExtension.eq_def]
  dsimp only [Extension.empty]
  rw [bindFold_cons_ok Extension.stepChild _ [] _ _ hstep, bindFold_nil, ← hx]

theorem bindPerson_marshal (p : Person) (h : LegalPerson p) :
    bindPerson Person.empty (marshalPerson p) = (p, none) := by
  obtain ⟨hx, -, hE, hL⟩ := h
  have hstepName : ∀ (t : Person) u, Person.stepChild t (XNode.elem "name" [] [XNode.text u])
      = ({ t with Name := u }, none) := by
    intro t u
    rw [Person.stepChild.eq_def]
    dsimp only
    rw [if_pos rfl, elemText_single]
  have hsE : Person.stepChild ⟨"author", p.Name, Email.empty, Link.empty⟩
      (marshalEmail p.Email)
      = (⟨"author", p.Name, p.Email, Link.empty⟩, none) := by
    rw [marshalEmail, Person.stepChild.eq_def]
    dsimp only
    rw [if_neg (by decide), if_pos rfl]
    rw [show (XNode.elem "email" (optAttr "id" p.Email.ID ++ optAttr "domain" p.Email.Domain) [])
        = marshalEmail p.Email from rfl]
    rw [bindEmail_marshal p.Email hE]
  have hsL : Person.stepChild ⟨"author", p.Name, p.Email, Link.empty⟩
      (marshalLink p.Link)
      = (⟨"author", p.Name, p.Email, p.Link⟩, none) := by
    rw [marshalLink, Person.stepChild.eq_def]
    dsimp only
    rw [if_neg (by decide), if_neg (by decide), if_pos rfl]
    rw [show (XNode.elem "link" (optAttr "href" p.Link.URL)
        (strChild "text" p.Link.Text ++ strChild "type" p.Link.Type'))
        = marshalLink p.Link from rfl]
    rw [bindLink_marshal p.Link hL]
  rw [marshalPerson, bindPerson.eq_def]
  dsimp only [Person.empty]
  rw [fold_strChild Person.stepChild "name" p.Name
    ⟨"author", "", Email.empty, Link.empty⟩ ⟨"author", p.Name, Email.empty, Link.empty⟩
    [marshalEmail p.Email, marshalLink p.Link] (hstepName _ _) (fun hv => by rw [hv])]
  rw [bindFold_cons_ok Person.stepChild _ _ _ _ hsE]
  rw [bindFold_cons_ok Person.stepChild _ [] _ _ hsL]
  rw [bindFold_nil, ← hx]


theorem wp_foldl_links : ∀ (items : List Link) (s : WayPoint),
    items.foldl (fun t x => { t with Links := t.Links ++ [x] }) s
      = { s with Links := s.Links ++ items } := by
  intro items
  induction items with
  | nil =>
      intro s
      simp
  | cons a xs ih =>
      intro s
      rw [List.foldl_cons, ih]
      simp [List.append_assoc]

/-- Decoding an encoded waypoint from a fresh zero receiver restores it
field for field. -/
theorem bindWayPoint_marshal (tag : String) (w : WayPoint) (h : LegalWayPoint w) :
    bindWayPoint WayPoint.empty (marshalWayPoint tag w) = (w, none) := by
  obtain ⟨hd1, hd2, hd3, -, hd5, -, -, -, -, -, hLk, -, -, -, hd15, hd16, hd17, hd18, hEx⟩ := h
  have hlat : ∀ (x : WayPoint) u q, parseRatText u = some q →
      WayPoint.stepAttr x ("lat", u) = ({ x with Latitude := q }, none) := by
    intro x u q hq
    rw [WayPoint.stepAttr]
    dsimp only
    rw [if_pos rfl, hq]
  have hlon : ∀ (x : WayPoint) u q, parseRatText u = some q →
      WayPoint.stepAttr x ("lon", u) = ({ x with Longitude := q }, none) := by
    intro x u q hq
    rw [WayPoint.stepAttr]
    dsimp only
    rw [if_neg (by decide), if_pos rfl, hq]
  have hc_ele : ∀ (x : WayPoint) u q, parseRatText u = some q →
      WayPoint.stepChild x (XNode.elem "ele" [] [XNode.text u]) = ({ x with Elevation := q }, none) := by
    intro x u q hq
    rw [WayPoint.stepChild.eq_def]
    dsimp only
    rw [show WayPoint.fieldOf "ele" = some WPField.ele from rfl]
    dsimp only
    rw [WayPoint.applyChild.eq_def]
    dsimp only
    rw [elemText_single, hq]
  have hc_magvar : ∀ (x : WayPoint) u q, parseRatText u = some q →
      WayPoint.stepChild x (XNode.elem "magvar" [] [XNode.text u]) = ({ x with MagneticVariation := q }, none) := by
    intro x u q hq
    rw [WayPoint.stepChild.eq_def]
    dsimp only
    rw [show WayPoint.fieldOf "magvar" = some WPField.magvar from rfl]
    dsimp only
    rw [WayPoint.applyChild.eq_def]
    dsimp only
    rw [elemText_single, hq]
  have hc_hdop : ∀ (x : WayPoint) u q, parseRatText u = some q →
      WayPoint.stepChild x (XNode.elem "hdop" [] [XNode.text u]) = ({ x with HorizontalDilutionOfPrecision := q }, none) := by
    intro x u q hq
    rw [WayPoint.stepChild.eq_def]
    dsimp only
    rw [show WayPoint.fieldOf "hdop" = some WPField.hdop from rfl]
    dsimp only
    rw [WayPoint.applyChild.eq_def]
    dsimp only
    rw [elemText_single, hq]
  have hc_vdop : ∀ (x : WayPoint) u q, parseRatText u = some q →
      WayPoint.stepChild x (XNode.elem "vdop" [] [XNode.text u]) = ({ x with VerticalDilutionOfPrecision := q }, none) := by
    intro x u q hq
    rw [WayPoint.stepChild.eq_def]
    dsimp only
    rw [show WayPoint.fieldOf "vdop" = some WPField.vdop from rfl]
    dsimp only
    rw [WayPoint.applyChild.eq_def]
    dsimp only
    rw [elemText_single, hq]
  have hc_pdop : ∀ (x : WayPoint) u q, parseRatText u = some q →
      WayPoint.stepChild x (XNode.elem "pdop" [] [XNode.text u]) = ({ x with PositionDilutionOfPrecision := q }, none) := by
    intro x u q hq
    rw [WayPoint.stepChild.eq_def]
    dsimp only
    rw [show WayPoint.fieldOf "pdop" = some WPField.pdop from rfl]
    dsimp only
    rw [WayPoint.applyChild.eq_def]
    dsimp only
    rw [elemText_single, hq]
  have hc_ageofgpsdata : ∀ (x : WayPoint) u q, parseRatText u = some q →
      WayPoint.stepChild x (XNode.elem "ageofgpsdata" [] [XNode.text u]) = ({ x with AgeOfGpsData := q }, none) := by
    intro x u q hq
    rw [WayPoint.stepChild.eq_def]
    dsimp only
    rw [show WayPoint.fieldOf "ageofgpsdata" = some WPField.ageofgpsdata from rfl]
    dsimp only
    rw [WayPoint.applyChild.eq_def]
    dsimp only
    rw [elemText_single, hq]
  have hc_sat : ∀ (x : WayPoint) u q, parseIntText u = some q →
      WayPoint.stepChild x (XNode.elem "sat" [] [XNode.text u]) = ({ x with Sat := q }, none) := by
    intro x u q hq
    rw [WayPoint.stepChild.eq_def]
    dsimp only
    rw [show WayPoint.fieldOf "sat" = some WPField.sat from rfl]
    dsimp only
    rw [WayPoint.applyChild.eq_def]
    dsimp only
    rw [elemText_single, hq]
  have hc_dgpsid : ∀ (x : WayPoint) u q, parseIntText u = some q →
      WayPoint.stepChild x (XNode.elem "dgpsid" [] [XNode.text u]) = ({ x with DifferentialGPSID := q }, none) := by
    intro x u q hq
    rw [WayPoint.stepChild.eq_def]
    dsimp only
    rw [show WayPoint.fieldOf "dgpsid" = some WPField.dgpsid from rfl]
    dsimp only
    rw [WayPoint.applyChild.eq_def]
    dsimp only
    rw [elemText_single, hq]
  have hc_time : ∀ (x : WayPoint) u,
      WayPoint.stepChild x (XNode.elem "time" [] [XNode.text u]) = ({ x with Timestamp := u }, none) := by
    intro x u
    rw [WayPoint.stepChild.eq_def]
    dsimp only
    rw [show WayPoint.fieldOf "time" = some WPField.time from rfl]
    dsimp only
    rw [WayPoint.applyChild.eq_def]
    dsimp only
    rw [elemText_single]
  have hc_geoidheight : ∀ (x : WayPoint) u,
      WayPoint.stepChild x (XNode.elem "geoidheight" [] [XNode.text u]) = ({ x with GeoIDHeight := u }, none) := by
    intro x u
    rw [WayPoint.stepChild.eq_def]
    dsimp only
    rw [show WayPoint.fieldOf "geoidheight" = some WPField.geoidheight from rfl]
    dsimp only
    rw [WayPoint.applyChild.eq_def]
    dsimp only
    rw [elemText_single]
  have hc_name : ∀ (x : WayPoint) u,
      WayPoint.stepChild x (XNode.elem "name" [] [XNode.text u]) = ({ x with Name := u }, none) := by
    intro x u
    rw [WayPoint.stepChild.eq_def]
    dsimp only
    rw [show WayPoint.fieldOf "name" = some WPField.name from rfl]
    dsimp only
    rw [WayPoint.applyChild.eq_def]
    dsimp only
    rw [elemText_single]
  have hc_cmt : ∀ (x : WayPoint) u,
      WayPoint.stepChild x (XNode.elem "cmt" [] [XNode.text u]) = ({ x with Comment := u }, none) := by
    intro x u
    rw [WayPoint.stepChild.eq_def]
    dsimp only
    rw [show WayPoint.fieldOf "cmt" = some WPField.cmt from rfl]
    dsimp only
    rw [WayPoint.applyChild.eq_def]
    dsimp only
    rw [elemText_single]
  have hc_desc : ∀ (x : WayPoint) u,
      WayPoint.stepChild x (XNode.elem "desc" [] [XNode.text u]) = ({ x with Description := u }, none) := by
    intro x u
    rw [WayPoint.stepChild.eq_def]
    dsimp only
    rw [show WayPoint.fieldOf "desc" = some WPField.desc from rfl]
    dsimp only
    rw [WayPoint.applyChild.eq_def]
    dsimp only
    rw [elemText_single]
  have hc_src : ∀ (x : WayPoint) u,
      WayPoint.stepChild x (XNode.elem "src" [] [XNode.text u]) = ({ x with Source := u }, none) := by
    intro x u
    rw [WayPoint.stepChild.eq_def]
    dsimp only
    rw [show WayPoint.fieldOf "src" = some WPField.src from rfl]
    dsimp only
    rw [WayPoint.applyChild.eq_def]
    dsimp only
    rw [elemText_single]
  have hc_sym : ∀ (x : WayPoint) u,
      WayPoint.stepChild x (XNode.elem "sym" [] [XNode.text u]) = ({ x with Symbol := u }, none) := by
    intro x u
    rw [WayPoint.stepChild.eq_def]
    dsimp only
    rw [show WayPoint.fieldOf "sym" = some WPField.sym from rfl]
    dsimp only
    rw [WayPoint.applyChild.eq_def]
    dsimp only
    rw [elemText_single]
  have hc_type : ∀ (x : WayPoint) u,
      WayPoint.stepChild x (XNode.elem "type" [] [XNode.text u]) = ({ x with Type' := u }, none) := by
    intro x u
    rw [WayPoint.stepChild.eq_def]
    dsimp only
    rw [show WayPoint.fieldOf "type" = some WPField.typ from rfl]
    dsimp only
    rw [WayPoint.applyChild.eq_def]
    dsimp only
    rw [elemText_single]
  have hc_fix : ∀ (x : WayPoint) u,
      WayPoint.stepChild x (XNode.elem "fix" [] [XNode.text u]) = ({ x with Fix := u }, none) := by
    intro x u
    rw [WayPoint.stepChild.eq_def]
    dsimp only
    rw [show WayPoint.fieldOf "fix" = some WPField.fix from rfl]
    dsimp only
    rw [WayPoint.applyChild.eq_def]
    dsimp only
    rw [elemText_single]
  have hc_link : ∀ (x : WayPoint) y, LegalLink y →
      WayPoint.stepChild x (marshalLink y) = ({ x with Links := x.Links ++ [y] }, none) := by
    intro x y hy
    rw [marshalLink, WayPoint.stepChild.eq_def]
    dsimp only
    rw [show WayPoint.fieldOf "link" = some WPField.link from rfl]
    dsimp only
    rw [WayPoint.applyChild.eq_def]
    dsimp only
    rw [show (XNode.elem "link" (optAttr "href" y.URL)
        (strChild "text" y.Text ++ strChild "type" y.Type')) = marshalLink y from rfl]
    rw [bindLink_marshal y hy]
  have hc_ext : ∀ (x : WayPoint) e, x.Extensions = Extension.empty → LegalExtension e →
      WayPoint.stepChild x (marshalExtension e) = ({ x with Extensions := e }, none) := by
    intro x e hxe he
    rw [marshalExtension, WayPoint.stepChild.eq_def]
    dsimp only
    rw [show WayPoint.fieldOf "extensions" = some WPField.extensions from rfl]
    dsimp only
    rw [WayPoint.applyChild.eq_def]
    dsimp only
    rw [show (XNode.elem "extensions" [] [marshalTrackPointExtension e.TrackPointExtensions])
        = marshalExtension e from rfl]
    rw [hxe, bindExtension_marshal e he]
  rw [marshalWayPoint, bindWayPoint.eq_def]
  dsimp only [WayPoint.empty]
  rw [bindFold_cons_ok WayPoint.stepAttr _ _ ⟨0, 0, 0, "", 0, "", "", "", "", "", [], "", "", "", 0, 0, 0, 0, 0, 0, Extension.empty⟩
    ⟨w.Latitude, 0, 0, "", 0, "", "", "", "", "", [], "", "", "", 0, 0, 0, 0, 0, 0, Extension.empty⟩ (hlat _ _ _ (parseRatText_print _ hd1))]
  rw [bindFold_cons_ok WayPoint.stepAttr _ [] ⟨w.Latitude, 0, 0, "", 0, "", "", "", "", "", [], "", "", "", 0, 0, 0, 0, 0, 0, Extension.empty⟩
    ⟨w.Latitude, w.Longitude, 0, "", 0, "", "", "", "", "", [], "", "", "", 0, 0, 0, 0, 0, 0, Extension.empty⟩ (hlon _ _ _ (parseRatText_print _ hd2))]
  rw [bindFold_nil]
  dsimp only
  simp only [List.append_assoc]
  rw [fold_ratChild WayPoint.stepChild "ele" w.Elevation ⟨w.Latitude, w.Longitude, 0, "", 0, "", "", "", "", "", [], "", "", "", 0, 0, 0, 0, 0, 0, Extension.empty⟩
    ⟨w.Latitude, w.Longitude, w.Elevation, "", 0, "", "", "", "", "", [], "", "", "", 0, 0, 0, 0, 0, 0, Extension.empty⟩ _ (hc_ele _ _ _ (parseRatText_print _ hd3)) (fun hv => by rw [hv])]
  rw [fold_strChild WayPoint.stepChild "time" w.Timestamp ⟨w.Latitude, w.Longitude, w.Elevation, "", 0, "", "", "", "", "", [], "", "", "", 0, 0, 0, 0, 0, 0, Extension.empty⟩
    ⟨w.Latitude, w.Longitude, w.Elevation, w.Timestamp, 0, "", "", "", "", "", [], "", "", "", 0, 0, 0, 0, 0, 0, Extension.empty⟩ _ (hc_time _ _) (fun hv => by rw [hv])]
  rw [fold_ratChild WayPoint.stepChild "magvar" w.MagneticVariation ⟨w.Latitude, w.Longitude, w.Elevation, w.Timestamp, 0, "", "", "", "", "", [], "", "", "", 0, 0, 0, 0, 0, 0, Extension.empty⟩
    ⟨w.Latitude, w.Longitude, w.Elevation, w.Timestamp, w.MagneticVariation, "", "", "", "", "", [], "", "", "", 0, 0, 0, 0, 0, 0, Extension.empty⟩ _ (hc_magvar _ _ _ (parseRatText_print _ hd5)) (fun hv => by rw [hv])]
  rw [fold_strChild WayPoint.stepChild "geoidheight" w.GeoIDHeight ⟨w.Latitude, w.Longitude, w.Elevation, w.Timestamp, w.MagneticVariation, "", "", "", "", "", [], "", "", "", 0, 0, 0, 0, 0, 0, Extension.empty⟩
    ⟨w.Latitude, w.Longitude, w.Elevation, w.Timestamp, w.MagneticVariation, w.GeoIDHeight, "", "", "", "", [], "", "", "", 0, 0, 0, 0, 0, 0, Extension.empty⟩ _ (hc_geoidheight _ _) (fun hv => by rw [hv])]
  rw [fold_strChild WayPoint.stepChild "name" w.Name ⟨w.Latitude, w.Longitude, w.Elevation, w.Timestamp, w.MagneticVariation, w.GeoIDHeight, "", "", "", "", [], "", "", "", 0, 0, 0, 0, 0, 0, Extension.empty⟩
    ⟨w.Latitude, w.Longitude, w.Elevation, w.Timestamp, w.MagneticVariation, w.GeoIDHeight, w.Name, "", "", "", [], "", "", "", 0, 0, 0, 0, 0, 0, Extension.empty⟩ _ (hc_name _ _) (fun hv => by rw [hv])]
  rw [fold_strChild WayPoint.stepChild "cmt" w.Comment ⟨w.Latitude, w.Longitude, w.Elevation, w.Timestamp, w.MagneticVariation, w.GeoIDHeight, w.Name, "", "", "", [], "", "", "", 0, 0, 0, 0, 0, 0, Extension.empty⟩
    ⟨w.Latitude, w.Longitude, w.Elevation, w.Timestamp, w.MagneticVariation, w.GeoIDHeight, w.Name, w.Comment, "", "", [], "", "", "", 0, 0, 0, 0, 0, 0, Extension.empty⟩ _ (hc_cmt _ _) (fun hv => by rw [hv])]
  rw [fold_strChild WayPoint.stepChild "desc" w.Description ⟨w.Latitude, w.Longitude, w.Elevation, w.Timestamp, w.MagneticVariation, w.GeoIDHeight, w.Name, w.Comment, "", "", [], "", "", "", 0, 0, 0, 0, 0, 0, Extension.empty⟩
    ⟨w.Latitude, w.Longitude, w.Elevation, w.Timestamp, w.MagneticVariation, w.GeoIDHeight, w.Name, w.Comment, w.Description, "", [], "", "", "", 0, 0, 0, 0, 0, 0, Extension.empty⟩ _ (hc_desc _ _) (fun hv => by rw [hv])]
  rw [fold_strChild WayPoint.stepChild "src" w.Source ⟨w.Latitude, w.Longitude, w.Elevation, w.Timestamp, w.MagneticVariation, w.GeoIDHeight, w.Name, w.Comment, w.Description, "", [], "", "", "", 0, 0, 0, 0, 0, 0, Extension.empty⟩
    ⟨w.Latitude, w.Longitude, w.Elevation, w.Timestamp, w.MagneticVariation, w.GeoIDHeight, w.Name, w.Comment, w.Description, w.Source, [], "", "", "", 0, 0, 0, 0, 0, 0, Extension.empty⟩ _ (hc_src _ _) (fun hv => by rw [hv])]
  rw [fold_map WayPoint.stepChild marshalLink
    (fun t x => { t with Links := t.Links ++ [x] }) w.Links _
    ⟨w.Latitude, w.Longitude, w.Elevation, w.Timestamp, w.MagneticVariation, w.GeoIDHeight, w.Name, w.Comment, w.Description, w.Source, [], "", "", "", 0, 0, 0, 0, 0, 0, Extension.empty⟩ (fun t x hx => hc_link t x (hLk x hx))]
  rw [wp_foldl_links w.Links ⟨w.Latitude, w.Longitude, w.Elevation, w.Timestamp, w.MagneticVariation, w.GeoIDHeight, w.Name, w.Comment, w.Description, w.Source, [], "", "", "", 0, 0, 0, 0, 0, 0, Extension.empty⟩]
  dsimp only
  simp only [List.nil_append]
  rw [fold_strChild WayPoint.stepChild "sym" w.Symbol ⟨w.Latitude, w.Longitude, w.Elevation, w.Timestamp, w.MagneticVariation, w.GeoIDHeight, w.Name, w.Comment, w.Description, w.Source, w.Links, "", "", "", 0, 0, 0, 0, 0, 0, Extension.empty⟩
    ⟨w.Latitude, w.Longitude, w.Elevation, w.Timestamp, w.MagneticVariation, w.GeoIDHeight, w.Name, w.Comment, w.Description, w.Source, w.Links, w.Symbol, "", "", 0, 0, 0, 0, 0, 0, Extension.empty⟩ _ (hc_sym _ _) (fun hv => by rw [hv])]
  rw [fold_strChild WayPoint.stepChild "type" w.Type' ⟨w.Latitude, w.Longitude, w.Elevation, w.Timestamp, w.MagneticVariation, w.GeoIDHeight, w.Name, w.Comment, w.Description, w.Source, w.Links, w.Symbol, "", "", 0, 0, 0, 0, 0, 0, Extension.empty⟩
    ⟨w.Latitude, w.Longitude, w.Elevation, w.Timestamp, w.MagneticVariation, w.GeoIDHeight, w.Name, w.Comment, w.Description, w.Source, w.Links, w.Symbol, w.Type', "", 0, 0, 0, 0, 0, 0, Extension.empty⟩ _ (hc_type _ _) (fun hv => by rw [hv])]
  rw [fold_strChild WayPoint.stepChild "fix" w.Fix ⟨w.Latitude, w.Longitude, w.Elevation, w.Timestamp, w.MagneticVariation, w.GeoIDHeight, w.Name, w.Comment, w.Description, w.Source, w.Links, w.Symbol, w.Type', "", 0, 0, 0, 0, 0, 0, Extension.empty⟩
    ⟨w.Latitude, w.Longitude, w.Elevation, w.Timestamp, w.MagneticVariation, w.GeoIDHeight, w.Name, w.Comment, w.Description, w.Source, w.Links, w.Symbol, w.Type', w.Fix, 0, 0, 0, 0, 0, 0, Extension.empty⟩ _ (hc_fix _ _) (fun hv => by rw [hv])]
  rw [fold_intChild WayPoint.stepChild "sat" w.Sat ⟨w.Latitude, w.Longitude, w.Elevation, w.Timestamp, w.MagneticVariation, w.GeoIDHeight, w.Name, w.Comment, w.Description, w.Source, w.Links, w.Symbol, w.Type', w.Fix, 0, 0, 0, 0, 0, 0, Extension.empty⟩
    ⟨w.Latitude, w.Longitude, w.Elevation, w.Timestamp, w.MagneticVariation, w.GeoIDHeight, w.Name, w.Comment, w.Description, w.Source, w.Links, w.Symbol, w.Type', w.Fix, w.Sat, 0, 0, 0, 0, 0, Extension.empty⟩ _ (hc_sat _ _ _ (parseIntText_print _)) (fun hv => by rw [hv])]
  rw [fold_ratChild WayPoint.stepChild "hdop" w.HorizontalDilutionOfPrecision ⟨w.Latitude, w.Longitude, w.Elevation, w.Timestamp, w.MagneticVariation, w.GeoIDHeight, w.Name, w.Comment, w.Description, w.Source, w.Links, w.Symbol, w.Type', w.Fix, w.Sat, 0, 0, 0, 0, 0, Extension.empty⟩
    ⟨w.Latitude, w.Longitude, w.Elevation, w.Timestamp, w.MagneticVariation, w.GeoIDHeight, w.Name, w.Comment, w.Description, w.Source, w.Links, w.Symbol, w.Type', w.Fix, w.Sat, w.HorizontalDilutionOfPrecision, 0, 0, 0, 0, Extension.empty⟩ _ (hc_hdop _ _ _ (parseRatText_print _ hd15)) (fun hv => by rw [hv])]
  rw [fold_ratChild WayPoint.stepChild "vdop" w.VerticalDilutionOfPrecision ⟨w.Latitude, w.Longitude, w.Elevation, w.Timestamp, w.MagneticVariation, w.GeoIDHeight, w.Name, w.Comment, w.Description, w.Source, w.Links, w.Symbol, w.Type', w.Fix, w.Sat, w.HorizontalDilutionOfPrecision, 0, 0, 0, 0, Extension.empty⟩
    ⟨w.Latitude, w.Longitude, w.Elevation, w.Timestamp, w.MagneticVariation, w.GeoIDHeight, w.Name, w.Comment, w.Description, w.Source, w.Links, w.Symbol, w.Type', w.Fix, w.Sat, w.HorizontalDilutionOfPrecision, w.VerticalDilutionOfPrecision, 0, 0, 0, Extension.empty⟩ _ (hc_vdop _ _ _ (parseRatText_print _ hd16)) (fun hv => by rw [hv])]
  rw [fold_ratChild WayPoint.stepChild "pdop" w.PositionDilutionOfPrecision ⟨w.Latitude, w.Longitude, w.Elevation, w.Timestamp, w.MagneticVariation, w.GeoIDHeight, w.Name, w.Comment, w.Description, w.Source, w.Links, w.Symbol, w.Type', w.Fix, w.Sat, w.HorizontalDilutionOfPrecision, w.VerticalDilutionOfPrecision, 0, 0, 0, Extension.empty⟩
    ⟨w.Latitude, w.Longitude, w.Elevation, w.Timestamp, w.MagneticVariation, w.GeoIDHeight, w.Name, w.Comment, w.Description, w.Source, w.Links, w.Symbol, w.Type', w.Fix, w.Sat, w.HorizontalDilutionOfPrecision, w.VerticalDilutionOfPrecision, w.PositionDilutionOfPrecision, 0, 0, Extension.empty⟩ _ (hc_pdop _ _ _ (parseRatText_print _ hd17)) (fun hv => by rw [hv])]
  rw [fold_ratChild WayPoint.stepChild "ageofgpsdata" w.AgeOfGpsData ⟨w.Latitude, w.Longitude, w.Elevation, w.Timestamp, w.MagneticVariation, w.GeoIDHeight, w.Name, w.Comment, w.Description, w.Source, w.Links, w.Symbol, w.Type', w.Fix, w.Sat, w.HorizontalDilutionOfPrecision, w.VerticalDilutionOfPrecision, w.PositionDilutionOfPrecision, 0, 0, Extension.empty⟩
    ⟨w.Latitude, w.Longitude, w.Elevation, w.Timestamp, w.MagneticVariation, w.GeoIDHeight, w.Name, w.Comment, w.Description, w.Source, w.Links, w.Symbol, w.Type', w.Fix, w.Sat, w.HorizontalDilutionOfPrecision, w.VerticalDilutionOfPrecision, w.PositionDilutionOfPrecision, w.AgeOfGpsData, 0, Extension.empty⟩ _ (hc_ageofgpsdata _ _ _ (parseRatText_print _ hd18)) (fun hv => by rw [hv])]
  rw [fold_intChild WayPoint.stepChild "dgpsid" w.DifferentialGPSID ⟨w.Latitude, w.Longitude, w.Elevation, w.Timestamp, w.MagneticVariation, w.GeoIDHeight, w.Name, w.Comment, w.Description, w.Source, w.Links, w.Symbol, w.Type', w.Fix, w.Sat, w.HorizontalDilutionOfPrecision, w.VerticalDilutionOfPrecision, w.PositionDilutionOfPrecision, w.AgeOfGpsData, 0, Extension.empty⟩
    ⟨w.Latitude, w.Longitude, w.Elevation, w.Timestamp, w.MagneticVariation, w.GeoIDHeight, w.Name, w.Comment, w.Description, w.Source, w.Links, w.Symbol, w.Type', w.Fix, w.Sat, w.HorizontalDilutionOfPrecision, w.VerticalDilutionOfPrecision, w.PositionDilutionOfPrecision, w.AgeOfGpsData, w.DifferentialGPSID, Extension.empty⟩ _ (hc_dgpsid _ _ _ (parseIntText_print _)) (fun hv => by rw [hv])]
  rw [bindFold_cons_ok WayPoint.stepChild _ [] ⟨w.Latitude, w.Longitude, w.Elevation, w.Timestamp, w.MagneticVariation, w.GeoIDHeight, w.Name, w.Comment, w.Description, w.Source, w.Links, w.Symbol, w.Type', w.Fix, w.Sat, w.HorizontalDilutionOfPrecision, w.VerticalDilutionOfPrecision, w.PositionDilutionOfPrecision, w.AgeOfGpsData, w.DifferentialGPSID, Extension.empty⟩
    ⟨w.Latitude, w.Longitude, w.Elevation, w.Timestamp, w.MagneticVariation, w.GeoIDHeight, w.Name, w.Comment, w.Description, w.Source, w.Links, w.Symbol, w.Type', w.Fix, w.Sat, w.HorizontalDilutionOfPrecision, w.VerticalDilutionOfPrecision, w.PositionDilutionOfPrecision, w.AgeOfGpsData, w.DifferentialGPSID, w.Extensions⟩ (hc_ext ⟨w.Latitude, w.Longitude, w.Elevation, w.Timestamp, w.MagneticVariation, w.GeoIDHeight, w.Name, w.Comment, w.Description, w.Source, w.Links, w.Symbol, w.Type', w.Fix, w.Sat, w.HorizontalDilutionOfPrecision, w.VerticalDilutionOfPrecision, w.PositionDilutionOfPrecision, w.AgeOfGpsData, w.DifferentialGPSID, Extension.empty⟩ w.Extensions rfl hEx)]
  rw [bindFold_nil]



theorem seg_foldl_pts : ∀ (items : List WayPoint) (s : TrackSegment),
    items.foldl (fun t x => { t with TrackPoint := t.TrackPoint ++ [x] }) s
      = { s with TrackPoint := s.TrackPoint ++ items } := by
  intro items
  induction items with
  | nil =>
      intro s
      simp
  | cons a xs ih =>
      intro s
      rw [List.foldl_cons, ih]
      simp [List.append_assoc]

theorem bindTrackSegment_marshal (t : TrackSegment) (h : LegalTrackSegment t) :
    bindTrackSegment TrackSegment.empty (marshalTrackSegment t) = (t, none) := by
  obtain ⟨hx, hPts, hEx⟩ := h
  have hc_pt : ∀ (x : TrackSegment) y, LegalWayPoint y →
      TrackSegment.stepChild x (marshalWayPoint "trkpt" y)
      = ({ x with TrackPoint := x.TrackPoint ++ [y] }, none) := by
    intro x y hy
    have h1 : TrackSegment.stepChild x (marshalWayPoint "trkpt" y)
        = ({ x with TrackPoint := x.TrackPoint
              ++ [(bindWayPoint WayPoint.empty (marshalWayPoint "trkpt" y)).1] },
           (bindWayPoint WayPoint.empty (marshalWayPoint "trkpt" y)).2) := rfl
    rw [h1, bindWayPoint_marshal "trkpt" y hy]
  have hc_ext : ∀ (x : TrackSegment) e, x.Extensions = Extension.empty → LegalExtension e →
      TrackSegment.stepChild x (marshalExtension e) = ({ x with Extensions := e }, none) := by
    intro x e hxe he
    have h1 : TrackSegment.stepChild x (marshalExtension e)
        = ({ x with Extensions := (bindExtension x.Extensions (marshalExtension e)).1 },
           (bindExtension x.Extensions (marshalExtension e)).2) := rfl
    rw [h1, hxe, bindExtension_marshal e he]
  rw [marshalTrackSegment, bindTrackSegment.eq_def]
  dsimp only [TrackSegment.empty]
  rw [fold_map TrackSegment.stepChild (marshalWayPoint "trkpt")
    (fun t x => { t with TrackPoint := t.TrackPoint ++ [x] }) t.TrackPoint _
    ⟨"trkseg", [], Extension.empty⟩ (fun s x hx => hc_pt s x (hPts x hx))]
  rw [seg_foldl_pts t.TrackPoint ⟨"trkseg", [], Extension.empty⟩]
  dsimp only
  simp only [List.nil_append]
  rw [bindFold_cons_ok TrackSegment.stepChild _ [] ⟨"trkseg", t.TrackPoint, Extension.empty⟩
    ⟨"trkseg", t.TrackPoint, t.Extensions⟩ (hc_ext _ t.Extensions rfl hEx)]
  rw [bindFold_nil, ← hx]

theorem rte_foldl_links : ∀ (items : List Link) (s : Route),
    items.foldl (fun t x => { t with Links := t.Links ++ [x] }) s
      = { s with Links := s.Links ++ items } := by
  intro items
  induction items with
  | nil =>
      intro s
      simp
  | cons a xs ih =>
      intro s
      rw [List.foldl_cons, ih]
      simp [List.append_assoc]

theorem rte_foldl_pts : ∀ (items : List WayPoint) (s : Route),
    items.foldl (fun t x => { t with RoutePoints := t.RoutePoints ++ [x] }) s
      = { s with RoutePoints := s.RoutePoints ++ items } := by
  intro items
  induction items with
  | nil =>
      intro s
      simp
  | cons a xs ih =>
      intro s
      rw [List.foldl_cons, ih]
      simp [List.append_assoc]

theorem bindRoute_marshal (r : Route) (h : LegalRoute r) :
    bindRoute Route.empty (marshalRoute r) = (r, none) := by
  obtain ⟨hx, -, -, -, -, hLk, -, hEx, hPts⟩ := h
  have hc_name : ∀ (x : Route) u,
      Route.stepChild x (XNode.elem "name" [] [XNode.text u]) = ({ x with Name := u }, none) := by
    intro x u
    rw [Route.stepChild.eq_def]
    dsimp only
    rw [show Route.fieldOf "name" = some RteField.name from rfl]
    dsimp only
    rw [Route.applyChild.eq_def]
    dsimp only
    rw [elemText_single]
  have hc_cmt : ∀ (x : Route) u,
      Route.stepChild x (XNode.elem "cmt" [] [XNode.text u]) = ({ x with Comment := u }, none) := by
    intro x u
    rw [Route.stepChild.eq_def]
    dsimp only
    rw [show Route.fieldOf "cmt" = some RteField.cmt from rfl]
    dsimp only
    rw [Route.applyChild.eq_def]
    dsimp only
    rw [elemText_single]
  have hc_desc : ∀ (x : Route) u,
      Route.stepChild x (XNode.elem "desc" [] [XNode.text u]) = ({ x with Description := u }, none) := by
    intro x u
    rw [Route.stepChild.eq_def]
    dsimp only
    rw [show Route.fieldOf "desc" = some RteField.desc from rfl]
    dsimp only
    rw [Route.applyChild.eq_def]
    dsimp only
    rw [elemText_single]
  have hc_src : ∀ (x : Route) u,
      Route.stepChild x (XNode.elem "src" [] [XNode.text u]) = ({ x with Source := u }, none) := by
    intro x u
    rw [Route.stepChild.eq_def]
    dsimp only
    rw [show Route.fieldOf "src" = some RteField.src from rfl]
    dsimp only
    rw [Route.applyChild.eq_def]
    dsimp only
    rw [elemText_single]
  have hc_type : ∀ (x : Route) u,
      Route.stepChild x (XNode.elem "type" [] [XNode.text u]) = ({ x with Type' := u }, none) := by
    intro x u
    rw [Route.stepChild.eq_def]
    dsimp only
    rw [show Route.fieldOf "type" = some RteField.typ from rfl]
    dsimp only
    rw [Route.applyChild.eq_def]
    dsimp only
    rw [elemText_single]
  have hc_number : ∀ (x : Route) u q, parseIntText u = some q →
      Route.stepChild x (XNode.elem "number" [] [XNode.text u]) = ({ x with Number := q }, none) := by
    intro x u q hq
    rw [Route.stepChild.eq_def]
    dsimp only
    rw [show Route.fieldOf "number" = some RteField.number from rfl]
    dsimp only
    rw [Route.applyChild.eq_def]
    dsimp only
    rw [elemText_single, hq]
  have hc_link : ∀ (x : Route) y, LegalLink y →
      Route.stepChild x (marshalLink y) = ({ x with Links := x.Links ++ [y] }, none) := by
    intro x y hy
    have h1 : Route.stepChild x (marshalLink y)
        = ({ x with Links := x.Links ++ [(bindLink Link.empty (marshalLink y)).1] },
           (bindLink Link.empty (marshalLink y)).2) := rfl
    rw [h1, bindLink_marshal y hy]
  have hc_ext : ∀ (x : Route) e, x.Extensions = Extension.empty → LegalExtension e →
      Route.stepChild x (marshalExtension e) = ({ x with Extensions := e }, none) := by
    intro x e hxe he
    have h1 : Route.stepChild x (marshalExtension e)
        = ({ x with Extensions := (bindExtension x.Extensions (marshalExtension e)).1 },
           (bindExtension x.Extensions (marshalExtension e)).2) := rfl
    rw [h1, hxe, bindExtension_marshal e he]
  have hc_pt : ∀ (x : Route) y, LegalWayPoint y →
      Route.stepChild x (marshalWayPoint "rtept" y)
      = ({ x with RoutePoints := x.RoutePoints ++ [y] }, none) := by
    intro x y hy
    have h1 : Route.stepChild x (marshalWayPoint "rtept" y)
        = ({ x with RoutePoints := x.RoutePoints
              ++ [(bindWayPoint WayPoint.empty (marshalWayPoint "rtept" y)).1] },
           (bindWayPoint WayPoint.empty (marshalWayPoint "rtept" y)).2) := rfl
    rw [h1, bindWayPoint_marshal "rtept" y hy]
  rw [marshalRoute, bindRoute.eq_def]
  dsimp only [Route.empty]
  simp only [List.append_assoc, List.singleton_append, List.nil_append]
  rw [fold_strChild Route.stepChild "name" r.Name ⟨"rte", "", "", "", "", [], 0, "", Extension.empty, []⟩
    ⟨"rte", r.Name, "", "", "", [], 0, "", Extension.empty, []⟩ _ (hc_name _ _) (fun hv => by rw [hv])]
  rw [fold_strChild Route.stepChild "cmt" r.Comment ⟨"rte", r.Name, "", "", "", [], 0, "", Extension.empty, []⟩
    ⟨"rte", r.Name, r.Comment, "", "", [], 0, "", Extension.empty, []⟩ _ (hc_cmt _ _) (fun hv => by rw [hv])]
  rw [fold_strChild Route.stepChild "desc" r.Description ⟨"rte", r.Name, r.Comment, "", "", [], 0, "", Extension.empty, []⟩
    ⟨"rte", r.Name, r.Comment, r.Description, "", [], 0, "", Extension.empty, []⟩ _ (hc_desc _ _) (fun hv => by rw [hv])]
  rw [fold_strChild Route.stepChild "src" r.Source ⟨"rte", r.Name, r.Comment, r.Description, "", [], 0, "", Extension.empty, []⟩
    ⟨"rte", r.Name, r.Comment, r.Description, r.Source, [], 0, "", Extension.empty, []⟩ _ (hc_src _ _) (fun hv => by rw [hv])]
  rw [fold_map Route.stepChild marshalLink
    (fun t x => { t with Links := t.Links ++ [x] }) r.Links _
    ⟨"rte", r.Name, r.Comment, r.Description, r.Source, [], 0, "", Extension.empty, []⟩ (fun s x hx => hc_link s x (hLk x hx))]
  rw [rte_foldl_links r.Links ⟨"rte", r.Name, r.Comment, r.Description, r.Source, [], 0, "", Extension.empty, []⟩]
  dsimp only
  simp only [List.nil_append]
  rw [fold_intChild Route.stepChild "number" r.Number ⟨"rte", r.Name, r.Comment, r.Description, r.Source, r.Links, 0, "", Extension.empty, []⟩
    ⟨"rte", r.Name, r.Comment, r.Description, r.Source, r.Links, r.Number, "", Extension.empty, []⟩ _ (hc_number _ _ _ (parseIntText_print _)) (fun hv => by rw [hv])]
  rw [fold_strChild Route.stepChild "type" r.Type' ⟨"rte", r.Name, r.Comment, r.Description, r.Source, r.Links, r.Number, "", Extension.empty, []⟩
    ⟨"rte", r.Name, r.Comment, r.Description, r.Source, r.Links, r.Number, r.Type', Extension.empty, []⟩ _ (hc_type _ _) (fun hv => by rw [hv])]
  rw [bindFold_cons_ok Route.stepChild _ _ ⟨"rte", r.Name, r.Comment, r.Description, r.Source, r.Links, r.Number, r.Type', Extension.empty, []⟩
    ⟨"rte", r.Name, r.Comment, r.Description, r.Source, r.Links, r.Number, r.Type', r.Extensions, []⟩ (hc_ext ⟨"rte", r.Name, r.Comment, r.Description, r.Source, r.Links, r.Number, r.Type', Extension.empty, []⟩ r.Extensions rfl hEx)]
  rw [show (List.map (marshalWayPoint "rtept") r.RoutePoints : List XNode)
      = List.map (marshalWayPoint "rtept") r.RoutePoints ++ [] from (List.append_nil _).symm]
  rw [fold_map Route.stepChild (marshalWayPoint "rtept")
    (fun t x => { t with RoutePoints := t.RoutePoints ++ [x] }) r.RoutePoints []
    ⟨"rte", r.Name, r.Comment, r.Description, r.Source, r.Links, r.Number, r.Type', r.Extensions, []⟩ (fun s x hx => hc_pt s x (hPts x hx))]
  rw [rte_foldl_pts r.RoutePoints ⟨"rte", r.Name, r.Comment, r.Description, r.Source, r.Links, r.Number, r.Type', r.Extensions, []⟩]
  rw [bindFold_nil]
  dsimp only
  simp only [List.nil_append]
  rw [← hx]


theorem trk_foldl_links : ∀ (items : List Link) (s : Track),
    items.foldl (fun t x => { t with Links := t.Links ++ [x] }) s
      = { s with Links := s.Links ++ items } := by
  intro items
  induction items with
  | nil =>
      intro s
      simp
  | cons a xs ih =>
      intro s
      rw [List.foldl_cons, ih]
      simp [List.append_assoc]

theorem trk_foldl_segs : ∀ (items : List TrackSegment) (s : Track),
    items.foldl (fun t x => { t with TrackSegments := t.TrackSegments ++ [x] }) s
      = { s with TrackSegments := s.TrackSegments ++ items } := by
  intro items
  induction items with
  | nil =>
      intro s
      simp
  | cons a xs ih =>
      intro s
      rw [List.foldl_cons, ih]
      simp [List.append_assoc]

theorem bindTrack_marshal (t : Track) (h : LegalTrack t) :
    bindTrack Track.empty (marshalTrack t) = (t, none) := by
  obtain ⟨hx, -, -, -, -, hLk, -, hEx, hSegs⟩ := h
  have hc_name : ∀ (x : Track) u,
      Track.stepChild x (XNode.elem "name" [] [XNode.text u]) = ({ x with Name := u }, none) := by
    intro x u
    rw [Track.stepChild.eq_def]
    dsimp only
    rw [show Track.fieldOf "name" = some TrkField.name from rfl]
    dsimp only
    rw [Track.applyChild.eq_def]
    dsimp only
    rw [elemText_single]
  have hc_cmt : ∀ (x : Track) u,
      Track.stepChild x (XNode.elem "cmt" [] [XNode.text u]) = ({ x with Comment := u }, none) := by
    intro x u
    rw [Track.stepChild.eq_def]
    dsimp only
    rw [show Track.fieldOf "cmt" = some TrkField.cmt from rfl]
    dsimp only
    rw [Track.applyChild.eq_def]
    dsimp only
    rw [elemText_single]
  have hc_desc : ∀ (x : Track) u,
      Track.stepChild x (XNode.elem "desc" [] [XNode.text u]) = ({ x with Description := u }, none) := by
    intro x u
    rw [Track.stepChild.eq_def]
    dsimp only
    rw [show Track.fieldOf "desc" = some TrkField.desc from rfl]
    dsimp only
    rw [Track.applyChild.eq_def]
    dsimp only
    rw [elemText_single]
  have hc_src : ∀ (x : Track) u,
      Track.stepChild x (XNode.elem "src" [] [XNode.text u]) = ({ x with Source := u }, none) := by
    intro x u
    rw [Track.stepChild.eq_def]
    dsimp only
    rw [show Track.fieldOf "src" = some TrkField.src from rfl]
    dsimp only
    rw [Track.applyChild.eq_def]
    dsimp only
    rw [elemText_single]
  have hc_type : ∀ (x : Track) u,
      Track.stepChild x (XNode.elem "type" [] [XNode.text u]) = ({ x with Type' := u }, none) := by
    intro x u
    rw [Track.stepChild.eq_def]
    dsimp only
    rw [show Track.fieldOf "type" = some TrkField.typ from rfl]
    dsimp only
    rw [Track.applyChild.eq_def]
    dsimp only
    rw [elemText_single]
  have hc_number : ∀ (x : Track) u q, parseIntText u = some q →
      Track.stepChild x (XNode.elem "number" [] [XNode.text u]) = ({ x with Number := q }, none) := by
    intro x u q hq
    rw [Track.stepChild.eq_def]
    dsimp only
    rw [show Track.fieldOf "number" = some TrkField.number from rfl]
    dsimp only
    rw [Track.applyChild.eq_def]
    dsimp only
    rw [elemText_single, hq]
  have hc_link : ∀ (x : Track) y, LegalLink y →
      Track.stepChild x (marshalLink y) = ({ x with Links := x.Links ++ [y] }, none) := by
    intro x y hy
    have h1 : Track.stepChild x (marshalLink y)
        = ({ x with Links := x.Links ++ [(bindLink Link.empty (marshalLink y)).1] },
           (bindLink Link.empty (marshalLink y)).2) := rfl
    rw [h1, bindLink_marshal y hy]
  have hc_ext : ∀ (x : Track) e, x.Extensions = Extension.empty → LegalExtension e →
      Track.stepChild x (marshalExtension e) = ({ x with Extensions := e }, none) := by
    intro x e hxe he
    have h1 : Track.stepChild x (marshalExtension e)
        = ({ x with Extensions := (bindExtension x.Extensions (marshalExtension e)).1 },
           (bindExtension x.Extensions (marshalExtension e)).2) := rfl
    rw [h1, hxe, bindExtension_marshal e he]
  have hc_seg : ∀ (x : Track) y, LegalTrackSegment y →
      Track.stepChild x (marshalTrackSegment y)
      = ({ x with TrackSegments := x.TrackSegments ++ [y] }, none) := by
    intro x y hy
    have h1 : Track.stepChild x (marshalTrackSegment y)
        = ({ x with TrackSegments := x.TrackSegments
              ++ [(bindTrackSegment TrackSegment.empty (marshalTrackSegment y)).1] },
           (bindTrackSegment TrackSegment.empty (marshalTrackSegment y)).2) := rfl
    rw [h1, bindTrackSegment_marshal y hy]
  rw [marshalTrack, bindTrack.eq_def]
  dsimp only [Track.empty]
  simp only [List.append_assoc, List.singleton_append, List.nil_append]
  rw [fold_strChild Track.stepChild "name" t.Name ⟨"trk", "", "", "", "", [], 0, "", Extension.empty, []⟩
    ⟨"trk", t.Name, "", "", "", [], 0, "", Extension.empty, []⟩ _ (hc_name _ _) (fun hv => by rw [hv])]
  rw [fold_strChild Track.stepChild "cmt" t.Comment ⟨"trk", t.Name, "", "", "", [], 0, "", Extension.empty, []⟩
    ⟨"trk", t.Name, t.Comment, "", "", [], 0, "", Extension.empty, []⟩ _ (hc_cmt _ _) (fun hv => by rw [hv])]
  rw [fold_strChild Track.stepChild "desc" t.Description ⟨"trk", t.Name, t.Comment, "", "", [], 0, "", Extension.empty, []⟩
    ⟨"trk", t.Name, t.Comment, t.Description, "", [], 0, "", Extension.empty, []⟩ _ (hc_desc _ _) (fun hv => by rw [hv])]
  rw [fold_strChild Track.stepChild "src" t.Source ⟨"trk", t.Name, t.Comment, t.Description, "", [], 0, "", Extension.empty, []⟩
    ⟨"trk", t.Name, t.Comment, t.Description, t.Source, [], 0, "", Extension.empty, []⟩ _ (hc_src _ _) (fun hv => by rw [hv])]
  rw [fold_map Track.stepChild marshalLink
    (fun t x => { t with Links := t.Links ++ [x] }) t.Links _
    ⟨"trk", t.Name, t.Comment, t.Description, t.Source, [], 0, "", Extension.empty, []⟩ (fun s x hx => hc_link s x (hLk x hx))]
  rw [trk_foldl_links t.Links ⟨"trk", t.Name, t.Comment, t.Description, t.Source, [], 0, "", Extension.empty, []⟩]
  dsimp only
  simp only [List.nil_append]
  rw [fold_intChild Track.stepChild "number" t.Number ⟨"trk", t.Name, t.Comment, t.Description, t.Source, t.Links, 0, "", Extension.empty, []⟩
    ⟨"trk", t.Name, t.Comment, t.Description, t.Source, t.Links, t.Number, "", Extension.empty, []⟩ _ (hc_number _ _ _ (parseIntText_print _)) (fun hv => by rw [hv])]
  rw [fold_strChild Track.stepChild "type" t.Type' ⟨"trk", t.Name, t.Comment, t.Description, t.Source, t.Links, t.Number, "", Extension.empty, []⟩
    ⟨"trk", t.Name, t.Comment, t.Description, t.Source, t.Links, t.Number, t.Type', Extension.empty, []⟩ _ (hc_type _ _) (fun hv => by rw [hv])]
  rw [bindFold_cons_ok Track.stepChild _ _ ⟨"trk", t.Name, t.Comment, t.Description, t.Source, t.Links, t.Number, t.Type', Extension.empty, []⟩
    ⟨"trk", t.Name, t.Comment, t.Description, t.Source, t.Links, t.Number, t.Type', t.Extensions, []⟩ (hc_ext ⟨"trk", t.Name, t.Comment, t.Description, t.Source, t.Links, t.Number, t.Type', Extension.empty, []⟩ t.Extensions rfl hEx)]
  rw [show (List.map marshalTrackSegment t.TrackSegments : List XNode)
      = List.map marshalTrackSegment t.TrackSegments ++ [] from (List.append_nil _).symm]
  rw [fold_map Track.stepChild marshalTrackSegment
    (fun t x => { t with TrackSegments := t.TrackSegments ++ [x] }) t.TrackSegments []
    ⟨"trk", t.Name, t.Comment, t.Description, t.Source, t.Links, t.Number, t.Type', t.Extensions, []⟩ (fun s x hx => hc_seg s x (hSegs x hx))]
  rw [trk_foldl_segs t.TrackSegments ⟨"trk", t.Name, t.Comment, t.Description, t.Source, t.Links, t.Number, t.Type', t.Extensions, []⟩]
  rw [bindFold_nil]
  dsimp only
  simp only [List.nil_append]
  rw [← hx]

theorem md_foldl_links : ∀ (items : List Link) (s : Metadata),
    items.foldl (fun t x => { t with Links := t.Links ++ [x] }) s
      = { s with Links := s.Links ++ items } := by
  intro items
  induction items with
  | nil =>
      intro s
      simp
  | cons a xs ih =>
      intro s
      rw [List.foldl_cons, ih]
      simp [List.append_assoc]

theorem bindMetadata_marshal (m : Metadata) (h : LegalMetadata m) :
    bindMetadata Metadata.empty (marshalMetadata m) = (m, none) := by
  obtain ⟨hx, -, -, hAu, hCp, hLk, -, -, hBd, hEx⟩ := h
  have hc_name : ∀ (x : Metadata) u,
      Metadata.stepChild x (XNode.elem "name" [] [XNode.text u]) = ({ x with Name := u }, none) := by
    intro x u
    rw [Metadata.stepChild.eq_def]
    dsimp only
    rw [show Metadata.fieldOf "name" = some MdField.name from rfl]
    dsimp only
    rw [Metadata.applyChild.eq_def]
    dsimp only
    rw [elemText_single]
  have hc_desc : ∀ (x : Metadata) u,
      Metadata.stepChild x (XNode.elem "desc" [] [XNode.text u])
      = ({ x with Description := u }, none) := by
    intro x u
    rw [Metadata.stepChild.eq_def]
    dsimp only
    rw [show Metadata.fieldOf "desc" = some MdField.desc from rfl]
    dsimp only
    rw [Metadata.applyChild.eq_def]
    dsimp only
    rw [elemText_single]
  have hc_time : ∀ (x : Metadata) u,
      Metadata.stepChild x (XNode.elem "time" [] [XNode.text u])
      = ({ x with Timestamp := u }, none) := by
    intro x u
    rw [Metadata.stepChild.eq_def]
    dsimp only
    rw [show Metadata.fieldOf "time" = some MdField.time from rfl]
    dsimp only
    rw [Metadata.applyChild.eq_def]
    dsimp only
    rw [elemText_single]
  have hc_keywords : ∀ (x : Metadata) u,
      Metadata.stepChild x (XNode.elem "keywords" [] [XNode.text u])
      = ({ x with Keywords := u }, none) := by
    intro x u
    rw [Metadata.stepChild.eq_def]
    dsimp only
    rw [show Metadata.fieldOf "keywords" = some MdField.keywords from rfl]
    dsimp only
    rw [Metadata.applyChild.eq_def]
    dsimp only
    rw [elemText_single]
  have hc_author : ∀ (x : Metadata) y, x.Author = Person.empty → LegalPerson y →
      Metadata.stepChild x (marshalPerson y) = ({ x with Author := y }, none) := by
    intro x y hxa hy
    have h1 : Metadata.stepChild x (marshalPerson y)
        = ({ x with Author := (bindPerson x.Author (marshalPerson y)).1 },
           (bindPerson x.Author (marshalPerson y)).2) := rfl
    rw [h1, hxa, bindPerson_marshal y hy]
  have hc_copyright : ∀ (x : Metadata) y, x.Copyright = Copyright.empty → LegalCopyright y →
      Metadata.stepChild x (marshalCopyright y) = ({ x with Copyright := y }, none) := by
    intro x y hxc hy
    have h1 : Metadata.stepChild x (marshalCopyright y)
        = ({ x with Copyright := (bindCopyright x.Copyright (marshalCopyright y)).1 },
           (bindCopyright x.Copyright (marshalCopyright y)).2) := rfl
    rw [h1, hxc, bindCopyright_marshal y hy]
  have hc_link : ∀ (x : Metadata) y, LegalLink y →
      Metadata.stepChild x (marshalLink y) = ({ x with Links := x.Links ++ [y] }, none) := by
    intro x y hy
    have h1 : Metadata.stepChild x (marshalLink y)
        = ({ x with Links := x.Links ++ [(bindLink Link.empty (marshalLink y)).1] },
           (bindLink Link.empty (marshalLink y)).2) := rfl
    rw [h1, bindLink_marshal y hy]
  have hc_bounds : ∀ (x : Metadata) y, x.Bounds = Bounds.empty → LegalBounds y →
      Metadata.stepChild x (marshalBounds y) = ({ x with Bounds := y }, none) := by
    intro x y hxb hy
    have h1 : Metadata.stepChild x (marshalBounds y)
        = ({ x with Bounds := (bindBounds x.Bounds (marshalBounds y)).1 },
           (bindBounds x.Bounds (marshalBounds y)).2) := rfl
    rw [h1, hxb, bindBounds_marshal y hy]
  have hc_ext : ∀ (x : Metadata) e, x.Extensions = Extension.empty → LegalExtension e →
      Metadata.stepChild x (marshalExtension e) = ({ x with Extensions := e }, none) := by
    intro x e hxe he
    have h1 : Metadata.stepChild x (marshalExtension e)
        = ({ x with Extensions := (bindExtension x.Extensions (marshalExtension e)).1 },
           (bindExtension x.Extensions (marshalExtension e)).2) := rfl
    rw [h1, hxe, bindExtension_marshal e he]
  rw [marshalMetadata, bindMetadata.eq_def]
  dsimp only [Metadata.empty]
  simp only [List.append_assoc, List.cons_append, List.singleton_append, List.nil_append]
  rw [fold_strChild Metadata.stepChild "name" m.Name ⟨"metadata", "", "", Person.empty, Copyright.empty, [], "", "", Bounds.empty, Extension.empty⟩
    ⟨"metadata", m.Name, "", Person.empty, Copyright.empty, [], "", "", Bounds.empty, Extension.empty⟩ _ (hc_name _ _) (fun hv => by rw [hv])]
  rw [fold_strChild Metadata.stepChild "desc" m.Description ⟨"metadata", m.Name, "", Person.empty, Copyright.empty, [], "", "", Bounds.empty, Extension.empty⟩
    ⟨"metadata", m.Name, m.Description, Person.empty, Copyright.empty, [], "", "", Bounds.empty, Extension.empty⟩ _ (hc_desc _ _) (fun hv => by rw [hv])]
  rw [bindFold_cons_ok Metadata.stepChild _ _ ⟨"metadata", m.Name, m.Description, Person.empty, Copyright.empty, [], "", "", Bounds.empty, Extension.empty⟩
    ⟨"metadata", m.Name, m.Description, m.Author, Copyright.empty, [], "", "", Bounds.empty, Extension.empty⟩ (hc_author ⟨"metadata", m.Name, m.Description, Person.empty, Copyright.empty, [], "", "", Bounds.empty, Extension.empty⟩ m.Author rfl hAu)]
  rw [bindFold_cons_ok Metadata.stepChild _ _ ⟨"metadata", m.Name, m.Description, m.Author, Copyright.empty, [], "", "", Bounds.empty, Extension.empty⟩
    ⟨"metadata", m.Name, m.Description, m.Author, m.Copyright, [], "", "", Bounds.empty, Extension.empty⟩ (hc_copyright ⟨"metadata", m.Name, m.Description, m.Author, Copyright.empty, [], "", "", Bounds.empty, Extension.empty⟩ m.Copyright rfl hCp)]
  rw [fold_map Metadata.stepChild marshalLink
    (fun t x => { t with Links := t.Links ++ [x] }) m.Links _
    ⟨"metadata", m.Name, m.Description, m.Author, m.Copyright, [], "", "", Bounds.empty, Extension.empty⟩ (fun s x hx => hc_link s x (hLk x hx))]
  rw [md_foldl_links m.Links ⟨"metadata", m.Name, m.Description, m.Author, m.Copyright, [], "", "", Bounds.empty, Extension.empty⟩]
  dsimp only
  simp only [List.nil_append]
  rw [fold_strChild Metadata.stepChild "time" m.Timestamp ⟨"metadata", m.Name, m.Description, m.Author, m.Copyright, m.Links, "", "", Bounds.empty, Extension.empty⟩
    ⟨"metadata", m.Name, m.Description, m.Author, m.Copyright, m.Links, m.Timestamp, "", Bounds.empty, Extension.empty⟩ _ (hc_time _ _) (fun hv => by rw [hv])]
  rw [fold_strChild Metadata.stepChild "keywords" m.Keywords ⟨"metadata", m.Name, m.Description, m.Author, m.Copyright, m.Links, m.Timestamp, "", Bounds.empty, Extension.empty⟩
    ⟨"metadata", m.Name, m.Description, m.Author, m.Copyright, m.Links, m.Timestamp, m.Keywords, Bounds.empty, Extension.empty⟩ _ (hc_keywords _ _) (fun hv => by rw [hv])]
  rw [bindFold_cons_ok Metadata.stepChild _ _ ⟨"metadata", m.Name, m.Description, m.Author, m.Copyright, m.Links, m.Timestamp, m.Keywords, Bounds.empty, Extension.empty⟩
    ⟨"metadata", m.Name, m.Description, m.Author, m.Copyright, m.Links, m.Timestamp, m.Keywords, m.Bounds, Extension.empty⟩ (hc_bounds ⟨"metadata", m.Name, m.Description, m.Author, m.Copyright, m.Links, m.Timestamp, m.Keywords, Bounds.empty, Extension.empty⟩ m.Bounds rfl hBd)]
  rw [bindFold_cons_ok Metadata.stepChild _ [] ⟨"metadata", m.Name, m.Description, m.Author, m.Copyright, m.Links, m.Timestamp, m.Keywords, m.Bounds, Extension.empty⟩
    ⟨"metadata", m.Name, m.Description, m.Author, m.Copyright, m.Links, m.Timestamp, m.Keywords, m.Bounds, m.Extensions⟩ (hc_ext ⟨"metadata", m.Name, m.Description, m.Author, m.Copyright, m.Links, m.Timestamp, m.Keywords, m.Bounds, Extension.empty⟩ m.Extensions rfl hEx)]
  rw [bindFold_nil, ← hx]


theorem gpx_foldl_wpts : ∀ (items : List WayPoint) (s : GPX),
    items.foldl (fun t x => { t with Waypoints := t.Waypoints ++ [x] }) s
      = { s with Waypoints := s.Waypoints ++ items } := by
  intro items
  induction items with
  | nil =>
      intro s
      simp
  | cons a xs ih =>
      intro s
      rw [List.foldl_cons, ih]
      simp [List.append_assoc]

theorem gpx_foldl_rtes : ∀ (items : List Route) (s : GPX),
    items.foldl (fun t x => { t with Routes := t.Routes ++ [x] }) s
      = { s with Routes := s.Routes ++ items } := by
  intro items
  induction items with
  | nil =>
      intro s
      simp
  | cons a xs ih =>
      intro s
      rw [List.foldl_cons, ih]
      simp [List.append_assoc]

/-- Binding the marshalled tree into a fresh zero Document restores the
document exactly. -/
theorem bindGPX_marshal (g : GPX) (h : SchemaLegal g) :
    bindGPX GPX.empty (marshalGPX g) = (g, none) := by
  obtain ⟨hx, -, -, hMd, hWp, hRt, hTk⟩ := h
  have hversion : ∀ (x : GPX) v, GPX.stepAttr x ("version", v)
      = ({ x with Version := v }, none) := by
    intro x v
    rw [GPX.stepAttr]
    dsimp only
    rw [if_pos rfl]
  have hcreator : ∀ (x : GPX) v, GPX.stepAttr x ("creator", v)
      = ({ x with Creator := v }, none) := by
    intro x v
    rw [GPX.stepAttr]
    dsimp only
    rw [if_neg (by decide), if_pos rfl]
  have hc_md : ∀ (x : GPX) y, x.Metadata = Metadata.empty → LegalMetadata y →
      GPX.stepChild x (marshalMetadata y) = ({ x with Metadata := y }, none) := by
    intro x y hxm hy
    have h1 : GPX.stepChild x (marshalMetadata y)
        = ({ x with Metadata := (bindMetadata x.Metadata (marshalMetadata y)).1 },
           (bindMetadata x.Metadata (marshalMetadata y)).2) := rfl
    rw [h1, hxm, bindMetadata_marshal y hy]
  have hc_wpt : ∀ (x : GPX) y, LegalWayPoint y →
      GPX.stepChild x (marshalWayPoint "wpt" y)
      = ({ x with Waypoints := x.Waypoints ++ [y] }, none) := by
    intro x y hy
    have h1 : GPX.stepChild x (marshalWayPoint "wpt" y)
        = ({ x with Waypoints := x.Waypoints
              ++ [(bindWayPoint WayPoint.empty (marshalWayPoint "wpt" y)).1] },
           (bindWayPoint WayPoint.empty (marshalWayPoint "wpt" y)).2) := rfl
    rw [h1, bindWayPoint_marshal "wpt" y hy]
  have hc_rte : ∀ (x : GPX) y, LegalRoute y →
      GPX.stepChild x (marshalRoute y) = ({ x with Routes := x.Routes ++ [y] }, none) := by
    intro x y hy
    have h1 : GPX.stepChild x (marshalRoute y)
        = ({ x with Routes := x.Routes ++ [(bindRoute Route.empty (marshalRoute y)).1] },
           (bindRoute Route.empty (marshalRoute y)).2) := rfl
    rw [h1, bindRoute_marshal y hy]
  have hc_trk : ∀ (x : GPX) y, x.Tracks = Track.empty → LegalTrack y →
      GPX.stepChild x (marshalTrack y) = ({ x with Tracks := y }, none) := by
    intro x y hxt hy
    have h1 : GPX.stepChild x (marshalTrack y)
        = ({ x with Tracks := (bindTrack x.Tracks (marshalTrack y)).1 },
           (bindTrack x.Tracks (marshalTrack y)).2) := rfl
    rw [h1, hxt, bindTrack_marshal y hy]
  rw [marshalGPX, bindGPX.eq_def]
  dsimp only [GPX.empty]
  rw [if_pos rfl]
  rw [bindFold_cons_ok GPX.stepAttr _ _ ⟨"gpx", "", "", Metadata.empty, [], [], Track.empty⟩
    ⟨"gpx", g.Version, "", Metadata.empty, [], [], Track.empty⟩ (hversion _ _)]
  rw [bindFold_cons_ok GPX.stepAttr _ [] ⟨"gpx", g.Version, "", Metadata.empty, [], [], Track.empty⟩
    ⟨"gpx", g.Version, g.Creator, Metadata.empty, [], [], Track.empty⟩ (hcreator _ _)]
  rw [bindFold_nil]
  dsimp only
  simp only [List.append_assoc, List.cons_append, List.singleton_append, List.nil_append]
  rw [bindFold_cons_ok GPX.stepChild _ _ ⟨"gpx", g.Version, g.Creator, Metadata.empty, [], [], Track.empty⟩
    ⟨"gpx", g.Version, g.Creator, g.Metadata, [], [], Track.empty⟩ (hc_md ⟨"gpx", g.Version, g.Creator, Metadata.empty, [], [], Track.empty⟩ g.Metadata rfl hMd)]
  rw [fold_map GPX.stepChild (marshalWayPoint "wpt")
    (fun t x => { t with Waypoints := t.Waypoints ++ [x] }) g.Waypoints _
    ⟨"gpx", g.Version, g.Creator, g.Metadata, [], [], Track.empty⟩ (fun s x hx => hc_wpt s x (hWp x hx))]
  rw [gpx_foldl_wpts g.Waypoints ⟨"gpx", g.Version, g.Creator, g.Metadata, [], [], Track.empty⟩]
  dsimp only
  simp only [List.nil_append]
  rw [fold_map GPX.stepChild marshalRoute
    (fun t x => { t with Routes := t.Routes ++ [x] }) g.Routes _
    ⟨"gpx", g.Version, g.Creator, g.Metadata, g.Waypoints, [], Track.empty⟩ (fun s x hx => hc_rte s x (hRt x hx))]
  rw [gpx_foldl_rtes g.Routes ⟨"gpx", g.Version, g.Creator, g.Metadata, g.Waypoints, [], Track.empty⟩]
  dsimp only
  simp only [List.nil_append]
  rw [bindFold_cons_ok GPX.stepChild _ [] ⟨"gpx", g.Version, g.Creator, g.Metadata, g.Waypoints, g.Routes, Track.empty⟩
    ⟨"gpx", g.Version, g.Creator, g.Metadata, g.Waypoints, g.Routes, g.Tracks⟩ (hc_trk ⟨"gpx", g.Version, g.Creator, g.Metadata, g.Waypoints, g.Routes, Track.empty⟩ g.Tracks rfl hTk)]
  rw [bindFold_nil, ← hx]

/-- C2: for every Document value d whose fields are constructed purely
from schema-legal field values, decoding the encoding of d (encode via
the annotated schema model, decode via Parse into a fresh zero receiver)
yields exactly d with no error: the round trip is the identity on
schema-legal documents, and an optional field set to its zero value is
omitted by the encoder and decodes back as the same zero value. -/
theorem c2_roundtrip (d : GPX) (h : SchemaLegal d) :
    Parse (Marshal d) GPX.empty = (d, none) := by
  rw [Parse_marshal d (goodTree_marshalGPX d), bindGPX_marshal d h]

set_option synthInstance.maxSize 2000 in
set_option synthInstance.maxHeartbeats 1000000 in
set_option maxRecDepth 4000 in
theorem c2_witness : SchemaLegal c2doc ∧ Parse (Marshal c2doc) GPX.empty = (c2doc, none) :=
  ⟨by decide, c2_roundtrip c2doc (by decide)⟩


end GpxSpec
